import Mathlib

/-!
Verification of the SmartFS image builder (smartfs-tools).

A shallow embedding of the Python sources in `smartfs_tools/`:
`base.py` (sector codec), `smart.py` (MTD block layer) and
`smart_high.py` (directory/file layer).

Conventions of the embedding:
* a byte is a `Nat` below 256; byte strings are `List Nat`;
* the image `bytearray` is a total function `Nat → Nat` together with an
  explicit length (`imgLen`); Python slice assignments of equal length
  become `writeRange` / `writeConst`;
* Python `raise` becomes `Except Err`;
* Python `int` is `Nat` where the source only ever holds non-negative
  values, and `Int` where a signed decode (`struct.unpack "<h"`) or a
  comparison with `-1` occurs in the source;
* `while True:` loops are embedded with an explicit fuel argument; running
  out of fuel is the distinguished error `Err.fuelExhausted`, which the
  Python code never produces (every real behaviour is reproduced with a
  sufficiently large fuel).
-/

namespace SmartFS

/-- `base.LS_HIGHT_NUMBER`: the highest (reserved) logical sector number. -/
def LS_HIGHT_NUMBER : Nat := 0xffff

/-- `base.PS_NOT_ALLOCATED`: marker for an unallocated physical sector. -/
def PS_NOT_ALLOCATED : Nat := 0xffff

/-- `base.SCTN_ROOT_DIR_SECTOR`: logical sector of the root directory. -/
def SCTN_ROOT_DIR_SECTOR : Nat := 3

/-- `base.SCTN_FIRST_ALLOC_SECTOR`: first logical sector used for scans. -/
def SCTN_FIRST_ALLOC_SECTOR : Nat := 12

/-- `base.Signature = b"SMRT"`. -/
def Signature : List Nat := [0x53, 0x4d, 0x52, 0x54]

/-- The kinds of exceptions the embedded code can raise.  Each constructor
corresponds to one `raise` site (or one Python runtime error) of the source;
`fuelExhausted` is an artifact of embedding unbounded `while` loops. -/
inductive Err where
  | outOfSpace        -- smart.py: "Not enough free sectors"
  | alreadyAllocated  -- smart.py: "Sector ... is already allocated"
  | noLogical         -- smart.py: "No available logical sector"
  | noPhysical        -- smart.py: "No available physical sector"
  | invalidPhysSector -- smart.py: "Invalid physical sector number"
  | invalidVersion    -- base.py: "Invalid version" / enum Version(...)
  | invalidSize       -- base.py: "Invalid sector header size" etc.
  | invalidSectorType -- base.py: enum SectorType(value) fails
  | boundsError       -- base.py: set_bytes / read_object end beyond buffer
  | crcUnsupported    -- base.py: "CRC value is not supported"
  | keyError          -- Python dict KeyError (smap lookup of a missing key)
  | overflowError     -- Python int.to_bytes of a negative int
  | filenameTooLong   -- smart_high.py: "Filename too long"
  | dirNotFound       -- smart_high.py: "Directory not found: ..."
  | pathNotAbsolute   -- smart_high.py: "Path must be absolute"
  | cantCreateRoot    -- smart_high.py: "Can't create root directory"
  | invalidSectorCount -- smart.py: "Invalid SMART sector count ..."
  | fuelExhausted     -- embedding artifact, never a real behaviour
  deriving DecidableEq, Repr

/-! ## Byte store primitives -/

/-- Point update of a `Nat`-indexed store (a Python item assignment). -/
def updFn (f : Nat → Nat) (k v : Nat) : Nat → Nat :=
  fun x => if x = k then v else f x

/-- Equal-length slice assignment `buf[start:start+len(v)] = v`. -/
def writeRange (f : Nat → Nat) (start : Nat) (v : List Nat) : Nat → Nat :=
  fun a => if start ≤ a ∧ a < start + v.length then v.getD (a - start) 0 else f a

/-- Slice assignment of a repeated byte: `buf[start:start+cnt] = val*cnt`. -/
def writeConst (f : Nat → Nat) (start cnt val : Nat) : Nat → Nat :=
  fun a => if start ≤ a ∧ a < start + cnt then val else f a

/-- Read `n` consecutive bytes starting at `a` as a list (a Python slice). -/
def regionList (f : Nat → Nat) (a n : Nat) : List Nat :=
  (List.range n).map (fun i => f (a + i))

/-! ## CRC-8/CCITT (polynomial 0x07, init 0x00, no reflection, no xor-out)

This embeds the `crc` library's `Crc8.CCITT` calculator used by
`Sector._calc_crc`. -/

/-- One shift step of CRC-8/CCITT. -/
def crc8Step (c : Nat) : Nat :=
  if c &&& 0x80 ≠ 0 then ((c <<< 1) ^^^ 0x07) % 256 else (c <<< 1) % 256

/-- Fold one input byte into the CRC-8/CCITT register. -/
def crc8Byte (c b : Nat) : Nat :=
  (List.range 8).foldl (fun acc _ => crc8Step acc) ((c ^^^ b) % 256)

/-- CRC-8/CCITT checksum of a byte string. -/
def crc8 (data : List Nat) : Nat :=
  data.foldl crc8Byte 0

/-! ## Sector codec (`base.py`) -/

/-- `base.CRCValue`. -/
inductive CRCValue where
  | disable
  | crc8mode
  | crc16mode
  deriving DecidableEq, Repr

/-- `base.SectorStatus`: the five bit fields of the sector status byte.
`committed`/`released`/`crcEnable` are single bits, `sectorSize` the 3-bit
size code, `formatVersion` the 2-bit version. -/
structure SectorStatus where
  committed : Nat
  released : Nat
  crcEnable : Nat
  sectorSize : Nat
  formatVersion : Nat
  deriving DecidableEq, Repr

/-- `SectorStatus.get_pack`: pack the five fields into the status byte. -/
def SectorStatus.getPack (s : SectorStatus) : Nat :=
  (s.committed <<< 7) ||| (s.released <<< 6) ||| (s.crcEnable <<< 5) |||
    (s.sectorSize <<< 2) ||| s.formatVersion

/-- `SectorStatus.create_from_int`.  The `Version(...)` enum constructor
raises `ValueError` unless the 2 version bits equal `0b01` (only v1 is
defined); `Commited`, `Released` and `SectorSize` accept every value of
their bit width. -/
def SectorStatus.createFromInt (value : Nat) : Except Err SectorStatus :=
  if (value >>> 0) &&& 0x3 ≠ 1 then .error .invalidVersion
  else .ok ⟨(value >>> 7) &&& 0x1, (value >>> 6) &&& 0x1, (value >>> 5) &&& 0x1,
            (value >>> 2) &&& 0x7, (value >>> 0) &&& 0x3⟩

/-- `base.SectorHeaderV1` (5 bytes): logical sector number, sequence
number, CRC value and status.  `crc` selects which variant byte 3 holds. -/
structure SectorHeaderV1 where
  logicalSectorNumber : Nat
  sequenceNumber : Nat
  status : SectorStatus
  crcValue : Nat
  crc : CRCValue
  deriving DecidableEq, Repr

/-- First three bytes of `SectorHeaderV1.get_pack` (`struct.pack "<HBB"`,
truncated): logical number little-endian, then the low sequence byte.
These three bytes are shared by the CRC-disabled and crc8 variants. -/
def SectorHeaderV1.pack3 (h : SectorHeaderV1) : List Nat :=
  [h.logicalSectorNumber % 256, (h.logicalSectorNumber / 256) % 256,
   h.sequenceNumber % 256]

/-- `SectorHeaderV1.get_pack`.  With CRC disabled byte 3 is the high
sequence byte, with crc8 it is the CRC value; crc16 raises. -/
def SectorHeaderV1.getPack (h : SectorHeaderV1) : Except Err (List Nat) :=
  match h.crc with
  | .disable =>
      .ok (h.pack3 ++ [(h.sequenceNumber >>> 8) % 256, h.status.getPack])
  | .crc8mode =>
      .ok (h.pack3 ++ [h.crcValue % 256, h.status.getPack])
  | .crc16mode => .error .crcUnsupported

/-- `SectorHeaderV1.create_from_bytes` (reached through
`SectorHeader.create_from_raw`, which checks the length is 5 and that the
status byte carries version v1). -/
def SectorHeaderV1.createFromRaw (value : List Nat) : Except Err SectorHeaderV1 :=
  if value.length ≠ 5 then .error .invalidSize
  else do
    let status ← SectorStatus.createFromInt (value.getD 4 0)
    let seq0 := value.getD 2 0
    if status.crcEnable = 1 then
      .ok ⟨(value.getD 0 0) + 256 * (value.getD 1 0), seq0, status,
           value.getD 3 0, .crc8mode⟩
    else
      .ok ⟨(value.getD 0 0) + 256 * (value.getD 1 0),
           seq0 + ((value.getD 3 0) <<< 8), status, 0, .disable⟩

/-- `base.ChainHeader` (CH, 5 bytes): sector type byte (1 = directory,
2 = file), next logical sector, bytes used. -/
structure ChainHeader where
  sectorType : Nat
  nextSector : Nat
  used : Nat
  deriving DecidableEq, Repr

/-- `ChainHeader.get_pack` (`struct.pack "<BHH"`). -/
def ChainHeader.getPack (ch : ChainHeader) : List Nat :=
  [ch.sectorType % 256, ch.nextSector % 256, (ch.nextSector / 256) % 256,
   ch.used % 256, (ch.used / 256) % 256]

/-- `ChainHeader.get_size()` = 5. -/
def chainHeaderSize : Nat := 5

/-- `ChainHeader.create_from_raw`: checks the length, decodes the type
byte through the `SectorType` enum (raising unless it is 1 or 2), and the
two little-endian u16 fields. -/
def ChainHeader.createFromRaw (value : List Nat) : Except Err ChainHeader :=
  if value.length ≠ chainHeaderSize then .error .invalidSize
  else if value.getD 0 0 ≠ 1 ∧ value.getD 0 0 ≠ 2 then .error .invalidSectorType
  else .ok ⟨value.getD 0 0,
            (value.getD 1 0) + 256 * (value.getD 2 0),
            (value.getD 3 0) + 256 * (value.getD 4 0)⟩

/-- `Sector.get_next_sector_number`: reads the chain header that starts
right after the 5-byte sector header of the sector view based at `base`
and compares its (unsigned) `next_sector` field with `-1`.  The field is
decoded by `int.from_bytes(..., "little")` and is therefore never
negative, which is why the comparison is made over `Int`, exactly as the
Python `==` compares the non-negative `next_sector` with `-1`. -/
def sectorGetNextNumber (img : Nat → Nat) (base : Nat) :
    Except Err (Option Nat) := do
  let ch ← ChainHeader.createFromRaw (regionList img (base + 5) chainHeaderSize)
  if (ch.nextSector : Int) = -1 then pure none
  else pure (some ch.nextSector)

/-! ## Sector mutation (`base.Sector`)

A `Sector` binds a view of the image: `base` is the byte offset of the
view in the image and `secLen` its length (the sector size in bytes).
The header object the Python class carries is passed explicitly. -/

/-- `Sector._calc_crc`: `None` when CRC is disabled, the crc8 checksum of
(data region ∥ first 3 header bytes ∥ status byte) for crc8, and a raise
for crc16.  The data region is `storage[header.size:]`, i.e. the bytes of
the view from offset 5 to `secLen`. -/
def sectorCalcCrc (img : Nat → Nat) (base secLen : Nat) (h : SectorHeaderV1) :
    Except Err (Option Nat) :=
  match h.crc with
  | .disable => .ok none
  | .crc8mode =>
      .ok (some (crc8 (regionList img (base + 5) (secLen - 5) ++
                       h.pack3 ++ [h.status.getPack])))
  | .crc16mode => .error .crcUnsupported

/-- Store the result of `_calc_crc` into `header.crc_value`.  Python
assigns `None` in the CRC-disabled case; that value is never read again
(the disabled `get_pack` uses the sequence number), so the embedding
keeps the old field there. -/
def sectorStoreCrc (h : SectorHeaderV1) : Option Nat → SectorHeaderV1
  | some v => { h with crcValue := v }
  | none => h

/-- `Sector._save_header`: write `header.get_pack()` to the first 5 bytes
of the view. -/
def sectorSaveHeader (img : Nat → Nat) (base : Nat) (h : SectorHeaderV1) :
    Except Err (Nat → Nat) := do
  let packed ← h.getPack
  pure (writeRange img base packed)

/-- `Sector.set_bytes(pfrom, value)`: bounds check against the view,
write the bytes at `header.size + pfrom`, recompute the CRC and rewrite
the header.  Returns the new image and the updated header object. -/
def sectorSetBytes (img : Nat → Nat) (base secLen : Nat) (h : SectorHeaderV1)
    (pfrom : Nat) (value : List Nat) :
    Except Err ((Nat → Nat) × SectorHeaderV1) := do
  let endPosition := 5 + pfrom + value.length
  if secLen < endPosition then .error .boundsError
  else do
    let img1 := writeRange img (base + 5 + pfrom) value
    let c ← sectorCalcCrc img1 base secLen h
    let h1 := sectorStoreCrc h c
    let img2 ← sectorSaveHeader img1 base h1
    pure (img2, h1)

/-- `Sector.__init__` with `is_new=True`: `_fill` writes `b"a"` at byte 0
and the fill byte over the data region, then the CRC is computed and the
header saved. -/
def sectorCreateNew (img : Nat → Nat) (base secLen : Nat) (fillValue : Nat)
    (h : SectorHeaderV1) : Except Err ((Nat → Nat) × SectorHeaderV1) := do
  let img1 := writeRange img base [0x61]
  let img2 := writeConst img1 (base + 5) (secLen - 5) fillValue
  let c ← sectorCalcCrc img2 base secLen h
  let h1 := sectorStoreCrc h c
  let img3 ← sectorSaveHeader img2 base h1
  pure (img3, h1)

/-- `Sector.borders_is_big(offset, size)`: `true` when
`[5+offset, 5+offset+size)` leaves the view. -/
def sectorBordersIsBig (secLen offset size : Nat) : Bool :=
  secLen < 5 + offset ∨ secLen < 5 + offset + size

/-- `Sector.read_object` bounds handling: the raw bytes
`storage[5+offset : 5+offset+size]`, or a raise when the end leaves the
view. -/
def sectorReadBytes (img : Nat → Nat) (base secLen offset size : Nat) :
    Except Err (List Nat) :=
  if secLen < 5 + offset + size then .error .boundsError
  else .ok (regionList img (base + 5 + offset) size)

/-! ## MTD block layer (`smart.py`) -/

/-- The state of `MTDBlockLayer` plus the image buffer it owns.

`free_sector_map` is built by `[[1] * sectorsperblk] * neraseblocks`: the
outer `*` copies the *reference* to one inner list, so the Python object
graph is a list of references into a heap of list objects.  The embedding
keeps that graph: `fsmRows` holds the references (indices into
`fsmStore`) and `fsmStore` the list objects. -/
structure MTD where
  imgLen : Nat
  img : Nat → Nat
  eraseBlockSize : Nat
  fillValue : Nat
  sectorSizeCode : Nat     -- config sector_size (the SectorSize enum value)
  sectorSizeByte : Nat     -- SectorSize.cnv_to_size of the code
  crc : CRCValue           -- config crc
  maxLenFilename : Nat
  numberRootDir : Nat
  clock : Nat              -- the wall clock `datetime.now` reads
  neraseblocks : Nat
  sectorsperblk : Nat
  totalsectors : Nat
  freesectors : Nat
  smap : Nat → Nat
  lastallocblock : Nat
  fsmRows : List Nat
  fsmStore : List (List Nat)

/-- The keys of the `smap` dict: `range(neraseblocks * sectorsperblk)`
(built before the 65536 special case decrements `totalsectors`). -/
def MTD.rawTotal (st : MTD) : Nat := st.neraseblocks * st.sectorsperblk

/-- Resolve `free_sector_map[eb]` through the reference graph. -/
def MTD.fsmRow (st : MTD) (eb : Nat) : List Nat :=
  st.fsmStore.getD (st.fsmRows.getD eb 0) []

/-- `free_sector_map[eb][i] = v`: mutate the list object
`free_sector_map[eb]` refers to. -/
def MTD.fsmSet (st : MTD) (eb i v : Nat) : MTD :=
  let ref := st.fsmRows.getD eb 0
  { st with fsmStore := st.fsmStore.set ref ((st.fsmStore.getD ref []).set i v) }

/-- `MTDBlockLayer._initialize`.  Computes the geometry, builds the maps,
rejects more than 65536 sectors and wastes two sectors at exactly 65536.
`freesectors` is set from `totalsectors` *before* that decrement. -/
def smartInitStruct (storageSize eraseBlockSize : Nat) (fillValue : Nat)
    (sectorSizeCode : Nat) (crc : CRCValue) (maxLenFilename numberRootDir : Nat)
    (clock : Nat) : Except Err MTD := do
  let sectorSizeByte := 2 ^ (sectorSizeCode + 8)
  let neraseblocks := storageSize / eraseBlockSize
  let sectorsperblk := eraseBlockSize / sectorSizeByte
  let totalsectors := neraseblocks * sectorsperblk
  if totalsectors > 65536 then .error .invalidSectorCount
  else
    .ok { imgLen := storageSize
          img := fun _ => 0           -- the caller passes `bytearray(size)`
          eraseBlockSize := eraseBlockSize
          fillValue := fillValue
          sectorSizeCode := sectorSizeCode
          sectorSizeByte := sectorSizeByte
          crc := crc
          maxLenFilename := maxLenFilename
          numberRootDir := numberRootDir
          clock := clock
          neraseblocks := neraseblocks
          sectorsperblk := sectorsperblk
          totalsectors := if totalsectors = 65536 then totalsectors - 2
                          else totalsectors
          freesectors := totalsectors
          smap := fun _ => PS_NOT_ALLOCATED
          lastallocblock := 0
          fsmRows := List.replicate neraseblocks 0
          fsmStore := [List.replicate sectorsperblk 1] }

/-- The status byte `_phy_sector_create` builds: committed (0),
not released (1), CRC bit per config, size code per config, version 1. -/
def createStatus (st : MTD) : SectorStatus :=
  ⟨0, 1, if st.crc = .disable then 0 else 1, st.sectorSizeCode, 1⟩

/-- `MTDBlockLayer._phy_sector_create`: build a new `Sector` over the view
`[phy*sector_size, (phy+1)*sector_size)` with a fresh header. -/
def phySectorCreate (st : MTD) (phySectorNumber logicalSectorNumber
    sequenceNumber : Nat) : Except Err MTD := do
  let bStart := phySectorNumber * st.sectorSizeByte
  let h : SectorHeaderV1 :=
    ⟨logicalSectorNumber, sequenceNumber, createStatus st, 0, st.crc⟩
  let r ← sectorCreateNew st.img bStart st.sectorSizeByte st.fillValue h
  pure { st with img := r.1 }

/-- `MTDBlockLayer._phy_sector_get`: validate the physical number and
parse the stored header (attach mode). -/
def phySectorGet (st : MTD) (phySectorNumber : Nat) :
    Except Err (Nat × SectorHeaderV1) := do
  if phySectorNumber > 65535 ∨ phySectorNumber = PS_NOT_ALLOCATED then
    .error .invalidPhysSector
  else do
    let h ← SectorHeaderV1.createFromRaw
      (regionList st.img (phySectorNumber * st.sectorSizeByte) 5)
    pure (phySectorNumber * st.sectorSizeByte, h)

/-- `MTDBlockLayer._log_sector_get`: `smap[log_sector]` is a dict lookup
(KeyError outside `range(rawTotal)`), then `_phy_sector_get`. -/
def logSectorGet (st : MTD) (logSector : Nat) :
    Except Err (Nat × SectorHeaderV1) := do
  if logSector < st.rawTotal then phySectorGet st (st.smap logSector)
  else .error .keyError

/-- `set_bytes` on the sector view returned by `_log_sector_get`. -/
def mtdSetBytesLog (st : MTD) (logSector pfrom : Nat) (value : List Nat) :
    Except Err MTD := do
  let bh ← logSectorGet st logSector
  let r ← sectorSetBytes st.img bh.1 st.sectorSizeByte bh.2 pfrom value
  pure { st with img := r.1 }

/-- The body of `for eb, sectors in enumerate(free_sector_map)` in
`_findfreephyssector`, with its `break`/`continue`/reassignment of
`block`; the list argument is the tail of `free_sector_map` still to be
enumerated and `eb` the index of its head. -/
def findBlockAux (st : MTD) : Nat → Nat → List Nat → Nat
  | block, _, [] => block
  | block, eb, ref :: rest =>
      if (st.fsmRow block).sum = st.sectorsperblk then block
      else if (st.fsmStore.getD ref []).sum = 0 then
        findBlockAux st block (eb + 1) rest
      else if (st.fsmStore.getD ref []).sum > (st.fsmRow block).sum then
        findBlockAux st eb (eb + 1) rest
      else findBlockAux st block (eb + 1) rest

/-- Second half of `_findfreephyssector` on the chosen erase block: the
"no free sectors" raise, then the scan for the lowest free sector, which
is marked used (through the shared row object) while `lastallocblock`
records the block. -/
def findFreeInBlock (st1 : MTD) (block : Nat) : Except Err (MTD × Nat) :=
  if (st1.fsmRow block).sum = 0 then .error .noPhysical
  else
    match (st1.fsmRow block).findIdx? (· = 1) with
    | some i =>
        let st2 := (st1.fsmSet block i 0)
        .ok ({ st2 with lastallocblock := block },
             block * st1.sectorsperblk + i)
    | none => .ok (st1, PS_NOT_ALLOCATED)

/-- `MTDBlockLayer._findfreephyssector`: advance the round-robin counter,
choose an erase block (`findBlockAux`), then allocate inside it
(`findFreeInBlock`). -/
def findFreePhysSector (st : MTD) : Except Err (MTD × Nat) :=
  let la1 := st.lastallocblock + 1
  let la2 := if la1 ≥ st.neraseblocks then 0 else la1
  let st1 := { st with lastallocblock := la2 }
  let block := findBlockAux st1 la2 0 st1.fsmRows
  findFreeInBlock st1 block

/-- The scan `for x in range(SCTN_FIRST_ALLOC_SECTOR, totalsectors)` of
`_allocsector`, returning the previous `logsector` value (0xffff) when
nothing is free. -/
def scanFreeLogical (st : MTD) : Nat :=
  ((List.range' SCTN_FIRST_ALLOC_SECTOR
      (st.totalsectors - SCTN_FIRST_ALLOC_SECTOR)).find?
    (fun x => st.smap x = PS_NOT_ALLOCATED)).getD LS_HIGHT_NUMBER

/-- Tail of the logical-sector selection of `_allocsector`, after the
requested-number check set `log1`: the `requested == 0xffff` scan and the
"no available logical sector" raise. -/
def allocLogicalDone (st : MTD) (requested log1 : Nat) : Except Err Nat :=
  if (if requested = LS_HIGHT_NUMBER then scanFreeLogical st else log1) =
      LS_HIGHT_NUMBER then
    .error .noLogical
  else .ok (if requested = LS_HIGHT_NUMBER then scanFreeLogical st else log1)

/-- The logical-sector selection of `_allocsector`: validate a requested
number (initialising `logsector` to 0xffff otherwise), scan when the
request is 0xffff, and raise when nothing is selected. -/
def allocLogical (st : MTD) (requested : Nat) : Except Err Nat :=
  if requested < st.totalsectors then
    if st.smap requested ≠ PS_NOT_ALLOCATED then .error .alreadyAllocated
    else allocLogicalDone st requested requested
  else allocLogicalDone st requested LS_HIGHT_NUMBER

/-- The physical-sector selection of `_allocsector`: the erase-block
policy when no physical sector is pinned, else the caller's choice. -/
def allocPhysical (st : MTD) (physicalSector : Option Nat) :
    Except Err (MTD × Nat) :=
  match physicalSector with
  | none => findFreePhysSector st
  | some p => .ok (st, p)

/-- `MTDBlockLayer._allocsector(requested, physical_sector)`. -/
def allocSector (st : MTD) (requested : Nat) (physicalSector : Option Nat) :
    Except Err (MTD × Nat) := do
  if st.freesectors < st.sectorsperblk + 4 then .error .outOfSpace
  else do
    let logsector ← allocLogical st requested
    let stp ← allocPhysical st physicalSector
    if stp.2 = PS_NOT_ALLOCATED then .error .noPhysical
    else do
      let st2 ← phySectorCreate stp.1 stp.2 logsector 0
      pure ({ st2 with
                smap := updFn st2.smap logsector stp.2
                freesectors := st2.freesectors - 1 }, logsector)

/-- `MTDBlockLayer._llformat`: allocate logical 0 pinned to physical 0 and
write the format header (signature, version, max filename length, number
of extra root dirs) through four `set_bytes` calls on physical sector 0.
The Python code reuses one `Sector` object for the four writes; re-reading
the view before each write parses back exactly the header the previous
write saved, so the two are equivalent. -/
def llformat (st : MTD) : Except Err MTD := do
  let ra ← allocSector st 0 (some 0)
  let bh ← phySectorGet ra.1 0
  let r1 ← sectorSetBytes ra.1.img bh.1 ra.1.sectorSizeByte bh.2 0 Signature
  let r2 ← sectorSetBytes r1.1 bh.1 ra.1.sectorSizeByte r1.2 4 [1]
  let r3 ← sectorSetBytes r2.1 bh.1 ra.1.sectorSizeByte r2.2 5
      [ra.1.maxLenFilename % 256]
  let r4 ← sectorSetBytes r3.1 bh.1 ra.1.sectorSizeByte r3.2 6
      [ra.1.numberRootDir % 256]
  pure { ra.1 with img := r4.1 }

/-- The loop body of `_fs_media_write`: allocate the pinned root sector and
stamp its chain header `(directory, 0xffff, 0xffff)`. -/
def fsMediaWriteLoop (st : MTD) (sectorNumber : Nat) :
    Nat → Except Err MTD
  | 0 => pure st
  | n + 1 => do
      let ra ← allocSector st sectorNumber none
      let st2 ← mtdSetBytesLog ra.1 sectorNumber 0
        (ChainHeader.getPack ⟨1, 0xffff, 0xffff⟩)
      fsMediaWriteLoop st2 (sectorNumber + 1) n

/-- `MTDBlockLayer._fs_media_write`: `number_root_dir + 1` iterations
starting at logical sector `SCTN_ROOT_DIR_SECTOR`. -/
def fsMediaWrite (st : MTD) : Except Err MTD :=
  fsMediaWriteLoop st SCTN_ROOT_DIR_SECTOR (st.numberRootDir + 1)

/-- `MTDBlockLayer.__init__`: `_initialize`, then — when `formated` — fill
the buffer with the fill value, `_llformat`, `_fs_media_write`, and mark
`free_sector_map[0][0] = 0`. -/
def mtdConstruct (storageSize eraseBlockSize : Nat) (sectorSizeCode : Nat)
    (crc : CRCValue) (maxLenFilename numberRootDir : Nat) (clock : Nat)
    (formated : Bool) : Except Err MTD := do
  let st ← smartInitStruct storageSize eraseBlockSize 0xFF sectorSizeCode crc
      maxLenFilename numberRootDir clock
  if formated then do
    let st2 ← llformat { st with img := fun _ => st.fillValue }
    let st3 ← fsMediaWrite st2
    pure (st3.fsmSet 0 0 0)
  else pure st

/-! ## Directory entry codec (`base.py`, entry structures) -/

/-- Little-endian 16-bit packing of a value below 2^16. -/
def le16 (v : Nat) : List Nat := [v % 256, (v / 256) % 256]

/-- Little-endian 32-bit packing (`struct.pack "<I"`). -/
def u32Pack (n : Nat) : List Nat :=
  [n % 256, (n / 256) % 256, (n / 65536) % 256, (n / 16777216) % 256]

/-- `struct.unpack "<h"`: two's-complement signed 16-bit decode. -/
def signed16 (v : Nat) : Int :=
  if v ≥ 32768 then (v : Int) - 65536 else (v : Int)

/-- `struct.pack "<h"` as two's-complement bytes (Python raises outside
`[-32768, 32767]`; the builder only packs allocated sector numbers). -/
def int16Pack (i : Int) : List Nat :=
  le16 ((i % 65536).toNat)

/-- Python `int.to_bytes(2, "little")`: raises `OverflowError` for a
negative value (and for one that does not fit two bytes). -/
def intToBytes2 (i : Int) : Except Err (List Nat) :=
  if i < 0 then .error .overflowError
  else if 65536 ≤ i then .error .overflowError
  else .ok (le16 i.toNat)

/-- Drop the trailing zero bytes (`.rstrip("\x00")`). -/
def rstripZeros (l : List Nat) : List Nat :=
  (l.reverse.dropWhile (· = 0)).reverse

/-- Modelled from the spec: `base.PBits`, one rwx permission triple, is
referenced by `smart_high.py` and the tests but its class is missing from
this snapshot of `base.py`.  Per the spec each of owner/group/other is a
3-bit rwx group, so `get_int` packs r, w, x into bits 2, 1, 0. -/
structure PBits where
  r : Nat
  w : Nat
  x : Nat
  deriving DecidableEq, Repr

/-- Modelled from the spec: `PBits.get_int`. -/
def PBits.getInt (p : PBits) : Nat := (p.r <<< 2) ||| (p.w <<< 1) ||| p.x

/-- Modelled from the spec: `base.ModeBits`, the 9-bit POSIX-style mode
(missing from this snapshot of `base.py`); bits 8–6 are `other`, 5–3
`group`, 2–0 `owner`. -/
structure ModeBits where
  owner : PBits
  group : PBits
  other : PBits
  deriving DecidableEq, Repr

/-- Modelled from the spec: `ModeBits.get_int`. -/
def ModeBits.getInt (m : ModeBits) : Nat :=
  (m.other.getInt <<< 6) ||| (m.group.getInt <<< 3) ||| m.owner.getInt

/-- `base.SmartFSDirEntryFlags`: the EH flag word fields.  `typeBit` is
the `SMARTFS_DIRENT_TYPE` bit (0 = file, 1 = directory); `mode` the 9-bit
permission field. -/
structure EntryFlags where
  empty : Nat
  active : Nat
  typeBit : Nat
  deleting : Nat
  mode : Nat
  deriving DecidableEq, Repr

/-- `SmartFSDirEntryFlags.get_pack` (`struct.pack "<H"` of the flag
word). -/
def EntryFlags.getPack (f : EntryFlags) : List Nat :=
  le16 ((f.empty <<< 15) ||| (f.active <<< 14) ||| (f.typeBit <<< 13) |||
        (f.deleting <<< 12) ||| (0b111 <<< 9) ||| f.mode)

/-- `SmartFSDirEntryFlags.create_from_raw` (little-endian input). -/
def EntryFlags.createFromRaw (values : List Nat) : EntryFlags :=
  ⟨(values.getD 1 0 &&& 0x80) >>> 7,
   (values.getD 1 0 &&& 0x40) >>> 6,
   (values.getD 1 0 &&& 0x20) >>> 5,
   (values.getD 1 0 &&& 0x10) >>> 4,
   (values.getD 0 0 + (values.getD 1 0 <<< 8)) &&& 0x01FF⟩

/-- `base.SmartFSEntryHeader`: flags, signed first sector, timestamp
(embedded as the Unix seconds the `datetime` holds) and name. -/
structure EntryHeader where
  flags : EntryFlags
  firstSector : Int
  utc : Nat
  name : String
  deriving DecidableEq, Repr

/-- `SmartFSEntryHeader.get_size(max_len_filename)` = 2+2+4+n. -/
def sizeEntryHeader (maxLenFilename : Nat) : Nat := 2 + 2 + 4 + maxLenFilename

/-- `SmartFSEntryHeader.get_pack(max_name_len)`: raises when the name is
longer than `max_name_len`, else flags ∥ first sector ∥ utc ∥ name padded
with zero bytes. -/
def EntryHeader.getPack (e : EntryHeader) (maxNameLen : Nat) :
    Except Err (List Nat) :=
  if e.name.length > maxNameLen then .error .filenameTooLong
  else .ok (e.flags.getPack ++ int16Pack e.firstSector ++ u32Pack e.utc ++
            (e.name.toList.map Char.toNat ++
             List.replicate (maxNameLen - e.name.length) 0))

/-- `SmartFSEntryHeader.create_from_raw`: the name is empty when its
first byte is `0xff` (a never-written slot), else the ASCII decode with
trailing zero bytes stripped. -/
def EntryHeader.createFromRaw (value : List Nat) : EntryHeader :=
  { flags := EntryFlags.createFromRaw (value.take 2)
    firstSector := signed16 (value.getD 2 0 + 256 * value.getD 3 0)
    utc := value.getD 4 0 + 256 * value.getD 5 0 + 65536 * value.getD 6 0 +
           16777216 * value.getD 7 0
    name := if value.getD 8 0 = 0xff then ""
            else String.mk ((rstripZeros (value.drop 8)).map Char.ofNat) }

/-- `base.SmartFSEntry`: the in-memory entry (first sector is the
pydantic `int` fed from the signed EH field, hence `Int`). -/
structure SmartEntry where
  firstSector : Int
  dirSector : Nat
  dirOffset : Nat
  name : String
  deriving DecidableEq, Repr

/-! ## Directory/file layer (`smart_high.py`) -/

/-- `SmartHigh._create_smart_entry_root`. -/
def createSmartEntryRoot (st : MTD) : Except Err SmartEntry := do
  let bh ← logSectorGet st SCTN_ROOT_DIR_SECTOR
  pure ⟨Int.ofNat bh.2.logicalSectorNumber, bh.2.logicalSectorNumber, 0, "/"⟩

/-- The inner `while True` of `_finddirentry`: read EH slots at offsets
`CH_size + dir_offset`, stop with the found entry, with `none` at an
empty-slot marker (only reachable if `first_sector.to_bytes` succeeds),
or with the raise `read_object` or `to_bytes` produces. -/
def findScanSlots (st : MTD) (comp : String) (curLog : Nat) :
    Nat → Nat → Except Err (Option SmartEntry)
  | _, 0 => .error .fuelExhausted
  | dirOffset, fuel + 1 => do
      let bh ← logSectorGet st curLog
      let sizeHeader := sizeEntryHeader st.maxLenFilename
      let bytes ← sectorReadBytes st.img bh.1 st.sectorSizeByte
          (chainHeaderSize + dirOffset) sizeHeader
      let eh := EntryHeader.createFromRaw bytes
      let b2 ← intToBytes2 eh.firstSector
      if b2 = [0xff, 0xff] then pure none
      else if eh.name = comp then
        pure (some ⟨eh.firstSector, bh.2.logicalSectorNumber, dirOffset,
                    eh.name⟩)
      else findScanSlots st comp curLog (dirOffset + sizeHeader) fuel

/-- The `for sector in self._walk_sectors_in_entry(entry)` loop of
`_finddirentry` for one path component: scan the current sector, then let
the generator advance (`get_next_sector_number`, then `_log_sector_get`
of its value); the loop only ends when the generator stops, and the
last found entry (if any) is what `_finddirentry` keeps. -/
def findWalk (st : MTD) (comp : String) :
    Nat → Option SmartEntry → Nat → Except Err (Option SmartEntry)
  | _, _, 0 => .error .fuelExhausted
  | curLog, found, fuel + 1 => do
      let r ← findScanSlots st comp curLog 0 (st.sectorSizeByte + 1)
      let found1 := match r with
        | some e => some e
        | none => found
      let bh ← logSectorGet st curLog
      let nxt ← sectorGetNextNumber st.img bh.1
      match nxt with
      | none => pure found1
      | some n => do
          let _ ← logSectorGet st n
          findWalk st comp n found1 fuel

/-- One component step of `_finddirentry`: walk the chain of the current
entry; raise "Directory not found" when the walk finishes without a
find.  The walk starts at `entry.first_sector`, an `int` dict key. -/
def findComponent (st : MTD) (entry : SmartEntry) (comp : String)
    (fuel : Nat) : Except Err SmartEntry := do
  if entry.firstSector < 0 then .error .keyError
  else do
    let _ ← logSectorGet st entry.firstSector.toNat
    let r ← findWalk st comp entry.firstSector.toNat none fuel
    match r with
    | some e => pure e
    | none => .error .dirNotFound

/-- `path_abs.strip("/")`. -/
def stripSlashes (s : String) : String :=
  String.mk (((s.toList.dropWhile (· = '/')).reverse.dropWhile
    (· = '/')).reverse)

/-- `path.startswith("/")`. -/
def startsWithSlash (s : String) : Bool :=
  match s.toList with
  | c :: _ => c = '/'
  | [] => false

/-- Helper for `str.split("/")`: `acc` collects the current component in
reverse. -/
def splitOnSlashAux : List Char → List Char → List String
  | [], acc => [String.mk acc.reverse]
  | c :: rest, acc =>
      if c = '/' then String.mk acc.reverse :: splitOnSlashAux rest []
      else splitOnSlashAux rest (c :: acc)

/-- `str.split("/")` (Python semantics: `"".split("/") = [""]`,
adjacent separators produce empty components). -/
def splitOnSlash (s : String) : List String := splitOnSlashAux s.toList []

/-- `SmartHigh._finddirentry(path_abs)`. -/
def findDirEntry (st : MTD) (pathAbs : String) (fuel : Nat) :
    Except Err SmartEntry := do
  if ¬ startsWithSlash pathAbs then .error .pathNotAbsolute
  else do
    let root ← createSmartEntryRoot st
    if pathAbs = "/" then pure root
    else
      (splitOnSlash (stripSlashes pathAbs)).foldlM
        (fun entry comp => findComponent st entry comp fuel) root

/-- The `while True` of `_createentry`: find the first EH slot whose
`first_sector` is `-1`, switching (and, in the dead `None` branch of
`get_next_sector_number`, creating) chained sectors when the current one
has no room.  Returns the state, the sector and offset of the slot, and
the parsed slot. -/
def createEntryFindSlotStep (st : MTD) (cur offset : Nat) :
    Except Err (MTD × Nat × Nat) :=
  if sectorBordersIsBig st.sectorSizeByte offset
      (sizeEntryHeader st.maxLenFilename) then do
    let bh ← logSectorGet st cur
    let nextOpt ← sectorGetNextNumber st.img bh.1
    match nextOpt with
    | none => do
        let ra ← allocSector st LS_HIGHT_NUMBER none
        let stB ← mtdSetBytesLog ra.1 ra.2 0
            (ChainHeader.getPack ⟨1, 65535, 65535⟩)
        let bh2 ← logSectorGet stB cur
        let chBytes ← sectorReadBytes stB.img bh2.1 stB.sectorSizeByte 0
            chainHeaderSize
        let ch ← ChainHeader.createFromRaw chBytes
        let stC ← mtdSetBytesLog stB cur 0
            (ChainHeader.getPack { ch with nextSector := ra.2 })
        pure (stC, ra.2, chainHeaderSize)
    | some n => pure (st, n, chainHeaderSize)
  else pure (st, cur, offset)

def createEntryFindSlot (st : MTD) :
    Nat → Nat → Nat → Except Err (MTD × Nat × Nat × EntryHeader)
  | 0, _, _ => .error .fuelExhausted
  | fuel + 1, cur, offset => do
      let sco ← createEntryFindSlotStep st cur offset
      let bh1 ← logSectorGet sco.1 sco.2.1
      let bytes ← sectorReadBytes sco.1.img bh1.1 sco.1.sectorSizeByte sco.2.2
          (sizeEntryHeader st.maxLenFilename)
      let entry := EntryHeader.createFromRaw bytes
      if entry.firstSector = -1 then pure (sco.1, sco.2.1, sco.2.2, entry)
      else (createEntryFindSlot sco.1 fuel sco.2.1
        (sco.2.2 + sizeEntryHeader st.maxLenFilename))

/-- `SmartHigh._createentry(entry_parent, name, entry_type, mode)`.
`entryType` is the `SmartFSDirEntryType` value (0 = file, 1 = dir). -/
def createEntry (st : MTD) (entryParent : SmartEntry) (name : String)
    (entryType : Nat) (mode : ModeBits) (fuel : Nat) :
    Except Err (MTD × EntryHeader) := do
  if name.length > st.maxLenFilename then .error .filenameTooLong
  else do
    if entryParent.firstSector < 0 then .error .keyError
    else do
      let parentFirst := entryParent.firstSector.toNat
      let _ ← logSectorGet st parentFirst
      let slot ← createEntryFindSlot st fuel parentFirst chainHeaderSize
      let ra ← allocSector slot.1 LS_HIGHT_NUMBER none
      let sectorNewNumber := ra.2
      let sectorType := if entryType = 1 then 1 else 2
      let st3 ← mtdSetBytesLog ra.1 sectorNewNumber 0
          (ChainHeader.getPack ⟨sectorType, 0xffff, 0xffff⟩)
      let entry1 : EntryHeader :=
        { slot.2.2.2 with
            name := name
            firstSector := Int.ofNat sectorNewNumber
            utc := st.clock
            flags := { slot.2.2.2.flags with
                         empty := 0
                         typeBit := entryType
                         mode := mode.getInt } }
      let packed ← entry1.getPack st.maxLenFilename
      let st4 ← mtdSetBytesLog st3 slot.2.1 slot.2.2.1 packed
      pure (st4, entry1)

/-- The slices `body[i:i+chunk]` for `i in range(0, len(body), chunk)`
(the `for` of `cmd_file_create_write`; `chunk` is positive for every
valid sector size). -/
def bodySlices (chunk : Nat) (body : List Nat) : List (List Nat) :=
  (List.range ((body.length + chunk - 1) / chunk)).map
    (fun k => (body.drop (k * chunk)).take chunk)

/-- The two writes performed on each sector of the content loop of
`cmd_file_create_write`: the payload at offset `CH_size`, then the chain
header `(file, 0xffff, len(data))`. -/
def writeSectorData (st : MTD) (cur : Nat) (data : List Nat) :
    Except Err MTD := do
  let st1 ← mtdSetBytesLog st cur chainHeaderSize data
  mtdSetBytesLog st1 cur 0 (ChainHeader.getPack ⟨2, 0xffff, data.length⟩)

/-- The content loop of `cmd_file_create_write` over the body slices:
write the current sector; when slices remain, allocate the next sector,
rewrite the current chain header with `next_sector = new`, and continue
in the new sector. -/
def streamSlices (st : MTD) (cur : Nat) :
    List (List Nat) → Except Err MTD
  | [] => pure st
  | [d] => writeSectorData st cur d
  | d :: d2 :: rest2 => do
      let st1 ← writeSectorData st cur d
      let ra ← allocSector st1 LS_HIGHT_NUMBER none
      let bh ← logSectorGet ra.1 cur
      let chBytes ← sectorReadBytes ra.1.img bh.1 ra.1.sectorSizeByte 0
          chainHeaderSize
      let ch ← ChainHeader.createFromRaw chBytes
      let st3 ← mtdSetBytesLog ra.1 cur 0
          (ChainHeader.getPack { ch with nextSector := ra.2 })
      streamSlices st3 ra.2 (d2 :: rest2)

/-- `os.path.split` for POSIX paths: split at the final `/`, stripping
trailing slashes from a head that is not all slashes. -/
def splitOsPath (p : String) : String × String :=
  let cs := p.toList
  let i := match cs.reverse.findIdx? (· = '/') with
    | none => 0
    | some k => cs.length - k
  let head := cs.take i
  let tail := cs.drop i
  let head2 := if head ≠ [] ∧ ¬ head.all (· = '/') then
      (head.reverse.dropWhile (· = '/')).reverse
    else head
  (String.mk head2, String.mk tail)

/-- `SmartHigh.cmd_file_create_write(path, body, mode)`. -/
def cmdFileCreateWrite (st : MTD) (path : String) (body : List Nat)
    (mode : ModeBits) (fuel : Nat) : Except Err MTD := do
  if ¬ startsWithSlash path then .error .pathNotAbsolute
  else do
    let dirEntry ← findDirEntry st (splitOsPath path).1 fuel
    let se ← createEntry st dirEntry (splitOsPath path).2 0 mode fuel
    let emptySizeInSector := st.sectorSizeByte - 5 - chainHeaderSize
    streamSlices se.1 se.2.firstSector.toNat
      (bodySlices emptySizeInSector body)

/-- `path.rsplit("/", maxsplit=1)` for a path that contains a slash (the
caller checks `path.startswith("/")` first, so one always exists). -/
def rsplitOnceSlash (p : String) : String × String :=
  match p.toList.reverse.findIdx? (· = '/') with
  | none => ("", p)
  | some k =>
      let i := p.toList.length - 1 - k
      (String.mk (p.toList.take i), String.mk (p.toList.drop (i + 1)))

/-- `SmartHigh.cmd_mkdir(path, mode)`. -/
def cmdMkdir (st : MTD) (path : String) (mode : ModeBits) (fuel : Nat) :
    Except Err MTD := do
  if ¬ startsWithSlash path then .error .pathNotAbsolute
  else if path = "/" then .error .cantCreateRoot
  else do
    let entry ← findDirEntry st (if (rsplitOnceSlash path).1 = "" then "/"
                                 else (rsplitOnceSlash path).1) fuel
    let se ← createEntry st entry (rsplitOnceSlash path).2 1 mode fuel
    pure se.1

/-! ## Reachable build states

The states a build sequence can pass through: the formatted constructor,
followed by any number of allocations (`_allocsector()` with no pinned
physical sector, as the directory/file layer calls it) and sector writes.
-/

/-- Reachable states of a build over the given construction arguments. -/
inductive Reach (storageSize eraseBlockSize sectorSizeCode : Nat)
    (crc : CRCValue) (maxLenFilename numberRootDir clock : Nat) :
    MTD → Prop where
  | base (st : MTD)
      (h : mtdConstruct storageSize eraseBlockSize sectorSizeCode crc
            maxLenFilename numberRootDir clock true = .ok st) :
      Reach storageSize eraseBlockSize sectorSizeCode crc maxLenFilename
        numberRootDir clock st
  | alloc (st st' : MTD) (requested l : Nat)
      (hr : Reach storageSize eraseBlockSize sectorSizeCode crc
              maxLenFilename numberRootDir clock st)
      (h : allocSector st requested none = .ok (st', l)) :
      Reach storageSize eraseBlockSize sectorSizeCode crc maxLenFilename
        numberRootDir clock st'
  | write (st st' : MTD) (l pfrom : Nat) (v : List Nat)
      (hr : Reach storageSize eraseBlockSize sectorSizeCode crc
              maxLenFilename numberRootDir clock st)
      (h : mtdSetBytesLog st l pfrom v = .ok st') :
      Reach storageSize eraseBlockSize sectorSizeCode crc maxLenFilename
        numberRootDir clock st'

/-- Decidable equality for `Except`, used by concrete checks. -/
instance {e a : Type} [DecidableEq e] [DecidableEq a] :
    DecidableEq (Except e a) := fun x y =>
  match x, y with
  | .ok u, .ok v =>
      if h : u = v then isTrue (by rw [h]) else isFalse (by simp [h])
  | .error u, .error v =>
      if h : u = v then isTrue (by rw [h]) else isFalse (by simp [h])
  | .ok _, .error _ => isFalse (by simp)
  | .error _, .ok _ => isFalse (by simp)

/-! ## Observation helpers and invariant predicates -/

/-- Byte offset of the sector view of logical sector `l`. -/
def sectorBase (st : MTD) (l : Nat) : Nat := st.smap l * st.sectorSizeByte

/-- The stored chain-header type byte of logical sector `l`. -/
def chTypeOf (st : MTD) (l : Nat) : Nat := st.img (sectorBase st l + 5)

/-- The stored chain-header `next_sector` field of logical sector `l`. -/
def chNextOf (st : MTD) (l : Nat) : Nat :=
  st.img (sectorBase st l + 6) + 256 * st.img (sectorBase st l + 7)

/-- The stored chain-header `used` field of logical sector `l`. -/
def chUsedOf (st : MTD) (l : Nat) : Nat :=
  st.img (sectorBase st l + 8) + 256 * st.img (sectorBase st l + 9)

/-- The `n` payload bytes of logical sector `l` (after SH and CH). -/
def payloadOf (st : MTD) (l n : Nat) : List Nat :=
  regionList st.img (sectorBase st l + 10) n

/-- Follow the stored chain-header `next_sector` links from `cur`,
collecting at most `fuel` sectors, stopping after a sector whose link is
the end-of-chain sentinel `0xffff`. -/
def chainFollow (st : MTD) : Nat → Nat → List Nat
  | _, 0 => []
  | cur, fuel + 1 =>
      cur :: (if chNextOf st cur = 0xffff then []
              else chainFollow st (chNextOf st cur) fuel)

/-- The free-sector map marks physical sector `p` used (0). -/
def UsedCls (st : MTD) (p : Nat) : Prop :=
  (st.fsmRow (p / st.sectorsperblk)).getD (p % st.sectorsperblk) 0 = 0

/-- Well-formedness of an `MTD` state, as the formatted constructor
establishes it and every build operation preserves it: the
`free_sector_map` reference structure of `_initialize`, sane geometry,
and for every mapped logical sector a physical sector that is in range,
marked used, and whose stored header bytes are real bytes carrying
format version 1. -/
def MtdWF (st : MTD) : Prop :=
  st.fsmRows = List.replicate st.neraseblocks 0 ∧
  (∃ row, st.fsmStore = [row] ∧ row.length = st.sectorsperblk) ∧
  0 < st.sectorsperblk ∧
  10 < st.sectorSizeByte ∧
  st.totalsectors ≤ st.rawTotal ∧
  st.rawTotal ≤ 65536 ∧
  ∀ l, st.smap l ≠ PS_NOT_ALLOCATED →
    l < st.totalsectors ∧
    st.smap l < st.rawTotal ∧
    UsedCls st (st.smap l) ∧
    (∀ i, i < 5 → st.img (st.smap l * st.sectorSizeByte + i) < 256) ∧
    st.img (st.smap l * st.sectorSizeByte + 4) &&& 0x3 = 1

/-- The fields of the MTD state that no build operation after
`_initialize` ever changes. -/
structure MtdConfigEq (st st' : MTD) : Prop where
  imgLen_eq : st'.imgLen = st.imgLen
  ebs_eq : st'.eraseBlockSize = st.eraseBlockSize
  fill_eq : st'.fillValue = st.fillValue
  code_eq : st'.sectorSizeCode = st.sectorSizeCode
  ssb_eq : st'.sectorSizeByte = st.sectorSizeByte
  crc_eq : st'.crc = st.crc
  maxlen_eq : st'.maxLenFilename = st.maxLenFilename
  nroot_eq : st'.numberRootDir = st.numberRootDir
  clock_eq : st'.clock = st.clock
  nerase_eq : st'.neraseblocks = st.neraseblocks
  spb_eq : st'.sectorsperblk = st.sectorsperblk
  total_eq : st'.totalsectors = st.totalsectors

/-- What a successful `_allocsector` call guarantees, relating the entry
state `st`, the pinned physical sector argument, the result state `st'`
and the returned logical number `l`. -/
structure AllocPost (st : MTD) (physOpt : Option Nat) (st' : MTD)
    (l : Nat) : Prop where
  freeFloor : st.sectorsperblk + 4 ≤ st.freesectors
  smapOld : st.smap l = PS_NOT_ALLOCATED
  lLt : l < st.totalsectors
  freeDec : st'.freesectors = st.freesectors - 1
  smapNew : st'.smap = updFn st.smap l (st'.smap l)
  physNe : st'.smap l ≠ PS_NOT_ALLOCATED
  cfg : MtdConfigEq st st'
  rowsEq : st'.fsmRows = st.fsmRows
  imgFrame : ∀ a, a < st'.smap l * st.sectorSizeByte ∨
      st'.smap l * st.sectorSizeByte + st.sectorSizeByte ≤ a →
    st'.img a = st.img a
  hdr0 : st'.img (st'.smap l * st.sectorSizeByte) = l % 256
  hdr1 : st'.img (st'.smap l * st.sectorSizeByte + 1) = (l / 256) % 256
  hdr2 : st'.img (st'.smap l * st.sectorSizeByte + 2) = 0
  hdr3 : st'.img (st'.smap l * st.sectorSizeByte + 3) < 256
  hdr4 : st'.img (st'.smap l * st.sectorSizeByte + 4) =
    (createStatus st).getPack
  fillData : ∀ off, 5 ≤ off → off < st.sectorSizeByte →
    st'.img (st'.smap l * st.sectorSizeByte + off) = st.fillValue
  fsmNone : physOpt = none → ∃ block i,
    (0 < st.neraseblocks → block < st.neraseblocks) ∧
    i < (st.fsmRow block).length ∧ (st.fsmRow block).getD i 0 = 1 ∧
    st'.smap l = block * st.sectorsperblk + i ∧
    st'.fsmStore = st.fsmStore.set (st.fsmRows.getD block 0)
      ((st.fsmRow block).set i 0)
  fsmSome : ∀ p, physOpt = some p → st'.smap l = p ∧
    st'.fsmStore = st.fsmStore

/-- Number of mapped logical sectors: `|{l : smap[l] ≠ 0xFFFF}|` over the
logical sector range. -/
def mappedCount (st : MTD) : Nat :=
  ((Finset.range st.totalsectors).filter
    (fun l => st.smap l ≠ PS_NOT_ALLOCATED)).card

/-- The object-graph shape `_initialize` gives `free_sector_map`: every
entry of the outer list refers to the one shared row object. -/
def FsmShape (st : MTD) : Prop :=
  st.fsmRows = List.replicate st.neraseblocks 0 ∧ st.fsmStore.length = 1

/-- Bookkeeping invariant of the MTD layer, established by `_initialize`
and kept by every allocation and sector write: the shared-row shape of
`free_sector_map`, a sane sector size, the `totalsectors` formula with
its 65536 special case, and the free/mapped sector accounting — which is
off by exactly two at the 65536-sector geometry, where `_initialize`
decrements `totalsectors` but not `freesectors`. -/
def CoreInv (st : MTD) : Prop :=
  FsmShape st ∧ 256 ≤ st.sectorSizeByte ∧
  st.totalsectors = (if st.rawTotal = 65536 then st.rawTotal - 2
                     else st.rawTotal) ∧
  st.rawTotal ≤ 65536 ∧
  st.freesectors + mappedCount st =
    st.totalsectors + (if st.rawTotal = 65536 then 2 else 0)

/-- The logical mappings the formatted constructor establishes: logical
sector 0 is pinned to physical sector 0 and every root directory sector
is mapped somewhere. -/
def MappedInv (st : MTD) : Prop :=
  st.smap 0 = 0 ∧
  ∀ i, i ≤ st.numberRootDir → 3 + i < LS_HIGHT_NUMBER →
    st.smap (3 + i) ≠ PS_NOT_ALLOCATED

/-- The single shared `free_sector_map` row object keeps the
`sectors_per_erase_block` length `_initialize` gave it. -/
def RowLen (st : MTD) : Prop :=
  (st.fsmStore.getD 0 []).length = st.sectorsperblk

/-- Every mapped logical sector's physical sector is marked used in the
free-sector map; this is what keeps a fresh allocation's physical sector
distinct from every physical sector already in use. -/
def SmapOk (st : MTD) : Prop :=
  ∀ l, st.smap l ≠ PS_NOT_ALLOCATED → UsedCls st (st.smap l)

/-- `SmapOk` weakened for the construction stages between `_llformat`
(which pins physical sector 0 without marking the map) and the final
`free_sector_map[0][0] = 0` of the constructor. -/
def SmapOk0 (st : MTD) : Prop :=
  ∀ l, st.smap l ≠ PS_NOT_ALLOCATED →
    st.smap l = 0 ∨ UsedCls st (st.smap l)

/-- The full invariant carried through every build sequence. -/
def BuildInv (st : MTD) : Prop :=
  CoreInv st ∧ MappedInv st ∧ RowLen st ∧ SmapOk st

/-- What `cmd_file_create_write` leaves on disk for its chain of file
sectors `secs` holding the body slices `slices`: every chain sector is
mapped; its stored chain header carries the file type, `used` equal to
its slice's byte count, and the payload bytes of its slice; the headers
link consecutive chain sectors and the last one holds the end-of-chain
sentinel, so following the links from the first sector enumerates
exactly the chain. -/
def FileChainOk (st2 : MTD) (secs : List Nat)
    (slices : List (List Nat)) : Prop :=
  secs.length = slices.length ∧
  (∀ k, k < secs.length → st2.smap (secs.getD k 0) ≠ PS_NOT_ALLOCATED) ∧
  (∀ k, k < slices.length →
    chTypeOf st2 (secs.getD k 0) = 2 ∧
    chUsedOf st2 (secs.getD k 0) = (slices.getD k []).length ∧
    payloadOf st2 (secs.getD k 0) (slices.getD k []).length =
      slices.getD k []) ∧
  (∀ k, k + 1 < secs.length →
    chNextOf st2 (secs.getD k 0) = secs.getD (k + 1) 0) ∧
  (secs ≠ [] → chNextOf st2 (secs.getD (secs.length - 1) 0) = 0xffff) ∧
  (secs ≠ [] → chainFollow st2 (secs.getD 0 0) secs.length = secs)

/-- Everything `streamSlices` guarantees on success: the invariants are
preserved, the configuration and the previously mapped logical sectors
are untouched, and there is a list of chained sectors carrying exactly
the slices, starting at `cur`, all fresh (or `cur` itself), disjoint
from every previously mapped physical sector, and the image is
unchanged outside their views. -/
def StreamPost (st : MTD) (cur : Nat) (slices : List (List Nat))
    (st' : MTD) : Prop :=
  CoreInv st' ∧ RowLen st' ∧ SmapOk st' ∧ MtdConfigEq st st' ∧
  (∀ x, st.smap x ≠ PS_NOT_ALLOCATED → st'.smap x = st.smap x) ∧
  ∃ secs : List Nat,
    FileChainOk st' secs slices ∧
    (slices ≠ [] → secs.getD 0 0 = cur) ∧
    (∀ k, k < secs.length → secs.getD k 0 < st.totalsectors) ∧
    (∀ k, k < secs.length → secs.getD k 0 = cur ∨
      st.smap (secs.getD k 0) = PS_NOT_ALLOCATED) ∧
    (∀ x, st.smap x ≠ PS_NOT_ALLOCATED → ∀ k, k < secs.length →
      st.smap (secs.getD k 0) = PS_NOT_ALLOCATED →
      st'.smap (secs.getD k 0) ≠ st.smap x) ∧
    (∀ a, (∀ k, k < secs.length →
        a < st'.smap (secs.getD k 0) * st.sectorSizeByte ∨
        st'.smap (secs.getD k 0) * st.sectorSizeByte +
          st.sectorSizeByte ≤ a) →
      st'.img a = st.img a)

/-! ## Concrete build states used by witnesses and counterexamples -/

/-- A throwaway state for the `Except` extractors below. -/
def dummyMTD : MTD :=
  { imgLen := 0, img := fun _ => 0, eraseBlockSize := 0, fillValue := 0,
    sectorSizeCode := 0, sectorSizeByte := 0, crc := .disable,
    maxLenFilename := 0, numberRootDir := 0, clock := 0, neraseblocks := 0,
    sectorsperblk := 0, totalsectors := 0, freesectors := 0,
    smap := fun _ => 0, lastallocblock := 0, fsmRows := [], fsmStore := [] }

/-- Extract the state of a successful operation. -/
def okState (r : Except Err MTD) : MTD :=
  match r with
  | .ok s => s
  | .error _ => dummyMTD

/-- Extract the state and entry header of a successful `_createentry`. -/
def okStateEntry (r : Except Err (MTD × EntryHeader)) : MTD × EntryHeader :=
  match r with
  | .ok p => p
  | .error _ => (dummyMTD, ⟨⟨1, 1, 1, 1, 0⟩, 0, 0, ""⟩)

/-- Extract the image and header of a successful sector operation. -/
def okImgHdr (r : Except Err ((Nat → Nat) × SectorHeaderV1)) :
    (Nat → Nat) × SectorHeaderV1 :=
  match r with
  | .ok p => p
  | .error _ => (fun _ => 0, ⟨0, 0, ⟨0, 1, 1, 0, 1⟩, 0, .crc8mode⟩)

/-- A crc8 header over a 32-byte sector view, for concrete checks. -/
def hdrC4 : SectorHeaderV1 := ⟨7, 0, ⟨0, 1, 1, 0, 1⟩, 0, .crc8mode⟩

/-- A concrete `set_bytes` run with crc8 enabled. -/
def c4RunSet : Except Err ((Nat → Nat) × SectorHeaderV1) :=
  sectorSetBytes (fun _ => 0xFF) 0 32 hdrC4 2 [1, 2, 3]

/-- A concrete new-sector creation with crc8 enabled. -/
def c4RunNew : Except Err ((Nat → Nat) × SectorHeaderV1) :=
  sectorCreateNew (fun _ => 0xFF) 0 32 0xFF hdrC4

/-- The spec's reference geometry: 1 MiB storage, 4096-byte erase blocks,
1024-byte sectors (`SectorSize.b1024 = 0b010`), CRC off, max filename 16,
no extra root directories. -/
def mtd1M : Except Err MTD := mtdConstruct 1048576 4096 2 .disable 16 0 0 true

/-- The constructed 1 MiB state. -/
def st1M : MTD := okState mtd1M

/-- A geometry with exactly 65536 sectors: 16 MiB storage, 4096-byte
erase blocks, 256-byte sectors. -/
def mtd16M : Except Err MTD := mtdConstruct 16777216 4096 0 .disable 16 0 0 true

/-- The constructed 16 MiB state. -/
def st16M : MTD := okState mtd16M

/-- The unit tests' small geometry: 10 KiB storage, 1024-byte erase
blocks, 256-byte sectors. -/
def mtdSmall : Except Err MTD := mtdConstruct 10240 1024 0 .disable 16 0 0 true

/-- The constructed small state. -/
def stSmall : MTD := okState mtdSmall

/-- A small geometry built with crc8 enabled. -/
def mtdSmallCrc : Except Err MTD :=
  mtdConstruct 10240 1024 0 .crc8mode 16 0 0 true

/-- The constructed crc8 small state. -/
def stSmallCrc : MTD := okState mtdSmallCrc

/-- The `rw-rw-rw-` mode the high layer defaults to for files. -/
def modeRW : ModeBits := ⟨⟨1, 1, 0⟩, ⟨1, 1, 0⟩, ⟨1, 1, 0⟩⟩

/-- The root entry of the small state (what `_finddirentry "/"`
returns). -/
def rootEntrySmall : SmartEntry :=
  match findDirEntry stSmall "/" 100 with
  | .ok e => e
  | .error _ => ⟨0, 0, 0, ""⟩

/-- A 250-byte body: two slices at 256-byte sectors (246 + 4). -/
def bodyW : List Nat := (List.range 250).map (fun i => i % 256)

/-- The small state after `_createentry` of the file `f` under the root
(the first stage of `cmd_file_create_write "/f"`). -/
def createRunW : Except Err (MTD × EntryHeader) :=
  createEntry stSmall rootEntrySmall "f" 0 modeRW 300

/-- The streaming stage of `cmd_file_create_write "/f"` with `bodyW`. -/
def streamRunW : Except Err MTD :=
  streamSlices (okStateEntry createRunW).1
    (Int.toNat (okStateEntry createRunW).2.firstSector)
    (bodySlices (stSmall.sectorSizeByte - 5 - chainHeaderSize) bodyW)

/-- The full `cmd_file_create_write "/w"` run with the 250-byte body. -/
def c5runW : Except Err MTD :=
  cmdFileCreateWrite stSmall "/w" bodyW modeRW 300

/-- The full `cmd_file_create_write "/e"` run with an EMPTY body. -/
def c5runEmpty : Except Err MTD :=
  cmdFileCreateWrite stSmall "/e" [] modeRW 300

/-- The `_createentry` stage of the empty-body run. -/
def c5ceE : Except Err (MTD × EntryHeader) :=
  createEntry stSmall rootEntrySmall "e" 0 modeRW 300

/-! ## Inversion lemmas for `Except` bind chains -/

theorem except_bind_eq_ok {a b : Type} {e : Except Err a}
    {f : a → Except Err b} {v : b} :
    e >>= f = .ok v ↔ ∃ x, e = .ok x ∧ f x = .ok v := by
  cases e <;> simp [Bind.bind, Except.bind]

theorem except_bind_eq_error {a b : Type} {e : Except Err a}
    {f : a → Except Err b} {er : Err} :
    e >>= f = .error er ↔
      e = .error er ∨ ∃ x, e = .ok x ∧ f x = .error er := by
  cases e <;> simp [Bind.bind, Except.bind]

theorem except_pure_eq {a : Type} (x : a) :
    (pure x : Except Err a) = .ok x := rfl

/-! ## Generic lemmas about the byte store -/

theorem writeRange_apply_out (f : Nat → Nat) (start : Nat) (v : List Nat)
    (a : Nat) (h : a < start ∨ start + v.length ≤ a) :
    writeRange f start v a = f a := by
  unfold writeRange
  rcases h with h | h
  · rw [if_neg]; omega
  · rw [if_neg]; omega

theorem writeRange_apply_in (f : Nat → Nat) (start : Nat) (v : List Nat)
    (a : Nat) (h1 : start ≤ a) (h2 : a < start + v.length) :
    writeRange f start v a = v.getD (a - start) 0 := by
  unfold writeRange
  rw [if_pos ⟨h1, h2⟩]

theorem writeConst_apply_out (f : Nat → Nat) (start cnt val a : Nat)
    (h : a < start ∨ start + cnt ≤ a) :
    writeConst f start cnt val a = f a := by
  unfold writeConst
  rcases h with h | h
  · rw [if_neg]; omega
  · rw [if_neg]; omega

theorem writeConst_apply_in (f : Nat → Nat) (start cnt val a : Nat)
    (h1 : start ≤ a) (h2 : a < start + cnt) :
    writeConst f start cnt val a = val := by
  unfold writeConst
  rw [if_pos ⟨h1, h2⟩]

theorem regionList_length (f : Nat → Nat) (a n : Nat) :
    (regionList f a n).length = n := by
  simp [regionList]

theorem regionList_congr (f g : Nat → Nat) (a n : Nat)
    (h : ∀ i, i < n → f (a + i) = g (a + i)) :
    regionList f a n = regionList g a n := by
  unfold regionList
  exact List.map_congr_left (fun i hi => h i (List.mem_range.mp hi))

theorem regionList_writeRange_disjoint (f : Nat → Nat) (start : Nat)
    (v : List Nat) (a n : Nat)
    (h : start + v.length ≤ a ∨ a + n ≤ start) :
    regionList (writeRange f start v) a n = regionList f a n := by
  apply regionList_congr
  intro i hi
  apply writeRange_apply_out
  omega

theorem regionList_writeConst_disjoint (f : Nat → Nat) (start cnt val a n : Nat)
    (h : start + cnt ≤ a ∨ a + n ≤ start) :
    regionList (writeConst f start cnt val) a n = regionList f a n := by
  apply regionList_congr
  intro i hi
  apply writeConst_apply_out
  omega

theorem getD_range_map (v : List Nat) :
    (List.range v.length).map (fun i => v.getD i 0) = v := by
  induction v with
  | nil => rfl
  | cons b bs ih =>
      show (List.range (bs.length + 1)).map (fun i => (b :: bs).getD i 0) = b :: bs
      rw [List.range_succ_eq_map]
      simp only [List.map_cons, List.map_map]
      refine congrArg (b :: ·) ?_
      calc (List.range bs.length).map ((fun i => (b :: bs).getD i 0) ∘ Nat.succ)
          = (List.range bs.length).map (fun i => bs.getD i 0) := by
            apply List.map_congr_left; intro i _; rfl
        _ = bs := ih

theorem regionList_writeRange_exact (f : Nat → Nat) (a : Nat) (v : List Nat) :
    regionList (writeRange f a v) a v.length = v := by
  unfold regionList
  calc (List.range v.length).map (fun i => writeRange f a v (a + i))
      = (List.range v.length).map (fun i => v.getD i 0) := by
        apply List.map_congr_left
        intro i hi
        rw [writeRange_apply_in f a v (a + i) (Nat.le_add_right a i)
             (by have := List.mem_range.mp hi; omega)]
        congr 1
        omega
    _ = v := getD_range_map v

/-! ## CRC-8 range lemmas -/

theorem crc8Step_lt (c : Nat) : crc8Step c < 256 := by
  unfold crc8Step
  split <;> exact Nat.mod_lt _ (by norm_num)

theorem crc8Byte_lt (c b : Nat) : crc8Byte c b < 256 := by
  show (List.range 8).foldl (fun acc _ => crc8Step acc) ((c ^^^ b) % 256) < 256
  have h8 : List.range 8 = [0, 1, 2, 3, 4, 5, 6, 7] := rfl
  rw [h8]
  simp only [List.foldl]
  exact crc8Step_lt _

theorem foldl_crc8Byte_lt (l : List Nat) :
    ∀ c, c < 256 → l.foldl crc8Byte c < 256 := by
  induction l with
  | nil => intro c hc; exact hc
  | cons b bs ih => intro c _; exact ih (crc8Byte c b) (crc8Byte_lt c b)

theorem crc8_lt (data : List Nat) : crc8 data < 256 :=
  foldl_crc8Byte_lt data 0 (by norm_num)

/-! ## The stored-CRC invariant (claim C4) -/

theorem pack3_length (h : SectorHeaderV1) : h.pack3.length = 3 := rfl

theorem regionList_three (f : Nat → Nat) (a : Nat) :
    regionList f a 3 = [f (a + 0), f (a + 1), f (a + 2)] := rfl

/-- Saving a crc8 header whose stored CRC was computed over the current
data region leaves a sector whose recomputed CRC equals stored byte 3. -/
theorem crcStored_of_saveHeader (imgB : Nat → Nat) (base secLen : Nat)
    (h1 : SectorHeaderV1) (hcrc : h1.crc = .crc8mode)
    (hcv : h1.crcValue =
      crc8 (regionList imgB (base + 5) (secLen - 5) ++ h1.pack3 ++
            [h1.status.getPack]))
    (packed : List Nat) (hp : h1.getPack = .ok packed) :
    crc8 (regionList (writeRange imgB base packed) (base + 5) (secLen - 5) ++
          regionList (writeRange imgB base packed) base 3 ++
          [writeRange imgB base packed (base + 4)]) =
      writeRange imgB base packed (base + 3) := by
  have hpacked : packed = h1.pack3 ++ [h1.crcValue % 256, h1.status.getPack] := by
    unfold SectorHeaderV1.getPack at hp
    rw [hcrc] at hp
    exact (Except.ok.injEq _ _).mp hp.symm |>.symm ▸ rfl
  have hplen : packed.length = 5 := by rw [hpacked]; rfl
  have hD : regionList (writeRange imgB base packed) (base + 5) (secLen - 5) =
      regionList imgB (base + 5) (secLen - 5) := by
    apply regionList_writeRange_disjoint
    left; omega
  have hin : ∀ i, i < 5 →
      writeRange imgB base packed (base + i) = packed.getD i 0 := by
    intro i hi
    rw [writeRange_apply_in imgB base packed (base + i) (Nat.le_add_right _ _)
          (by omega)]
    congr 1
    omega
  have h3 : writeRange imgB base packed (base + 3) = h1.crcValue % 256 := by
    rw [hin 3 (by norm_num), hpacked]
    rcases h1 with ⟨lsn, seq, s, cv, c⟩
    simp [SectorHeaderV1.pack3, List.getD]
  have h4 : writeRange imgB base packed (base + 4) = h1.status.getPack := by
    rw [hin 4 (by norm_num), hpacked]
    rcases h1 with ⟨lsn, seq, s, cv, c⟩
    simp [SectorHeaderV1.pack3, List.getD]
  have hB : regionList (writeRange imgB base packed) base 3 = h1.pack3 := by
    rw [regionList_three]
    rw [hin 0 (by norm_num), hin 1 (by norm_num), hin 2 (by norm_num), hpacked]
    rcases h1 with ⟨lsn, seq, s, cv, c⟩
    simp [SectorHeaderV1.pack3, List.getD]
  rw [hD, hB, h3, h4, Nat.mod_eq_of_lt (hcv ▸ crc8_lt _), hcv]

/-- Inversion of a successful `set_bytes` on a crc8 sector. -/
theorem sectorSetBytes_crc8_inv (img : Nat → Nat) (base secLen : Nat)
    (h : SectorHeaderV1) (pfrom : Nat) (v : List Nat) (img2 : Nat → Nat)
    (h2 : SectorHeaderV1) (hcrc : h.crc = .crc8mode)
    (hok : sectorSetBytes img base secLen h pfrom v = .ok (img2, h2)) :
    5 + pfrom + v.length ≤ secLen ∧
    h2 = { h with
           crcValue := crc8 (regionList (writeRange img (base + 5 + pfrom) v)
             (base + 5) (secLen - 5) ++ h.pack3 ++ [h.status.getPack]) } ∧
    h2.getPack = .ok (h2.pack3 ++ [h2.crcValue % 256, h2.status.getPack]) ∧
    img2 = writeRange (writeRange img (base + 5 + pfrom) v) base
      (h2.pack3 ++ [h2.crcValue % 256, h2.status.getPack]) := by
  unfold sectorSetBytes at hok
  by_cases hb : secLen < 5 + pfrom + v.length
  · rw [if_pos hb] at hok; exact (Except.noConfusion hok)
  · rw [if_neg hb] at hok
    simp only [sectorCalcCrc, hcrc, sectorStoreCrc, sectorSaveHeader,
      SectorHeaderV1.getPack, bind, Except.bind, pure] at hok
    cases hok
    refine ⟨by omega, by rw [hcrc], ?_, rfl⟩
    show SectorHeaderV1.getPack _ = _
    simp only [SectorHeaderV1.getPack]

/-- Inversion of a successful sector creation with crc8. -/
theorem sectorCreateNew_crc8_inv (img : Nat → Nat) (base secLen : Nat)
    (fillValue : Nat) (h : SectorHeaderV1) (img2 : Nat → Nat)
    (h2 : SectorHeaderV1) (hcrc : h.crc = .crc8mode)
    (hok : sectorCreateNew img base secLen fillValue h = .ok (img2, h2)) :
    h2 = { h with
           crcValue := crc8 (regionList (writeConst (writeRange img base
             [0x61]) (base + 5) (secLen - 5) fillValue) (base + 5)
             (secLen - 5) ++ h.pack3 ++ [h.status.getPack]) } ∧
    img2 = writeRange (writeConst (writeRange img base [0x61]) (base + 5)
      (secLen - 5) fillValue) base
      (h2.pack3 ++ [h2.crcValue % 256, h2.status.getPack]) := by
  unfold sectorCreateNew at hok
  simp only [sectorCalcCrc, hcrc, sectorStoreCrc, sectorSaveHeader,
    SectorHeaderV1.getPack, bind, Except.bind, pure] at hok
  cases hok
  exact ⟨by rw [hcrc], rfl⟩

/-- C4: for every sector written with crc8 enabled, both at sector
creation and after every `set_bytes` mutation, recomputing CRC-8/CCITT
over (data region ∥ first 3 SH bytes ∥ status byte) of the stored bytes
equals the byte stored at SH byte 3. -/
theorem c4_crc8_stored_invariant (img : Nat → Nat) (base secLen : Nat)
    (h : SectorHeaderV1) (pfrom : Nat) (v : List Nat)
    (img2 imgC : Nat → Nat) (h2 hC : SectorHeaderV1) (fillValue : Nat)
    (hcrc : h.crc = .crc8mode) :
    (sectorSetBytes img base secLen h pfrom v = .ok (img2, h2) →
      crc8 (regionList img2 (base + 5) (secLen - 5) ++
            regionList img2 base 3 ++ [img2 (base + 4)]) = img2 (base + 3)) ∧
    (sectorCreateNew img base secLen fillValue h = .ok (imgC, hC) →
      crc8 (regionList imgC (base + 5) (secLen - 5) ++
            regionList imgC base 3 ++ [imgC (base + 4)]) = imgC (base + 3)) := by
  constructor
  · intro hok
    obtain ⟨hb, hh2, hp, himg⟩ :=
      sectorSetBytes_crc8_inv img base secLen h pfrom v img2 h2 hcrc hok
    subst himg
    exact crcStored_of_saveHeader _ base secLen h2
      (by subst hh2; exact hcrc) (by subst hh2; rfl) _ hp
  · intro hok
    obtain ⟨hhC, himg⟩ :=
      sectorCreateNew_crc8_inv img base secLen fillValue h imgC hC hcrc hok
    subst himg
    have hpC : hC.getPack = .ok (hC.pack3 ++ [hC.crcValue % 256,
        hC.status.getPack]) := by
      show SectorHeaderV1.getPack _ = _
      rw [hhC]
      simp only [SectorHeaderV1.getPack, hcrc]
    exact crcStored_of_saveHeader _ base secLen hC
      (by subst hhC; exact hcrc) (by subst hhC; rfl) _ hpC

/-- Witness for C4: the invariant checked on a concrete `set_bytes` run
and a concrete sector creation with crc8. -/
theorem c4_witness :
    (crc8 (regionList (okImgHdr c4RunSet).1 5 27 ++
           regionList (okImgHdr c4RunSet).1 0 3 ++ [(okImgHdr c4RunSet).1 4]) =
      (okImgHdr c4RunSet).1 3) ∧
    (crc8 (regionList (okImgHdr c4RunNew).1 5 27 ++
           regionList (okImgHdr c4RunNew).1 0 3 ++ [(okImgHdr c4RunNew).1 4]) =
      (okImgHdr c4RunNew).1 3) :=
  ⟨(c4_crc8_stored_invariant (fun _ => 0xFF) 0 32 hdrC4 2 [1, 2, 3]
      (okImgHdr c4RunSet).1 (okImgHdr c4RunNew).1 (okImgHdr c4RunSet).2
      (okImgHdr c4RunNew).2 0xFF rfl).1 rfl,
   (c4_crc8_stored_invariant (fun _ => 0xFF) 0 32 hdrC4 2 [1, 2, 3]
      (okImgHdr c4RunSet).1 (okImgHdr c4RunNew).1 (okImgHdr c4RunSet).2
      (okImgHdr c4RunNew).2 0xFF rfl).2 rfl⟩

/-! ## Claim C1: `get_next_sector_number` and the 0xFFFF sentinel -/

/-- C1 (code bug): the chain header of the root sector of a freshly
formatted 1 MiB image stores `next_sector = 0xFFFF`, yet
`get_next_sector_number` returns `65535` instead of `None`: its
comparison `ch.next_sector == -1` can never hold because the field is
decoded unsigned.  In general the operation never returns `None`, so
chain walks never see the end-of-chain condition the claim relies on. -/
theorem c1_next_in_chain_never_none :
    (ChainHeader.createFromRaw
        (regionList st1M.img (4 * 1024 + 5) chainHeaderSize) =
      .ok ⟨1, 0xffff, 0xffff⟩ ∧
     sectorGetNextNumber st1M.img (4 * 1024) = .ok (some 0xffff)) ∧
    ∀ (img : Nat → Nat) (base : Nat) (r : Option Nat),
      sectorGetNextNumber img base = .ok r → r ≠ none := by
  constructor
  · constructor
    · set_option maxRecDepth 20000 in decide
    · set_option maxRecDepth 20000 in decide
  · intro img base r hok
    unfold sectorGetNextNumber at hok
    cases hparse : ChainHeader.createFromRaw
        (regionList img (base + 5) chainHeaderSize) with
    | error e => rw [hparse] at hok; exact (Except.noConfusion hok)
    | ok ch =>
        rw [hparse] at hok
        simp only [bind, Except.bind, pure] at hok
        rw [if_neg (by omega)] at hok
        cases hok
        simp

/-! ## Claim C7: `_finddirentry` on an absent component -/

/-- C7 (code bug): looking up a component that is absent from the (empty)
root directory of a freshly formatted image raises `OverflowError` from
`eh.first_sector.to_bytes(2, "little")` (the slot decodes as −1), not the
"Directory not found" domain error; the empty-slot check therefore never
ends a sector scan. -/
theorem c7_find_dir_entry_overflow :
    findDirEntry st1M "/missing" 10000 = .error .overflowError ∧
    Err.overflowError ≠ Err.dirNotFound := by
  constructor
  · set_option maxRecDepth 20000 in decide
  · decide

/-! ## Claim C9: the capacity check of `_allocsector` -/

theorem phySectorCreate_error_eq (st : MTD) (p l s : Nat) (e : Err)
    (h : phySectorCreate st p l s = .error e) : e = .crcUnsupported := by
  unfold phySectorCreate sectorCreateNew sectorCalcCrc sectorStoreCrc
    sectorSaveHeader SectorHeaderV1.getPack at h
  cases hc : st.crc <;> rw [hc] at h <;>
    simp only [bind, Except.bind, pure] at h
  · exact (Except.noConfusion h)
  · exact (Except.noConfusion h)
  · cases h; rfl

theorem findFreeInBlock_error_eq (st1 : MTD) (block : Nat) (e : Err)
    (h : findFreeInBlock st1 block = .error e) : e = .noPhysical := by
  unfold findFreeInBlock at h
  by_cases hz : (st1.fsmRow block).sum = 0
  · rw [if_pos hz] at h; cases h; rfl
  · rw [if_neg hz] at h
    rcases hF : (st1.fsmRow block).findIdx? (· = 1) with _ | i <;>
      rw [hF] at h <;> exact (Except.noConfusion h)

theorem findFreePhysSector_error_eq (st : MTD) (e : Err)
    (h : findFreePhysSector st = .error e) : e = .noPhysical :=
  findFreeInBlock_error_eq _ _ _ h

theorem allocLogicalDone_error_eq (st : MTD) (requested log1 : Nat) (e : Err)
    (h : allocLogicalDone st requested log1 = .error e) : e = .noLogical := by
  unfold allocLogicalDone at h
  by_cases hc : (if requested = LS_HIGHT_NUMBER then scanFreeLogical st
      else log1) = LS_HIGHT_NUMBER
  · rw [if_pos hc] at h; injection h with h; exact h.symm
  · rw [if_neg hc] at h; exact (Except.noConfusion h)

theorem allocLogical_error_eq (st : MTD) (requested : Nat) (e : Err)
    (h : allocLogical st requested = .error e) :
    e = .alreadyAllocated ∨ e = .noLogical := by
  unfold allocLogical at h
  split at h
  · split at h
    · injection h with h; exact Or.inl h.symm
    · exact Or.inr (allocLogicalDone_error_eq _ _ _ _ h)
  · exact Or.inr (allocLogicalDone_error_eq _ _ _ _ h)

theorem allocPhysical_error_eq (st : MTD) (physOpt : Option Nat) (e : Err)
    (h : allocPhysical st physOpt = .error e) : e = .noPhysical := by
  unfold allocPhysical at h
  cases physOpt with
  | none => exact findFreePhysSector_error_eq st e h
  | some p => exact (Except.noConfusion h)

/-- C9: `_allocsector` raises the out-of-space error exactly when, at
entry, `free_sectors < sectors_per_eb + 4`; when the floor is met the
call never produces that error (it proceeds past the capacity check,
though it may fail later for other reasons). -/
theorem c9_alloc_out_of_space_iff (st : MTD) (requested : Nat)
    (physOpt : Option Nat) :
    (st.freesectors < st.sectorsperblk + 4 →
      allocSector st requested physOpt = .error .outOfSpace) ∧
    (st.sectorsperblk + 4 ≤ st.freesectors →
      allocSector st requested physOpt ≠ .error .outOfSpace) := by
  constructor
  · intro hlt
    unfold allocSector
    rw [if_pos hlt]
  · intro hge hcontra
    unfold allocSector at hcontra
    rw [if_neg (by omega)] at hcontra
    rw [except_bind_eq_error] at hcontra
    rcases hcontra with h | ⟨logsector, _, h⟩
    · rcases allocLogical_error_eq st requested _ h with h2 | h2 <;>
        exact absurd h2 (by simp)
    · rw [except_bind_eq_error] at h
      rcases h with h | ⟨p, _, h⟩
      · exact absurd (allocPhysical_error_eq st physOpt _ h) (by simp)
      · split at h
        · injection h with h; exact absurd h.symm (by simp)
        · rw [except_bind_eq_error] at h
          rcases h with h | ⟨st2, _, h⟩
          · exact absurd (phySectorCreate_error_eq _ _ _ _ _ h) (by simp)
          · exact (Except.noConfusion h)

/-- Witness for C9: at the freshly formatted small state (38 free
sectors, floor 8) allocation does not report out-of-space, and at a
state with too few free sectors it does. -/
theorem c9_witness :
    (stSmall.sectorsperblk + 4 ≤ stSmall.freesectors ∧
      allocSector stSmall LS_HIGHT_NUMBER none ≠ .error .outOfSpace) ∧
    ({ stSmall with freesectors := 7 }.freesectors <
        { stSmall with freesectors := 7 }.sectorsperblk + 4 ∧
      allocSector { stSmall with freesectors := 7 } LS_HIGHT_NUMBER none =
        .error .outOfSpace) :=
  ⟨⟨by set_option maxRecDepth 20000 in decide,
    (c9_alloc_out_of_space_iff stSmall LS_HIGHT_NUMBER none).2
      (by set_option maxRecDepth 20000 in decide)⟩,
   ⟨by set_option maxRecDepth 20000 in decide,
    (c9_alloc_out_of_space_iff { stSmall with freesectors := 7 }
        LS_HIGHT_NUMBER none).1
      (by set_option maxRecDepth 20000 in decide)⟩⟩

/-! ## Successful-allocation specifications -/

theorem writeRange_apply_add (f : Nat → Nat) (start : Nat) (v : List Nat)
    (i : Nat) (hi : i < v.length) :
    writeRange f start v (start + i) = v.getD i 0 := by
  rw [writeRange_apply_in f start v (start + i) (Nat.le_add_right _ _)
        (by omega)]
  congr 1
  omega

theorem writeRange_apply_zero (f : Nat → Nat) (start : Nat) (v : List Nat)
    (h : 0 < v.length) : writeRange f start v start = v.getD 0 0 := by
  have := writeRange_apply_add f start v 0 h
  simpa using this

theorem findIdx?_aux_some_spec (p : Nat → Bool) (l : List Nat) :
    ∀ (s i : Nat), List.findIdx? p l s = some i →
      s ≤ i ∧ i - s < l.length ∧ p (l.getD (i - s) 0) = true := by
  induction l with
  | nil => intro s i h; simp [List.findIdx?] at h
  | cons a as ih =>
      intro s i h
      rw [show List.findIdx? p (a :: as) s =
            if p a then some s else List.findIdx? p as (s + 1) from rfl] at h
      by_cases hp : p a
      · rw [if_pos hp] at h
        injection h with h
        subst h
        simpa using hp
      · rw [if_neg hp] at h
        obtain ⟨hs, hlt, hpj⟩ := ih (s + 1) i h
        refine ⟨by omega, by simp; omega, ?_⟩
        have hi : i - s = (i - (s + 1)) + 1 := by omega
        rw [hi, List.getD_cons_succ]
        exact hpj

theorem findIdx?_some_spec (p : Nat → Bool) (l : List Nat) (i : Nat)
    (h : l.findIdx? p = some i) : i < l.length ∧ p (l.getD i 0) = true := by
  obtain ⟨_, hlt, hp⟩ := findIdx?_aux_some_spec p l 0 i h
  rw [Nat.sub_zero] at hlt hp
  exact ⟨hlt, hp⟩

theorem findBlockAux_lt (st : MTD) (n : Nat) :
    ∀ (lst : List Nat) (b eb : Nat), b < n → eb + lst.length ≤ n →
      findBlockAux st b eb lst < n := by
  intro lst
  induction lst with
  | nil => intro b eb hb _; exact hb
  | cons ref rest ih =>
      intro b eb hb hlen
      unfold findBlockAux
      split
      · exact hb
      · split
        · exact ih b (eb + 1) hb (by simp at hlen; omega)
        · split
          · exact ih eb (eb + 1) (by simp at hlen; omega)
              (by simp at hlen; omega)
          · exact ih b (eb + 1) hb (by simp at hlen; omega)

/-- What a successful `_phy_sector_create` does: everything but the image
is unchanged, bytes outside the created sector's view are unchanged, the
five header bytes hold the logical number, the low sequence byte, a byte
below 256, and the status byte, and the data region holds the fill
value. -/
theorem phySectorCreate_ok_spec (st : MTD) (p l seq : Nat) (st' : MTD)
    (hss : 5 ≤ st.sectorSizeByte)
    (hok : phySectorCreate st p l seq = .ok st') :
    st' = { st with img := st'.img } ∧
    (∀ a, a < p * st.sectorSizeByte ∨
        p * st.sectorSizeByte + st.sectorSizeByte ≤ a →
      st'.img a = st.img a) ∧
    st'.img (p * st.sectorSizeByte) = l % 256 ∧
    st'.img (p * st.sectorSizeByte + 1) = (l / 256) % 256 ∧
    st'.img (p * st.sectorSizeByte + 2) = seq % 256 ∧
    st'.img (p * st.sectorSizeByte + 3) < 256 ∧
    st'.img (p * st.sectorSizeByte + 4) = (createStatus st).getPack ∧
    (∀ off, 5 ≤ off → off < st.sectorSizeByte →
      st'.img (p * st.sectorSizeByte + off) = st.fillValue) := by
  unfold phySectorCreate at hok
  rw [except_bind_eq_ok] at hok
  obtain ⟨r, hr, hpure⟩ := hok
  rw [except_pure_eq] at hpure
  injection hpure with hpure
  subst hpure
  have hmain : ∃ cb, cb < 256 ∧ r.1 =
      writeRange (writeConst (writeRange st.img (p * st.sectorSizeByte)
          [0x61]) (p * st.sectorSizeByte + 5) (st.sectorSizeByte - 5)
          st.fillValue) (p * st.sectorSizeByte)
        [l % 256, (l / 256) % 256, seq % 256, cb,
         (createStatus st).getPack] := by
    unfold sectorCreateNew at hr
    cases hc : st.crc with
    | disable =>
        rw [hc] at hr
        simp only [sectorCalcCrc, sectorStoreCrc, sectorSaveHeader,
          SectorHeaderV1.getPack, SectorHeaderV1.pack3, bind, Except.bind,
          pure] at hr
        cases hr
        exact ⟨(seq >>> 8) % 256, Nat.mod_lt _ (by norm_num), rfl⟩
    | crc8mode =>
        rw [hc] at hr
        simp only [sectorCalcCrc, sectorStoreCrc, sectorSaveHeader,
          SectorHeaderV1.getPack, SectorHeaderV1.pack3, bind, Except.bind,
          pure] at hr
        cases hr
        exact ⟨_ % 256, Nat.mod_lt _ (by norm_num), rfl⟩
    | crc16mode =>
        rw [hc] at hr
        simp only [sectorCalcCrc, bind, Except.bind] at hr
        exact (Except.noConfusion hr)
  obtain ⟨cb, hcb, himg⟩ := hmain
  have hproj : ({ st with img := r.1 } : MTD).img = r.1 := rfl
  refine ⟨rfl, ?_, ?_, ?_, ?_, ?_, ?_, ?_⟩
  · intro a ha
    rw [hproj, himg, writeRange_apply_out _ _ _ _ (by simp; omega),
        writeConst_apply_out _ _ _ _ _ (by omega),
        writeRange_apply_out _ _ _ _ (by simp; omega)]
  · rw [hproj, himg, writeRange_apply_zero _ _ _ (by simp)]; rfl
  · rw [hproj, himg, writeRange_apply_add _ _ _ 1 (by simp)]; rfl
  · rw [hproj, himg, writeRange_apply_add _ _ _ 2 (by simp)]; rfl
  · rw [hproj, himg, writeRange_apply_add _ _ _ 3 (by simp)]; exact hcb
  · rw [hproj, himg, writeRange_apply_add _ _ _ 4 (by simp)]; rfl
  · intro off h5 hoff
    rw [hproj, himg, writeRange_apply_out _ _ _ _ (by simp; omega),
        writeConst_apply_in _ _ _ _ _ (by omega) (by omega)]

theorem scanFreeLogical_spec (st : MTD) :
    scanFreeLogical st = LS_HIGHT_NUMBER ∨
    (st.smap (scanFreeLogical st) = PS_NOT_ALLOCATED ∧
     SCTN_FIRST_ALLOC_SECTOR ≤ scanFreeLogical st ∧
     scanFreeLogical st < st.totalsectors) := by
  unfold scanFreeLogical
  cases hf : (List.range' SCTN_FIRST_ALLOC_SECTOR
      (st.totalsectors - SCTN_FIRST_ALLOC_SECTOR)).find?
      (fun x => st.smap x = PS_NOT_ALLOCATED) with
  | none => left; rfl
  | some y =>
      right
      simp only [Option.getD_some]
      have hp := List.find?_some hf
      have hm := List.mem_of_find?_eq_some hf
      rw [List.mem_range'_1] at hm
      simp only [decide_eq_true_eq] at hp
      refine ⟨hp, hm.1, ?_⟩
      unfold SCTN_FIRST_ALLOC_SECTOR at hm
      omega

theorem allocLogicalDone_ok_spec (st : MTD) (requested log1 l : Nat)
    (hok : allocLogicalDone st requested log1 = .ok l) :
    l ≠ LS_HIGHT_NUMBER ∧
    l = (if requested = LS_HIGHT_NUMBER then scanFreeLogical st else log1) := by
  unfold allocLogicalDone at hok
  by_cases hc : (if requested = LS_HIGHT_NUMBER then scanFreeLogical st
      else log1) = LS_HIGHT_NUMBER
  · rw [if_pos hc] at hok; exact (Except.noConfusion hok)
  · rw [if_neg hc] at hok
    injection hok with hok
    exact ⟨hok ▸ hc, hok.symm⟩

theorem allocLogical_ok_spec (st : MTD) (requested l : Nat)
    (hok : allocLogical st requested = .ok l) :
    st.smap l = PS_NOT_ALLOCATED ∧ l < st.totalsectors := by
  unfold allocLogical at hok
  by_cases h1 : requested < st.totalsectors
  · rw [if_pos h1] at hok
    by_cases h2 : st.smap requested ≠ PS_NOT_ALLOCATED
    · rw [if_pos h2] at hok; exact (Except.noConfusion hok)
    · rw [if_neg h2] at hok
      obtain ⟨hne, heq⟩ := allocLogicalDone_ok_spec st requested requested l hok
      by_cases hreq : requested = LS_HIGHT_NUMBER
      · rw [if_pos hreq] at heq
        rcases scanFreeLogical_spec st with hs | hs
        · exact absurd (heq ▸ hs) hne
        · exact ⟨heq ▸ hs.1, heq ▸ hs.2.2⟩
      · rw [if_neg hreq] at heq
        subst heq
        exact ⟨not_ne_iff.mp h2, h1⟩
  · rw [if_neg h1] at hok
    obtain ⟨hne, heq⟩ := allocLogicalDone_ok_spec st requested
      LS_HIGHT_NUMBER l hok
    by_cases hreq : requested = LS_HIGHT_NUMBER
    · rw [if_pos hreq] at heq
      rcases scanFreeLogical_spec st with hs | hs
      · exact absurd (heq ▸ hs) hne
      · exact ⟨heq ▸ hs.1, heq ▸ hs.2.2⟩
    · rw [if_neg hreq] at heq
      exact absurd heq hne

theorem findFreeInBlock_ok_spec (st1 : MTD) (block : Nat) (stp : MTD × Nat)
    (hok : findFreeInBlock st1 block = .ok stp) :
    (stp.2 = PS_NOT_ALLOCATED ∧ stp.1 = st1) ∨
    ∃ i, i < (st1.fsmRow block).length ∧ (st1.fsmRow block).getD i 0 = 1 ∧
      stp.2 = block * st1.sectorsperblk + i ∧
      stp.1 = { st1.fsmSet block i 0 with lastallocblock := block } := by
  unfold findFreeInBlock at hok
  by_cases hz : (st1.fsmRow block).sum = 0
  · rw [if_pos hz] at hok; exact (Except.noConfusion hok)
  · rw [if_neg hz] at hok
    cases hF : (st1.fsmRow block).findIdx? (· = 1) with
    | none =>
        rw [hF] at hok
        injection hok with hok
        subst hok
        exact Or.inl ⟨rfl, rfl⟩
    | some i =>
        rw [hF] at hok
        injection hok with hok
        subst hok
        obtain ⟨hlt, hp⟩ := findIdx?_some_spec _ _ _ hF
        simp only [decide_eq_true_eq] at hp
        exact Or.inr ⟨i, hlt, hp, rfl, rfl⟩

theorem findFreePhysSector_ok_spec (st : MTD) (stp : MTD × Nat)
    (hrows : st.fsmRows.length ≤ st.neraseblocks)
    (hok : findFreePhysSector st = .ok stp) :
    (stp.2 = PS_NOT_ALLOCATED) ∨
    ∃ block i,
      (0 < st.neraseblocks → block < st.neraseblocks) ∧
      i < (st.fsmRow block).length ∧ (st.fsmRow block).getD i 0 = 1 ∧
      stp.2 = block * st.sectorsperblk + i ∧
      stp.1.img = st.img ∧ stp.1.smap = st.smap ∧
      stp.1.freesectors = st.freesectors ∧ stp.1.fsmRows = st.fsmRows ∧
      MtdConfigEq st stp.1 ∧
      stp.1.fsmStore = st.fsmStore.set (st.fsmRows.getD block 0)
        ((st.fsmRow block).set i 0) := by
  unfold findFreePhysSector at hok
  rcases findFreeInBlock_ok_spec _ _ _ hok with ⟨hna, _⟩ | ⟨i, hlt, hone, h2, h1⟩
  · exact Or.inl hna
  · right
    refine ⟨findBlockAux { st with lastallocblock :=
        if st.lastallocblock + 1 ≥ st.neraseblocks then 0
        else st.lastallocblock + 1 }
        (if st.lastallocblock + 1 ≥ st.neraseblocks then 0
         else st.lastallocblock + 1) 0 st.fsmRows, i, ?_, hlt, hone, h2,
      ?_, ?_, ?_, ?_, ?_, ?_⟩
    · intro hn
      refine findBlockAux_lt _ _ _ _ _ ?_ (by omega)
      split <;> omega
    · rw [h1]; rfl
    · rw [h1]; rfl
    · rw [h1]; rfl
    · rw [h1]; rfl
    · rw [h1]; exact ⟨rfl, rfl, rfl, rfl, rfl, rfl, rfl, rfl, rfl, rfl,
        rfl, rfl⟩
    · rw [h1]; rfl

theorem updFn_self (f : Nat → Nat) (k v : Nat) : updFn f k v k = v := by
  simp [updFn]

theorem updFn_other (f : Nat → Nat) (k v x : Nat) (h : x ≠ k) :
    updFn f k v x = f x := by
  simp [updFn, h]

theorem allocSector_ok_spec (st : MTD) (requested : Nat)
    (physOpt : Option Nat) (st' : MTD) (l : Nat)
    (hss : 5 ≤ st.sectorSizeByte)
    (hrows : st.fsmRows.length ≤ st.neraseblocks)
    (hok : allocSector st requested physOpt = .ok (st', l)) :
    AllocPost st physOpt st' l := by
  unfold allocSector at hok
  by_cases hfree : st.freesectors < st.sectorsperblk + 4
  · rw [if_pos hfree] at hok; exact (Except.noConfusion hok)
  · rw [if_neg hfree] at hok
    rw [except_bind_eq_ok] at hok
    obtain ⟨logsector, hL, hok⟩ := hok
    rw [except_bind_eq_ok] at hok
    obtain ⟨stp, hP, hok⟩ := hok
    by_cases hna : stp.2 = PS_NOT_ALLOCATED
    · rw [if_pos hna] at hok; exact (Except.noConfusion hok)
    · rw [if_neg hna] at hok
      rw [except_bind_eq_ok] at hok
      obtain ⟨st2, hC, hok⟩ := hok
      rw [except_pure_eq] at hok
      injection hok with hok
      have hst' : st' = { st2 with
          smap := updFn st2.smap logsector stp.2
          freesectors := st2.freesectors - 1 } := (congrArg Prod.fst hok).symm
      have hl : l = logsector := (congrArg Prod.snd hok).symm
      subst hl
      obtain ⟨hsmNA, hlLt⟩ := allocLogical_ok_spec st requested l hL
      have hstp : stp.1.img = st.img ∧ stp.1.smap = st.smap ∧
          stp.1.freesectors = st.freesectors ∧
          stp.1.fsmRows = st.fsmRows ∧ MtdConfigEq st stp.1 ∧
          (physOpt = none → ∃ block i,
            (0 < st.neraseblocks → block < st.neraseblocks) ∧
            i < (st.fsmRow block).length ∧ (st.fsmRow block).getD i 0 = 1 ∧
            stp.2 = block * st.sectorsperblk + i ∧
            stp.1.fsmStore = st.fsmStore.set (st.fsmRows.getD block 0)
              ((st.fsmRow block).set i 0)) ∧
          (∀ p, physOpt = some p → stp.2 = p ∧
            stp.1.fsmStore = st.fsmStore) := by
        cases physOpt with
        | none =>
            unfold allocPhysical at hP
            rcases findFreePhysSector_ok_spec st stp hrows hP with h | h
            · exact absurd h hna
            · obtain ⟨block, i, hbl, hlt2, hone, h2, himg, hsm, hfr, hrw,
                hcfg, hfs⟩ := h
              exact ⟨himg, hsm, hfr, hrw, hcfg,
                fun _ => ⟨block, i, hbl, hlt2, hone, h2, hfs⟩,
                fun p hp => (Option.noConfusion hp)⟩
        | some p =>
            unfold allocPhysical at hP
            injection hP with hP
            rw [← hP]
            exact ⟨rfl, rfl, rfl, rfl,
              ⟨rfl, rfl, rfl, rfl, rfl, rfl, rfl, rfl, rfl, rfl, rfl, rfl⟩,
              fun hc => (Option.noConfusion hc),
              fun q hq => ⟨by cases hq; rfl, rfl⟩⟩
      obtain ⟨himg, hsm, hfr, hrw, hcfg, hfsN, hfsS⟩ := hstp
      have hss1 : 5 ≤ stp.1.sectorSizeByte := by rw [hcfg.ssb_eq]; exact hss
      obtain ⟨hs2eq, hframe, hb0, hb1, hb2, hb3, hb4, hfill⟩ :=
        phySectorCreate_ok_spec stp.1 stp.2 l 0 st2 hss1 hC
      have hs2img : ∀ a, a < stp.2 * st.sectorSizeByte ∨
          stp.2 * st.sectorSizeByte + st.sectorSizeByte ≤ a →
          st2.img a = st.img a := by
        intro a ha
        rw [hcfg.ssb_eq] at hframe
        rw [hframe a ha, himg]
      have h2sm : st2.smap = st.smap := by rw [hs2eq]; exact hsm
      have hsmNew : st'.smap = updFn st.smap l (st'.smap l) := by
        rw [hst', h2sm]
        show updFn st.smap l stp.2 =
          updFn st.smap l (updFn st.smap l stp.2 l)
        rw [updFn_self]
      have hphys : st'.smap l = stp.2 := by
        rw [hst']
        show updFn st2.smap l stp.2 l = stp.2
        exact updFn_self _ _ _
      have hcfg2 : MtdConfigEq st st' := by
        rw [hst', hs2eq]
        exact ⟨hcfg.imgLen_eq, hcfg.ebs_eq, hcfg.fill_eq, hcfg.code_eq,
          hcfg.ssb_eq, hcfg.crc_eq, hcfg.maxlen_eq, hcfg.nroot_eq,
          hcfg.clock_eq, hcfg.nerase_eq, hcfg.spb_eq, hcfg.total_eq⟩
      have himg' : st'.img = st2.img := by rw [hst']
      have hssb2 : stp.1.sectorSizeByte = st.sectorSizeByte := hcfg.ssb_eq
      have hfv2 : stp.1.fillValue = st.fillValue := hcfg.fill_eq
      refine ⟨by omega, hsmNA, hlLt, ?_, hsmNew, ?_, hcfg2, ?_, ?_, ?_, ?_,
        ?_, ?_, ?_, ?_, ?_, ?_⟩
      · rw [hst']
        have : st2.freesectors = st.freesectors := by rw [hs2eq]; exact hfr
        rw [show ({ st2 with
            smap := updFn st2.smap l stp.2
            freesectors := st2.freesectors - 1 } : MTD).freesectors =
          st2.freesectors - 1 from rfl, this]
      · rw [hphys]; exact hna
      · rw [hst', hs2eq]; exact hrw
      · intro a ha
        rw [himg', hphys] at *
        exact hs2img a (by rw [hphys] at ha; exact ha)
      · rw [himg', hphys, ← hssb2]; exact hb0
      · rw [himg', hphys, ← hssb2]; exact hb1
      · rw [himg', hphys, ← hssb2]; exact hb2
      · rw [himg', hphys, ← hssb2]; exact hb3
      · rw [himg', hphys, ← hssb2]
        have : createStatus stp.1 = createStatus st := by
          unfold createStatus
          rw [hcfg.crc_eq, hcfg.code_eq]
        rw [← this]; exact hb4
      · intro off h5 hoff
        rw [himg', hphys, ← hssb2, ← hfv2]
        exact hfill off h5 (by rw [hssb2]; exact hoff)
      · intro hnone
        obtain ⟨block, i, hbl, hlt2, hone, h2, hfs⟩ := hfsN hnone
        refine ⟨block, i, hbl, hlt2, hone, by rw [hphys]; exact h2, ?_⟩
        rw [hst']
        have : st2.fsmStore = stp.1.fsmStore := by rw [hs2eq]
        rw [show ({ st2 with
            smap := updFn st2.smap l stp.2
            freesectors := st2.freesectors - 1 } : MTD).fsmStore =
          st2.fsmStore from rfl, this, hfs]
      · intro p hp
        obtain ⟨hp2, hfs⟩ := hfsS p hp
        refine ⟨by rw [hphys]; exact hp2, ?_⟩
        rw [hst']
        have : st2.fsmStore = stp.1.fsmStore := by rw [hs2eq]
        rw [show ({ st2 with
            smap := updFn st2.smap l stp.2
            freesectors := st2.freesectors - 1 } : MTD).fsmStore =
          st2.fsmStore from rfl, this, hfs]

/-! ## The build invariant and its preservation -/

theorem getD_replicate_zero (n k : Nat) :
    (List.replicate n (0 : Nat)).getD k 0 = 0 := by
  induction n generalizing k with
  | zero => cases k <;> rfl
  | succ m ih =>
      cases k with
      | zero => rfl
      | succ j => exact ih j

theorem fsmRow_of_shape (st : MTD) (h : FsmShape st) (eb : Nat) :
    st.fsmRow eb = st.fsmStore.getD 0 [] := by
  unfold MTD.fsmRow
  rw [h.1, getD_replicate_zero]

theorem fsmSet_of_shape (st : MTD) (h : FsmShape st) (eb i v : Nat) :
    (st.fsmSet eb i v).fsmRows = st.fsmRows ∧
    (st.fsmSet eb i v).fsmStore = [(st.fsmRow eb).set i v] := by
  obtain ⟨row, hrow⟩ := List.length_eq_one.mp h.2
  refine ⟨rfl, ?_⟩
  show st.fsmStore.set (st.fsmRows.getD eb 0)
      ((st.fsmStore.getD (st.fsmRows.getD eb 0) []).set i v) =
    [(st.fsmRow eb).set i v]
  rw [h.1, getD_replicate_zero, hrow, fsmRow_of_shape st h eb, hrow]
  rfl

theorem fsmSet_shape (st : MTD) (h : FsmShape st) (eb i v : Nat) :
    FsmShape (st.fsmSet eb i v) := by
  obtain ⟨hrows, hstore⟩ := fsmSet_of_shape st h eb i v
  constructor
  · rw [hrows, h.1]; rfl
  · rw [hstore]; rfl

theorem fsmSet_row_all (st : MTD) (h : FsmShape st) (eb i v b : Nat) :
    (st.fsmSet eb i v).fsmRow b = (st.fsmRow eb).set i v := by
  obtain ⟨hrows, hstore⟩ := fsmSet_of_shape st h eb i v
  rw [fsmRow_of_shape _ (fsmSet_shape st h eb i v) b, hstore]
  rfl

theorem coreInv_img (st : MTD) (f : Nat → Nat) (h : CoreInv st) :
    CoreInv { st with img := f } := h

theorem buildInv_img (st : MTD) (f : Nat → Nat) (h : BuildInv st) :
    BuildInv { st with img := f } := h

theorem mtdConfigEq_img (a b : MTD) (f : Nat → Nat) (h : MtdConfigEq a b) :
    MtdConfigEq a { b with img := f } :=
  ⟨h.imgLen_eq, h.ebs_eq, h.fill_eq, h.code_eq, h.ssb_eq, h.crc_eq,
   h.maxlen_eq, h.nroot_eq, h.clock_eq, h.nerase_eq, h.spb_eq, h.total_eq⟩

theorem mtdConfigEq_trans {a b c : MTD} (h1 : MtdConfigEq a b)
    (h2 : MtdConfigEq b c) : MtdConfigEq a c :=
  ⟨h2.imgLen_eq.trans h1.imgLen_eq, h2.ebs_eq.trans h1.ebs_eq,
   h2.fill_eq.trans h1.fill_eq, h2.code_eq.trans h1.code_eq,
   h2.ssb_eq.trans h1.ssb_eq, h2.crc_eq.trans h1.crc_eq,
   h2.maxlen_eq.trans h1.maxlen_eq, h2.nroot_eq.trans h1.nroot_eq,
   h2.clock_eq.trans h1.clock_eq, h2.nerase_eq.trans h1.nerase_eq,
   h2.spb_eq.trans h1.spb_eq, h2.total_eq.trans h1.total_eq⟩

theorem mtdConfigEq_refl (a : MTD) : MtdConfigEq a a :=
  ⟨rfl, rfl, rfl, rfl, rfl, rfl, rfl, rfl, rfl, rfl, rfl, rfl⟩

theorem coreInv_fsmSet (st : MTD) (h : CoreInv st) (eb i v : Nat) :
    CoreInv (st.fsmSet eb i v) :=
  ⟨fsmSet_shape st h.1 eb i v, h.2.1, h.2.2.1, h.2.2.2.1, h.2.2.2.2⟩

theorem mappedCount_allocPost (st st' : MTD) (p : Option Nat) (l : Nat)
    (hpost : AllocPost st p st' l) :
    mappedCount st' = mappedCount st + 1 := by
  unfold mappedCount
  rw [hpost.cfg.total_eq]
  have hset : (Finset.range st.totalsectors).filter
      (fun x => st'.smap x ≠ PS_NOT_ALLOCATED) =
      insert l ((Finset.range st.totalsectors).filter
        (fun x => st.smap x ≠ PS_NOT_ALLOCATED)) := by
    ext x
    simp only [Finset.mem_filter, Finset.mem_insert, Finset.mem_range]
    constructor
    · rintro ⟨hx, hne⟩
      by_cases hxl : x = l
      · exact Or.inl hxl
      · rw [hpost.smapNew, updFn_other st.smap l (st'.smap l) x hxl] at hne
        exact Or.inr ⟨hx, hne⟩
    · rintro (hxl | ⟨hx, hne⟩)
      · subst hxl
        exact ⟨hpost.lLt, hpost.physNe⟩
      · by_cases hxl : x = l
        · subst hxl
          exact absurd hpost.smapOld hne
        · refine ⟨hx, ?_⟩
          rw [hpost.smapNew, updFn_other st.smap l (st'.smap l) x hxl]
          exact hne
  rw [hset, Finset.card_insert_of_not_mem]
  simp only [Finset.mem_filter, Finset.mem_range, not_and, ne_eq, not_not]
  intro _
  exact hpost.smapOld

theorem coreInv_alloc (st st' : MTD) (p : Option Nat) (l : Nat)
    (h : CoreInv st) (hpost : AllocPost st p st' l) : CoreInv st' := by
  obtain ⟨⟨hrows, hlen⟩, hss, htot, hraw, hacc⟩ := h
  have hraweq : st'.rawTotal = st.rawTotal := by
    unfold MTD.rawTotal
    rw [hpost.cfg.nerase_eq, hpost.cfg.spb_eq]
  refine ⟨⟨?_, ?_⟩, ?_, ?_, ?_, ?_⟩
  · rw [hpost.rowsEq, hrows, hpost.cfg.nerase_eq]
  · cases p with
    | none =>
        obtain ⟨block, i, _, _, _, _, hstore⟩ := hpost.fsmNone rfl
        rw [hstore, List.length_set]
        exact hlen
    | some q =>
        rw [(hpost.fsmSome q rfl).2]
        exact hlen
  · rw [hpost.cfg.ssb_eq]; exact hss
  · rw [hpost.cfg.total_eq, hraweq, htot]
  · rw [hraweq]; exact hraw
  · rw [hpost.cfg.total_eq, hraweq, mappedCount_allocPost st st' p l hpost,
      hpost.freeDec]
    have hfloor := hpost.freeFloor
    by_cases h6 : st.rawTotal = 65536
    · rw [if_pos h6] at hacc ⊢
      omega
    · rw [if_neg h6] at hacc ⊢
      omega

theorem mappedInv_alloc (st st' : MTD) (p : Option Nat) (l : Nat)
    (h : MappedInv st) (hpost : AllocPost st p st' l) : MappedInv st' := by
  obtain ⟨h0, hroots⟩ := h
  have hpres : ∀ x, st.smap x ≠ PS_NOT_ALLOCATED →
      st'.smap x = st.smap x := by
    intro x hx
    have hxl : x ≠ l := fun hc => by subst hc; exact hx hpost.smapOld
    rw [hpost.smapNew]
    exact updFn_other st.smap l (st'.smap l) x hxl
  constructor
  · rw [hpres 0 (by rw [h0]; decide)]
    exact h0
  · intro i hi hlt
    rw [hpost.cfg.nroot_eq] at hi
    have hm := hroots i hi hlt
    rw [hpres _ hm]
    exact hm

theorem mtdSetBytesLog_frame (st : MTD) (l pfrom : Nat) (v : List Nat)
    (st' : MTD) (h : mtdSetBytesLog st l pfrom v = .ok st') :
    st' = { st with img := st'.img } := by
  unfold mtdSetBytesLog at h
  rw [except_bind_eq_ok] at h
  obtain ⟨bh, _, h⟩ := h
  rw [except_bind_eq_ok] at h
  obtain ⟨r, _, h⟩ := h
  rw [except_pure_eq] at h
  injection h with h
  rw [← h]

theorem allocLogicalDone_requested (st : MTD) (r log1 l : Nat)
    (hne : r ≠ LS_HIGHT_NUMBER) (h : allocLogicalDone st r log1 = .ok l) :
    l = log1 ∧ log1 ≠ LS_HIGHT_NUMBER := by
  unfold allocLogicalDone at h
  by_cases hl1 : log1 = LS_HIGHT_NUMBER
  · rw [if_pos (show (if r = LS_HIGHT_NUMBER then scanFreeLogical st
        else log1) = LS_HIGHT_NUMBER by rw [if_neg hne]; exact hl1)] at h
    exact (Except.noConfusion h)
  · rw [if_neg (show ¬(if r = LS_HIGHT_NUMBER then scanFreeLogical st
        else log1) = LS_HIGHT_NUMBER by rw [if_neg hne]; exact hl1)] at h
    rw [if_neg hne] at h
    injection h with h
    exact ⟨h.symm, hl1⟩

theorem allocLogical_requested (st : MTD) (r l : Nat)
    (hne : r ≠ LS_HIGHT_NUMBER) (h : allocLogical st r = .ok l) : l = r := by
  unfold allocLogical at h
  by_cases h1 : r < st.totalsectors
  · rw [if_pos h1] at h
    by_cases h2 : st.smap r ≠ PS_NOT_ALLOCATED
    · rw [if_pos h2] at h
      exact (Except.noConfusion h)
    · rw [if_neg h2] at h
      exact (allocLogicalDone_requested st r r l hne h).1
  · rw [if_neg h1] at h
    exact absurd rfl (allocLogicalDone_requested st r LS_HIGHT_NUMBER l hne h).2

theorem allocSector_requested (st : MTD) (r : Nat) (p : Option Nat)
    (st' : MTD) (l : Nat) (hne : r ≠ LS_HIGHT_NUMBER)
    (h : allocSector st r p = .ok (st', l)) : l = r := by
  unfold allocSector at h
  by_cases hfree : st.freesectors < st.sectorsperblk + 4
  · rw [if_pos hfree] at h
    exact (Except.noConfusion h)
  · rw [if_neg hfree] at h
    rw [except_bind_eq_ok] at h
    obtain ⟨logsector, hL, h⟩ := h
    rw [except_bind_eq_ok] at h
    obtain ⟨stp, hP, h⟩ := h
    by_cases hna : stp.2 = PS_NOT_ALLOCATED
    · rw [if_pos hna] at h
      exact (Except.noConfusion h)
    · rw [if_neg hna] at h
      rw [except_bind_eq_ok] at h
      obtain ⟨st2, hC, h⟩ := h
      rw [except_pure_eq] at h
      injection h with h
      have hl : l = logsector := (congrArg Prod.snd h).symm
      rw [hl]
      exact allocLogical_requested st r logsector hne hL

/-! ## Row-length and used-marking invariants -/

theorem getD_set_self_zero (l : List Nat) : ∀ (i : Nat), i < l.length →
    (l.set i 0).getD i 0 = 0 := by
  induction l with
  | nil => intro i h; exact absurd h (by simp)
  | cons a t ih =>
      intro i h
      cases i with
      | zero => rfl
      | succ j =>
          exact ih j (by
            simp only [List.length_cons] at h
            omega)

theorem getD_set_zero_preserve (l : List Nat) : ∀ (i c : Nat),
    l.getD c 0 = 0 → (l.set i 0).getD c 0 = 0 := by
  induction l with
  | nil => intro i c h; exact h
  | cons a t ih =>
      intro i c h
      cases i with
      | zero =>
          cases c with
          | zero => rfl
          | succ j => exact h
      | succ i2 =>
          cases c with
          | zero => exact h
          | succ j => exact ih i2 j h

theorem fsmRow_after_allocStore (st st' : MTD) (block i : Nat)
    (hshape : FsmShape st)
    (hrows : st'.fsmRows = st.fsmRows)
    (hstore : st'.fsmStore = st.fsmStore.set (st.fsmRows.getD block 0)
      ((st.fsmRow block).set i 0)) (b : Nat) :
    st'.fsmRow b = (st.fsmRow 0).set i 0 := by
  obtain ⟨row, hrow⟩ := List.length_eq_one.mp hshape.2
  have h0 : st.fsmRows.getD block 0 = 0 := by
    rw [hshape.1, getD_replicate_zero]
  have hb : st.fsmRows.getD b 0 = 0 := by
    rw [hshape.1, getD_replicate_zero]
  have hrowb : st.fsmRow block = row := by
    rw [fsmRow_of_shape st hshape block, hrow]
    rfl
  have hrow0 : st.fsmRow 0 = row := by
    rw [fsmRow_of_shape st hshape 0, hrow]
    rfl
  rw [hrow0]
  show st'.fsmStore.getD (st'.fsmRows.getD b 0) [] = row.set i 0
  rw [hrows, hb, hstore, h0, hrowb, hrow]
  rfl

theorem rowLen_alloc (st st' : MTD) (p : Option Nat) (l : Nat)
    (hshape : FsmShape st) (hrl : RowLen st)
    (hpost : AllocPost st p st' l) : RowLen st' := by
  unfold RowLen at hrl ⊢
  rw [hpost.cfg.spb_eq]
  cases p with
  | none =>
      obtain ⟨block, i, _, _, _, _, hstore⟩ := hpost.fsmNone rfl
      obtain ⟨row, hrow⟩ := List.length_eq_one.mp hshape.2
      have h0 : st.fsmRows.getD block 0 = 0 := by
        rw [hshape.1, getD_replicate_zero]
      have hrowb : st.fsmRow block = row := by
        rw [fsmRow_of_shape st hshape block, hrow]
        rfl
      rw [hstore, h0, hrowb, hrow]
      show ((row.set i 0)).length = st.sectorsperblk
      rw [List.length_set]
      rw [hrow] at hrl
      exact hrl
  | some q =>
      rw [(hpost.fsmSome q rfl).2]
      exact hrl

theorem rowLen_fsmSet (st : MTD) (hshape : FsmShape st) (hrl : RowLen st)
    (eb i v : Nat) : RowLen (st.fsmSet eb i v) := by
  obtain ⟨hrows, hstore⟩ := fsmSet_of_shape st hshape eb i v
  unfold RowLen
  rw [hstore]
  show ((st.fsmRow eb).set i v).length = (st.fsmSet eb i v).sectorsperblk
  rw [List.length_set, fsmRow_of_shape st hshape eb]
  exact hrl

theorem rowLen_img (st : MTD) (f : Nat → Nat) (h : RowLen st) :
    RowLen { st with img := f } := h

theorem smapOk_img (st : MTD) (f : Nat → Nat) (h : SmapOk st) :
    SmapOk { st with img := f } := h

theorem smapOk0_img (st : MTD) (f : Nat → Nat) (h : SmapOk0 st) :
    SmapOk0 { st with img := f } := h

theorem usedCls_alloc_preserve (st st' : MTD) (l : Nat)
    (hshape : FsmShape st) (hpost : AllocPost st none st' l) (p : Nat)
    (h : UsedCls st p) : UsedCls st' p := by
  obtain ⟨block, i, _, _, _, _, hstore⟩ := hpost.fsmNone rfl
  unfold UsedCls at h ⊢
  rw [fsmRow_after_allocStore st st' block i hshape hpost.rowsEq hstore,
    hpost.cfg.spb_eq]
  apply getD_set_zero_preserve
  rw [fsmRow_of_shape st hshape 0]
  rw [fsmRow_of_shape st hshape (p / st.sectorsperblk)] at h
  exact h

theorem usedCls_alloc_new (st st' : MTD) (l : Nat)
    (hshape : FsmShape st) (hrl : RowLen st)
    (hpost : AllocPost st none st' l) : UsedCls st' (st'.smap l) := by
  obtain ⟨block, i, _, hlt, hone, hphys, hstore⟩ := hpost.fsmNone rfl
  unfold UsedCls
  rw [fsmRow_after_allocStore st st' block i hshape hpost.rowsEq hstore,
    hpost.cfg.spb_eq, hphys]
  have hilen : i < (st.fsmRow 0).length := by
    rw [fsmRow_of_shape st hshape 0]
    rw [fsmRow_of_shape st hshape block] at hlt
    exact hlt
  have hispb : i < st.sectorsperblk := by
    unfold RowLen at hrl
    rw [fsmRow_of_shape st hshape 0] at hilen
    omega
  have hmod : (block * st.sectorsperblk + i) % st.sectorsperblk = i := by
    rw [show block * st.sectorsperblk + i = i + block * st.sectorsperblk
          from by omega,
      Nat.add_mul_mod_self_right]
    exact Nat.mod_eq_of_lt hispb
  rw [hmod]
  exact getD_set_self_zero _ i hilen

theorem smapOk_alloc (st st' : MTD) (l : Nat)
    (hshape : FsmShape st) (hrl : RowLen st) (hok : SmapOk st)
    (hpost : AllocPost st none st' l) : SmapOk st' := by
  intro l2 hl2
  by_cases he : l2 = l
  · subst he
    exact usedCls_alloc_new st st' l2 hshape hrl hpost
  · have hold : st'.smap l2 = st.smap l2 := by
      rw [hpost.smapNew]
      exact updFn_other _ _ _ _ he
    rw [hold] at hl2 ⊢
    exact usedCls_alloc_preserve st st' l hshape hpost _ (hok l2 hl2)

theorem smapOk0_alloc (st st' : MTD) (l : Nat)
    (hshape : FsmShape st) (hrl : RowLen st) (hok : SmapOk0 st)
    (hpost : AllocPost st none st' l) : SmapOk0 st' := by
  intro l2 hl2
  by_cases he : l2 = l
  · subst he
    exact Or.inr (usedCls_alloc_new st st' l2 hshape hrl hpost)
  · have hold : st'.smap l2 = st.smap l2 := by
      rw [hpost.smapNew]
      exact updFn_other _ _ _ _ he
    rw [hold] at hl2 ⊢
    rcases hok l2 hl2 with h0 | hu
    · exact Or.inl h0
    · exact Or.inr (usedCls_alloc_preserve st st' l hshape hpost _ hu)

theorem usedCls_fsmSet_preserve (st : MTD) (hshape : FsmShape st)
    (eb i p : Nat) (h : UsedCls st p) : UsedCls (st.fsmSet eb i 0) p := by
  unfold UsedCls at h ⊢
  rw [fsmSet_row_all st hshape eb i 0]
  show ((st.fsmRow eb).set i 0).getD (p % st.sectorsperblk) 0 = 0
  apply getD_set_zero_preserve
  rw [fsmRow_of_shape st hshape eb]
  rw [fsmRow_of_shape st hshape (p / st.sectorsperblk)] at h
  exact h

theorem usedCls_fsmSet_zero (st : MTD) (hshape : FsmShape st) :
    UsedCls (st.fsmSet 0 0 0) 0 := by
  unfold UsedCls
  rw [fsmSet_row_all st hshape 0 0 0]
  show ((st.fsmRow 0).set 0 0).getD (0 % st.sectorsperblk) 0 = 0
  rw [Nat.zero_mod]
  cases hrow : st.fsmRow 0 with
  | nil => rfl
  | cons a t => rfl

theorem fsMediaWriteLoop_inv2 (n : Nat) :
    ∀ (st : MTD) (s : Nat) (st' : MTD), CoreInv st → RowLen st →
    SmapOk0 st → fsMediaWriteLoop st s n = .ok st' →
    RowLen st' ∧ SmapOk0 st' := by
  induction n with
  | zero =>
      intro st s st' hinv hrl hok h
      rw [show fsMediaWriteLoop st s 0 = pure st from rfl,
        except_pure_eq] at h
      injection h with h
      subst h
      exact ⟨hrl, hok⟩
  | succ m ih =>
      intro st s st' hinv hrl hok h
      rw [show fsMediaWriteLoop st s (m + 1) = (do
        let ra ← allocSector st s none
        let st2 ← mtdSetBytesLog ra.1 s 0
          (ChainHeader.getPack ⟨1, 0xffff, 0xffff⟩)
        fsMediaWriteLoop st2 (s + 1) m) from rfl] at h
      rw [except_bind_eq_ok] at h
      obtain ⟨ra, hra, h⟩ := h
      rw [except_bind_eq_ok] at h
      obtain ⟨st2, hw, h⟩ := h
      have hrows : st.fsmRows.length ≤ st.neraseblocks := by
        rw [hinv.1.1]
        simp
      have hpost := allocSector_ok_spec st s none ra.1 ra.2
        (le_trans (by norm_num) hinv.2.1) hrows (hra.trans rfl)
      have hinv1 : CoreInv ra.1 := coreInv_alloc st ra.1 none ra.2 hinv hpost
      have hrl1 : RowLen ra.1 := rowLen_alloc st ra.1 none ra.2 hinv.1 hrl
        hpost
      have hok1 : SmapOk0 ra.1 := smapOk0_alloc st ra.1 ra.2 hinv.1 hrl hok
        hpost
      have hframe := mtdSetBytesLog_frame ra.1 s 0 _ st2 hw
      have hinv2 : CoreInv st2 := by
        rw [hframe]
        exact coreInv_img ra.1 st2.img hinv1
      have hrl2 : RowLen st2 := by
        rw [hframe]
        exact rowLen_img ra.1 st2.img hrl1
      have hok2 : SmapOk0 st2 := by
        rw [hframe]
        exact smapOk0_img ra.1 st2.img hok1
      exact ih st2 (s + 1) st' hinv2 hrl2 hok2 h

theorem smartInitStruct_ok_spec (ss ebs fv ssc : Nat) (crc : CRCValue)
    (mlf nrd clock : Nat) (st : MTD)
    (h : smartInitStruct ss ebs fv ssc crc mlf nrd clock = .ok st) :
    CoreInv st ∧ (∀ x, st.smap x = PS_NOT_ALLOCATED) ∧
    st.numberRootDir = nrd ∧
    st.rawTotal = ss / ebs * (ebs / 2 ^ (ssc + 8)) ∧
    st.fillValue = fv ∧ RowLen st := by
  have h' : (if ss / ebs * (ebs / 2 ^ (ssc + 8)) > 65536 then
               (.error .invalidSectorCount : Except Err MTD)
             else .ok { imgLen := ss
                        img := (fun _ => 0)
                        eraseBlockSize := ebs
                        fillValue := fv
                        sectorSizeCode := ssc
                        sectorSizeByte := 2 ^ (ssc + 8)
                        crc := crc
                        maxLenFilename := mlf
                        numberRootDir := nrd
                        clock := clock
                        neraseblocks := ss / ebs
                        sectorsperblk := ebs / 2 ^ (ssc + 8)
                        totalsectors :=
                          if ss / ebs * (ebs / 2 ^ (ssc + 8)) = 65536 then
                            ss / ebs * (ebs / 2 ^ (ssc + 8)) - 2
                          else ss / ebs * (ebs / 2 ^ (ssc + 8))
                        freesectors := ss / ebs * (ebs / 2 ^ (ssc + 8))
                        smap := (fun _ => PS_NOT_ALLOCATED)
                        lastallocblock := 0
                        fsmRows := List.replicate (ss / ebs) 0
                        fsmStore :=
                          [List.replicate (ebs / 2 ^ (ssc + 8)) 1] }) =
      .ok st := h
  by_cases hc : ss / ebs * (ebs / 2 ^ (ssc + 8)) > 65536
  · rw [if_pos hc] at h'
    exact (Except.noConfusion h')
  · rw [if_neg hc] at h'
    injection h' with h'
    have hraw : st.rawTotal = ss / ebs * (ebs / 2 ^ (ssc + 8)) := by
      unfold MTD.rawTotal
      rw [← h']
    have hsm : ∀ x, st.smap x = PS_NOT_ALLOCATED := by
      intro x
      rw [← h']
    have hmc : mappedCount st = 0 := by
      unfold mappedCount
      convert Finset.card_empty
      apply Finset.filter_false_of_mem
      intro x _
      simp [hsm x]
    have hfree : st.freesectors = ss / ebs * (ebs / 2 ^ (ssc + 8)) := by
      rw [← h']
    have htot : st.totalsectors =
        if ss / ebs * (ebs / 2 ^ (ssc + 8)) = 65536 then
          ss / ebs * (ebs / 2 ^ (ssc + 8)) - 2
        else ss / ebs * (ebs / 2 ^ (ssc + 8)) := by
      rw [← h']
    have hshape : FsmShape st := by
      constructor
      · rw [← h']
      · rw [← h']
        rfl
    have hss5 : 256 ≤ st.sectorSizeByte := by
      rw [← h']
      exact le_trans (by norm_num)
        (Nat.pow_le_pow_right (by norm_num) (Nat.le_add_left 8 ssc))
    refine ⟨⟨hshape, hss5, ?_, ?_, ?_⟩, hsm, by rw [← h'], hraw,
      by rw [← h'], ?_⟩
    · rw [htot, hraw]
    · rw [hraw]; omega
    · rw [hmc, hfree, htot, hraw]
      by_cases h6 : ss / ebs * (ebs / 2 ^ (ssc + 8)) = 65536
      · rw [if_pos h6, if_pos h6]
        omega
      · rw [if_neg h6, if_neg h6]
    · unfold RowLen
      rw [← h']
      exact List.length_replicate _ _

theorem fsMediaWriteLoop_spec (n : Nat) :
    ∀ (st : MTD) (s : Nat) (st' : MTD), CoreInv st →
    fsMediaWriteLoop st s n = .ok st' →
    CoreInv st' ∧ MtdConfigEq st st' ∧
    (∀ x, st.smap x ≠ PS_NOT_ALLOCATED → st'.smap x = st.smap x) ∧
    (∀ j, j < n → s + j ≠ LS_HIGHT_NUMBER →
      st'.smap (s + j) ≠ PS_NOT_ALLOCATED) := by
  induction n with
  | zero =>
      intro st s st' hinv h
      rw [show fsMediaWriteLoop st s 0 = pure st from rfl,
        except_pure_eq] at h
      injection h with h
      subst h
      exact ⟨hinv, mtdConfigEq_refl st, fun x hx => rfl,
        fun j hj hne => absurd hj (Nat.not_lt_zero j)⟩
  | succ m ih =>
      intro st s st' hinv h
      rw [show fsMediaWriteLoop st s (m + 1) = (do
        let ra ← allocSector st s none
        let st2 ← mtdSetBytesLog ra.1 s 0
          (ChainHeader.getPack ⟨1, 0xffff, 0xffff⟩)
        fsMediaWriteLoop st2 (s + 1) m) from rfl] at h
      rw [except_bind_eq_ok] at h
      obtain ⟨ra, hra, h⟩ := h
      rw [except_bind_eq_ok] at h
      obtain ⟨st2, hw, h⟩ := h
      have hrows : st.fsmRows.length ≤ st.neraseblocks := by
        rw [hinv.1.1]
        simp
      have hpost := allocSector_ok_spec st s none ra.1 ra.2 (le_trans (by norm_num) hinv.2.1) hrows
        (hra.trans rfl)
      have hinv1 : CoreInv ra.1 := coreInv_alloc st ra.1 none ra.2 hinv hpost
      have hframe := mtdSetBytesLog_frame ra.1 s 0 _ st2 hw
      have hinv2 : CoreInv st2 := by
        rw [hframe]
        exact coreInv_img ra.1 st2.img hinv1
      have hsm2 : st2.smap = ra.1.smap := by rw [hframe]
      have hcfg2 : MtdConfigEq ra.1 st2 := by
        rw [hframe]
        exact mtdConfigEq_img ra.1 ra.1 st2.img (mtdConfigEq_refl ra.1)
      obtain ⟨hinv', hcfg', hpres', hest'⟩ := ih st2 (s + 1) st' hinv2 h
      have hpresA : ∀ x, st.smap x ≠ PS_NOT_ALLOCATED →
          ra.1.smap x = st.smap x := by
        intro x hx
        have hxl : x ≠ ra.2 := fun hc => by subst hc; exact hx hpost.smapOld
        rw [hpost.smapNew]
        exact updFn_other st.smap ra.2 (ra.1.smap ra.2) x hxl
      refine ⟨hinv', mtdConfigEq_trans (mtdConfigEq_trans hpost.cfg hcfg2)
        hcfg', ?_, ?_⟩
      · intro x hx
        have h1 := hpresA x hx
        have h2 : st2.smap x = st.smap x := by rw [hsm2, h1]
        rw [hpres' x (by rw [h2]; exact hx), h2]
      · intro j hj hjne
        cases j with
        | zero =>
            have hls : ra.2 = s :=
              allocSector_requested st s none ra.1 ra.2 hjne (hra.trans rfl)
            have hm1 : ra.1.smap s ≠ PS_NOT_ALLOCATED := by
              rw [← hls]
              exact hpost.physNe
            have hm2 : st2.smap s ≠ PS_NOT_ALLOCATED := by
              rw [hsm2]
              exact hm1
            have hm3 := hpres' s hm2
            show st'.smap (s + 0) ≠ PS_NOT_ALLOCATED
            rw [show s + 0 = s from rfl, hm3]
            exact hm2
        | succ k =>
            have heq : s + (k + 1) = (s + 1) + k := by omega
            rw [heq] at hjne ⊢
            exact hest' k (by omega) hjne

theorem llformat_spec (st st' : MTD) (hinv : CoreInv st)
    (hrl : RowLen st) (hall : ∀ x, st.smap x = PS_NOT_ALLOCATED)
    (h : llformat st = .ok st') :
    CoreInv st' ∧ MtdConfigEq st st' ∧ st'.smap 0 = 0 ∧
    (∀ x, x ≠ 0 → st'.smap x = st.smap x) ∧
    RowLen st' ∧ SmapOk0 st' := by
  unfold llformat at h
  rw [except_bind_eq_ok] at h
  obtain ⟨ra, hra, h⟩ := h
  rw [except_bind_eq_ok] at h
  obtain ⟨bh, _, h⟩ := h
  rw [except_bind_eq_ok] at h
  obtain ⟨r1, _, h⟩ := h
  rw [except_bind_eq_ok] at h
  obtain ⟨r2, _, h⟩ := h
  rw [except_bind_eq_ok] at h
  obtain ⟨r3, _, h⟩ := h
  rw [except_bind_eq_ok] at h
  obtain ⟨r4, _, h⟩ := h
  rw [except_pure_eq] at h
  injection h with h
  have hrows : st.fsmRows.length ≤ st.neraseblocks := by
    rw [hinv.1.1]
    simp
  have hpost := allocSector_ok_spec st 0 (some 0) ra.1 ra.2 (le_trans (by norm_num) hinv.2.1) hrows
    (hra.trans rfl)
  have hinv1 : CoreInv ra.1 := coreInv_alloc st ra.1 (some 0) ra.2 hinv hpost
  have hl0 : ra.2 = 0 :=
    allocSector_requested st 0 (some 0) ra.1 ra.2 (by decide) (hra.trans rfl)
  have hs0 : ra.1.smap 0 = 0 := by
    have hv := (hpost.fsmSome 0 rfl).1
    rw [hl0] at hv
    exact hv
  have hpres : ∀ x, x ≠ 0 → ra.1.smap x = st.smap x := by
    intro x hx
    rw [hpost.smapNew]
    exact updFn_other st.smap ra.2 (ra.1.smap ra.2) x (by rw [hl0]; exact hx)
  have hfin : st' = { ra.1 with img := st'.img } := by rw [← h]
  have hrl1 : RowLen ra.1 := rowLen_alloc st ra.1 (some 0) ra.2 hinv.1 hrl
    hpost
  have hok1 : SmapOk0 ra.1 := by
    intro l2 hl2
    by_cases he : l2 = ra.2
    · subst he
      exact Or.inl ((hpost.fsmSome 0 rfl).1)
    · rw [hpost.smapNew, updFn_other _ _ _ _ he] at hl2
      exact absurd (hall l2) hl2
  refine ⟨?_, ?_, ?_, ?_, ?_, ?_⟩
  · rw [hfin]
    exact coreInv_img ra.1 st'.img hinv1
  · rw [hfin]
    exact mtdConfigEq_img st ra.1 st'.img hpost.cfg
  · rw [hfin]
    exact hs0
  · intro x hx
    rw [hfin]
    exact hpres x hx
  · rw [hfin]
    exact rowLen_img ra.1 st'.img hrl1
  · rw [hfin]
    exact smapOk0_img ra.1 st'.img hok1

theorem mtdConstruct_inv (ss ebs ssc : Nat) (crc : CRCValue)
    (mlf nrd clock : Nat) (st : MTD)
    (h : mtdConstruct ss ebs ssc crc mlf nrd clock true = .ok st) :
    BuildInv st := by
  unfold mtdConstruct at h
  rw [except_bind_eq_ok] at h
  obtain ⟨st0, h0, h⟩ := h
  rw [if_pos rfl] at h
  rw [except_bind_eq_ok] at h
  obtain ⟨st2, h2, h⟩ := h
  rw [except_bind_eq_ok] at h
  obtain ⟨st3, h3, h⟩ := h
  rw [except_pure_eq] at h
  injection h with h
  obtain ⟨hinv0, hsm0, hnrd0, hraw0, hfv0, hrl0⟩ :=
    smartInitStruct_ok_spec ss ebs 0xFF ssc crc mlf nrd clock st0 h0
  have hinv1 : CoreInv { st0 with img := fun _ => st0.fillValue } :=
    coreInv_img st0 _ hinv0
  have hrl1 : RowLen { st0 with img := fun _ => st0.fillValue } :=
    rowLen_img st0 _ hrl0
  obtain ⟨hinv2, hcfg2, h20, h2p, hrl2, hok2⟩ :=
    llformat_spec _ st2 hinv1 hrl1 hsm0 h2
  obtain ⟨hinv3, hcfg3, hpres3, hest3⟩ :=
    fsMediaWriteLoop_spec (st2.numberRootDir + 1) st2 SCTN_ROOT_DIR_SECTOR
      st3 hinv2 h3
  obtain ⟨hrl3, hok3⟩ :=
    fsMediaWriteLoop_inv2 (st2.numberRootDir + 1) st2 SCTN_ROOT_DIR_SECTOR
      st3 hinv2 hrl2 hok2 h3
  have hsm30 : st3.smap 0 = 0 := by
    rw [hpres3 0 (by rw [h20]; decide)]
    exact h20
  have hroots3 : ∀ i, i ≤ st3.numberRootDir → 3 + i < LS_HIGHT_NUMBER →
      st3.smap (3 + i) ≠ PS_NOT_ALLOCATED := by
    intro i hi hlt
    rw [hcfg3.nroot_eq] at hi
    exact hest3 i (by omega) (Nat.ne_of_lt hlt)
  have hshape3 : FsmShape st3 := hinv3.1
  have hsmapOk : SmapOk (st3.fsmSet 0 0 0) := by
    intro l hl
    have hl3 : st3.smap l ≠ PS_NOT_ALLOCATED := hl
    have hsm : (st3.fsmSet 0 0 0).smap l = st3.smap l := rfl
    rcases hok3 l hl3 with h0 | hu
    · rw [hsm, h0]
      exact usedCls_fsmSet_zero st3 hshape3
    · rw [hsm]
      exact usedCls_fsmSet_preserve st3 hshape3 0 0 _ hu
  rw [← h]
  exact ⟨coreInv_fsmSet st3 hinv3 0 0 0, ⟨hsm30, hroots3⟩,
    rowLen_fsmSet st3 hshape3 hrl3 0 0 0, hsmapOk⟩

theorem reach_buildInv (ss ebs ssc : Nat) (crc : CRCValue)
    (mlf nrd clock : Nat) (st : MTD)
    (hr : Reach ss ebs ssc crc mlf nrd clock st) : BuildInv st := by
  induction hr with
  | base s hcon => exact mtdConstruct_inv ss ebs ssc crc mlf nrd clock s hcon
  | alloc s s' requested l hr2 hstep ih =>
      have hrows : s.fsmRows.length ≤ s.neraseblocks := by
        rw [ih.1.1.1]
        simp
      have hpost := allocSector_ok_spec s requested none s' l (le_trans (by norm_num) ih.1.2.1) hrows
        hstep
      exact ⟨coreInv_alloc s s' none l ih.1 hpost,
             mappedInv_alloc s s' none l ih.2.1 hpost,
             rowLen_alloc s s' none l ih.1.1 ih.2.2.1 hpost,
             smapOk_alloc s s' l ih.1.1 ih.2.2.1 ih.2.2.2 hpost⟩
  | write s s' l pfrom v hr2 hstep ih =>
      rw [mtdSetBytesLog_frame s l pfrom v s' hstep]
      exact buildInv_img s s'.img ih

theorem mtdConstruct_reject (ss ebs ssc : Nat) (crc : CRCValue)
    (mlf nrd clock : Nat) (formated : Bool)
    (hgt : 65536 < ss / ebs * (ebs / 2 ^ (ssc + 8))) :
    mtdConstruct ss ebs ssc crc mlf nrd clock formated =
      .error .invalidSectorCount := by
  have hinit : smartInitStruct ss ebs 0xFF ssc crc mlf nrd clock =
      .error .invalidSectorCount := by
    have h' : smartInitStruct ss ebs 0xFF ssc crc mlf nrd clock =
        (if ss / ebs * (ebs / 2 ^ (ssc + 8)) > 65536 then
           (.error .invalidSectorCount : Except Err MTD)
         else .ok { imgLen := ss
                    img := (fun _ => 0)
                    eraseBlockSize := ebs
                    fillValue := 0xFF
                    sectorSizeCode := ssc
                    sectorSizeByte := 2 ^ (ssc + 8)
                    crc := crc
                    maxLenFilename := mlf
                    numberRootDir := nrd
                    clock := clock
                    neraseblocks := ss / ebs
                    sectorsperblk := ebs / 2 ^ (ssc + 8)
                    totalsectors :=
                      if ss / ebs * (ebs / 2 ^ (ssc + 8)) = 65536 then
                        ss / ebs * (ebs / 2 ^ (ssc + 8)) - 2
                      else ss / ebs * (ebs / 2 ^ (ssc + 8))
                    freesectors := ss / ebs * (ebs / 2 ^ (ssc + 8))
                    smap := (fun _ => PS_NOT_ALLOCATED)
                    lastallocblock := 0
                    fsmRows := List.replicate (ss / ebs) 0
                    fsmStore :=
                      [List.replicate (ebs / 2 ^ (ssc + 8)) 1] }) := rfl
    rw [h', if_pos hgt]
  unfold mtdConstruct
  rw [hinit]
  rfl

/-! ## Claim C3: `free_sector_map` rows all alias one list object -/

/-- C3: throughout every build sequence — after construction with
`formatted=true` and after every allocation and write — every row of
`free_sector_map` is the same list object (`[[1] * sectorsperblk] *
neraseblocks` copies the inner-list reference): `free_sector_map[a] ==
free_sector_map[b]` for every pair of erase blocks, and marking index
`i` used through one erase block makes every erase block's row show
index `i` used. -/
theorem c3_free_sector_map_rows_alias (ss ebs ssc : Nat) (crc : CRCValue)
    (mlf nrd clock : Nat) (st : MTD)
    (hr : Reach ss ebs ssc crc mlf nrd clock st) :
    (∀ a b, st.fsmRow a = st.fsmRow b) ∧
    (∀ eb i b, (st.fsmSet eb i 0).fsmRow b = (st.fsmRow eb).set i 0) := by
  have hshape : FsmShape st :=
    (reach_buildInv ss ebs ssc crc mlf nrd clock st hr).1.1
  constructor
  · intro a b
    rw [fsmRow_of_shape st hshape a, fsmRow_of_shape st hshape b]
  · intro eb i b
    exact fsmSet_row_all st hshape eb i 0 b

set_option maxRecDepth 20000 in
/-- Witness for C3: the aliasing observed on the freshly formatted small
image (10 erase blocks): rows 0 and 7 agree, and marking sector index 1
through erase block 2 shows up in erase block 9's row. -/
theorem c3_witness :
    stSmall.fsmRow 0 = stSmall.fsmRow 7 ∧
    (stSmall.fsmSet 2 1 0).fsmRow 9 = (stSmall.fsmRow 2).set 1 0 :=
  ⟨(c3_free_sector_map_rows_alias 10240 1024 0 .disable 16 0 0 stSmall
      (Reach.base stSmall rfl)).1 0 7,
   (c3_free_sector_map_rows_alias 10240 1024 0 .disable 16 0 0 stSmall
      (Reach.base stSmall rfl)).2 2 1 9⟩

/-! ## Claim C2: the root-directory sector mappings -/

/-- C2 (corrected): after construction with `formatted=true` and
throughout every subsequent build sequence, `smap[0] == 0`, and every
root directory sector `i ∈ [0, number_root_dir]` is mapped to a physical
sector (`smap[3+i] ≠ 0xFFFF`) — but not necessarily at its pinned
logical number: `_allocsector` pins only the logical side and lets
`_findfreephyssector` choose the physical sector, see the
counterexample. -/
theorem c2_root_sectors_mapped (ss ebs ssc : Nat) (crc : CRCValue)
    (mlf nrd clock : Nat) (st : MTD)
    (hr : Reach ss ebs ssc crc mlf nrd clock st) :
    st.smap 0 = 0 ∧
    ∀ i, i ≤ st.numberRootDir → 3 + i < LS_HIGHT_NUMBER →
      st.smap (3 + i) ≠ PS_NOT_ALLOCATED :=
  (reach_buildInv ss ebs ssc crc mlf nrd clock st hr).2.1

set_option maxRecDepth 20000 in
/-- Witness for C2 at the freshly formatted small image: logical 0 maps
to physical 0 and the root directory sector 3 is mapped. -/
theorem c2_witness :
    stSmall.smap 0 = 0 ∧ stSmall.smap (3 + 0) ≠ PS_NOT_ALLOCATED :=
  ⟨(c2_root_sectors_mapped 10240 1024 0 .disable 16 0 0 stSmall
      (Reach.base stSmall rfl)).1,
   (c2_root_sectors_mapped 10240 1024 0 .disable 16 0 0 stSmall
      (Reach.base stSmall rfl)).2 0 (Nat.zero_le _) (by decide)⟩

set_option maxRecDepth 20000 in
/-- Counterexample for C2's pinned-number part: on the spec's own 1 MiB
reference geometry the root directory sector lands at physical sector 4,
not at its pinned number 3 — `_allocsector(3)` pins only the logical
number, while `_findfreephyssector` hands out the lowest free sector of
erase block 1. -/
theorem c2_counterexample : st1M.smap 3 = 4 ∧ (4 : Nat) ≠ 3 := by
  constructor
  · decide
  · decide

/-! ## Claim C6: the free/mapped sector accounting -/

/-- C6 (corrected): throughout every build sequence the accounting
`free_sectors + |{l : smap[l] ≠ 0xFFFF}| = total_sectors` holds whenever
the raw sector count `neraseblocks * sectorsperblk` is not exactly
65536; at exactly 65536, `_initialize` reserves the top two sectors by
decrementing `total_sectors` by 2 but leaves `free_sectors` at the
undecremented count, so the balance is permanently off by two (see the
counterexample); and construction rejects geometries with more than
65536 sectors. -/
theorem c6_free_sector_accounting (ss ebs ssc : Nat) (crc : CRCValue)
    (mlf nrd clock : Nat) (st : MTD)
    (hr : Reach ss ebs ssc crc mlf nrd clock st) :
    (st.rawTotal ≠ 65536 →
      st.freesectors + mappedCount st = st.totalsectors) ∧
    (st.rawTotal = 65536 →
      st.totalsectors = st.rawTotal - 2 ∧
      st.freesectors + mappedCount st = st.totalsectors + 2) ∧
    (65536 < ss / ebs * (ebs / 2 ^ (ssc + 8)) →
      mtdConstruct ss ebs ssc crc mlf nrd clock true =
        .error .invalidSectorCount) := by
  obtain ⟨⟨hshape, hss, htot, hraw, hacc⟩, -⟩ :=
    reach_buildInv ss ebs ssc crc mlf nrd clock st hr
  refine ⟨?_, ?_,
    fun hgt => mtdConstruct_reject ss ebs ssc crc mlf nrd clock true hgt⟩
  · intro hne
    rw [if_neg hne] at hacc
    omega
  · intro heq
    rw [if_pos heq] at hacc htot
    exact ⟨htot, by omega⟩

set_option maxRecDepth 20000 in
/-- Witness for C6 at the freshly formatted small image (raw sector
count 40). -/
theorem c6_witness :
    stSmall.freesectors + mappedCount stSmall = stSmall.totalsectors :=
  (c6_free_sector_accounting 10240 1024 0 .disable 16 0 0 stSmall
    (Reach.base stSmall rfl)).1 (by decide)

/-- Counterexample for C6's unconditional accounting: at the geometry
with exactly 65536 raw sectors (16 MiB, 4096-byte erase blocks, 256-byte
sectors) the freshly formatted state has `free_sectors = 65534` and
`total_sectors = 65534` yet two logical sectors (0 and 3) are already
mapped, so the balance is off by two. -/
theorem c6_counterexample :
    st16M.freesectors + mappedCount st16M ≠ st16M.totalsectors := by
  have hfacts : st16M.totalsectors = 65534 ∧ st16M.freesectors = 65534 ∧
      st16M.smap 0 ≠ PS_NOT_ALLOCATED ∧ st16M.smap 3 ≠ PS_NOT_ALLOCATED ∧
      (0 : Nat) < st16M.totalsectors ∧ (3 : Nat) < st16M.totalsectors := by
    set_option maxRecDepth 20000 in decide
  intro hcontra
  have hsub : ({0, 3} : Finset Nat) ⊆
      (Finset.range st16M.totalsectors).filter
        (fun l => st16M.smap l ≠ PS_NOT_ALLOCATED) := by
    intro x hx
    simp only [Finset.mem_insert, Finset.mem_singleton] at hx
    rcases hx with rfl | rfl
    · simp only [Finset.mem_filter, Finset.mem_range]
      exact ⟨hfacts.2.2.2.2.1, hfacts.2.2.1⟩
    · simp only [Finset.mem_filter, Finset.mem_range]
      exact ⟨hfacts.2.2.2.2.2, hfacts.2.2.2.1⟩
  have hcard : 2 ≤ mappedCount st16M := by
    have h1 := Finset.card_le_card hsub
    have h2 : ({0, 3} : Finset Nat).card = 2 := by decide
    rw [h2] at h1
    exact h1
  rw [hfacts.1, hfacts.2.1] at hcontra
  omega

/-! ## Claim C8: the filename length check of `_createentry` -/

/-- C8: a name longer than `max_len_filename` makes `_createentry` raise
the filename-too-long domain error, and the error propagates through
`cmd_file_create_write` and `cmd_mkdir`; the length check is the first
statement of `_createentry`, so the failed call performs no allocation
and no write — the caller keeps the entry state `st` (its
`free_sectors`, `smap`, `free_sector_map` and image) untouched. -/
theorem c8_filename_too_long (st : MTD) (parent : SmartEntry)
    (name : String) (etype : Nat) (mode : ModeBits) (fuel : Nat)
    (path : String) (body : List Nat) (de : SmartEntry) :
    (st.maxLenFilename < name.length →
      createEntry st parent name etype mode fuel =
        .error .filenameTooLong) ∧
    (startsWithSlash path = true →
      findDirEntry st (splitOsPath path).1 fuel = .ok de →
      st.maxLenFilename < (splitOsPath path).2.length →
      cmdFileCreateWrite st path body mode fuel =
        .error .filenameTooLong) ∧
    (startsWithSlash path = true → path ≠ "/" →
      findDirEntry st (if (rsplitOnceSlash path).1 = "" then "/"
                       else (rsplitOnceSlash path).1) fuel = .ok de →
      st.maxLenFilename < (rsplitOnceSlash path).2.length →
      cmdMkdir st path mode fuel = .error .filenameTooLong) := by
  have key : ∀ (p2 : SmartEntry) (nm : String) (et : Nat),
      st.maxLenFilename < nm.length →
      createEntry st p2 nm et mode fuel = .error .filenameTooLong := by
    intro p2 nm et hlen
    unfold createEntry
    rw [if_pos hlen]
  refine ⟨fun h => key parent name etype h, ?_, ?_⟩
  · intro hsw hde hlen
    unfold cmdFileCreateWrite
    rw [if_neg (fun hc => hc hsw), hde]
    simp only [bind, Except.bind]
    rw [key de (splitOsPath path).2 0 hlen]
  · intro hsw hroot hde hlen
    unfold cmdMkdir
    rw [if_neg (fun hc => hc hsw), if_neg hroot, hde]
    simp only [bind, Except.bind]
    rw [key de (rsplitOnceSlash path).2 1 hlen]

set_option maxRecDepth 20000 in
/-- Witness for C8: on the small image (`max_len_filename = 16`) a
17-character name is rejected by `_createentry`, by
`cmd_file_create_write` and by `cmd_mkdir` with the
filename-too-long error. -/
theorem c8_witness :
    createEntry stSmall rootEntrySmall "a2345678901234567" 0 modeRW 300 =
      .error .filenameTooLong ∧
    cmdFileCreateWrite stSmall "/a2345678901234567" [] modeRW 300 =
      .error .filenameTooLong ∧
    cmdMkdir stSmall "/a2345678901234567" modeRW 300 =
      .error .filenameTooLong :=
  ⟨(c8_filename_too_long stSmall rootEntrySmall "a2345678901234567" 0
      modeRW 300 "/a2345678901234567" [] rootEntrySmall).1 (by decide),
   (c8_filename_too_long stSmall rootEntrySmall "a2345678901234567" 0
      modeRW 300 "/a2345678901234567" [] rootEntrySmall).2.1 (by decide)
      (by rfl) (by decide),
   (c8_filename_too_long stSmall rootEntrySmall "a2345678901234567" 1
      modeRW 300 "/a2345678901234567" [] rootEntrySmall).2.2 (by decide)
      (by decide) (by rfl) (by decide)⟩

/-! ## Image frame lemmas: writes stay inside their sector view -/

theorem getPack_length (h1 : SectorHeaderV1) (p : List Nat)
    (hok : h1.getPack = .ok p) : p.length = 5 := by
  unfold SectorHeaderV1.getPack at hok
  cases hc : h1.crc <;> rw [hc] at hok
  · injection hok with hok
    rw [← hok]
    rfl
  · injection hok with hok
    rw [← hok]
    rfl
  · exact (Except.noConfusion hok)

theorem phySectorGet_ok_base (st : MTD) (p : Nat)
    (bh : Nat × SectorHeaderV1) (h : phySectorGet st p = .ok bh) :
    bh.1 = p * st.sectorSizeByte := by
  unfold phySectorGet at h
  by_cases hp : p > 65535 ∨ p = PS_NOT_ALLOCATED
  · rw [if_pos hp] at h
    exact (Except.noConfusion h)
  · rw [if_neg hp] at h
    rw [except_bind_eq_ok] at h
    obtain ⟨hd, _, h⟩ := h
    rw [except_pure_eq] at h
    injection h with h
    rw [← h]

theorem logSectorGet_ok_base (st : MTD) (l : Nat)
    (bh : Nat × SectorHeaderV1) (h : logSectorGet st l = .ok bh) :
    bh.1 = st.smap l * st.sectorSizeByte := by
  unfold logSectorGet at h
  by_cases hl : l < st.rawTotal
  · rw [if_pos hl] at h
    exact phySectorGet_ok_base st (st.smap l) bh h
  · rw [if_neg hl] at h
    exact (Except.noConfusion h)

theorem sectorSetBytes_img_frame (img : Nat → Nat) (base secLen : Nat)
    (hd : SectorHeaderV1) (pfrom : Nat) (v : List Nat) (img2 : Nat → Nat)
    (h2 : SectorHeaderV1)
    (hok : sectorSetBytes img base secLen hd pfrom v = .ok (img2, h2))
    (a : Nat) (ha : a < base ∨ base + secLen ≤ a) : img2 a = img a := by
  unfold sectorSetBytes at hok
  by_cases hb : secLen < 5 + pfrom + v.length
  · rw [if_pos hb] at hok
    exact (Except.noConfusion hok)
  · rw [if_neg hb] at hok
    have hb' : 5 + pfrom + v.length ≤ secLen := by omega
    cases hcrc : hd.crc with
    | disable =>
        simp only [sectorCalcCrc, hcrc, sectorStoreCrc, sectorSaveHeader,
          SectorHeaderV1.getPack, bind, Except.bind, pure] at hok
        cases hok
        refine (writeRange_apply_out _ _ _ a ?_).trans
          (writeRange_apply_out _ _ _ a ?_)
        · rcases ha with h | h
          · exact Or.inl h
          · refine Or.inr ?_
            simp only [List.length_append, List.length_cons,
              List.length_nil, SectorHeaderV1.pack3]
            omega
        · rcases ha with h | h
          · exact Or.inl (by omega)
          · exact Or.inr (by omega)
    | crc8mode =>
        simp only [sectorCalcCrc, hcrc, sectorStoreCrc, sectorSaveHeader,
          SectorHeaderV1.getPack, bind, Except.bind, pure] at hok
        cases hok
        refine (writeRange_apply_out _ _ _ a ?_).trans
          (writeRange_apply_out _ _ _ a ?_)
        · rcases ha with h | h
          · exact Or.inl h
          · refine Or.inr ?_
            simp only [List.length_append, List.length_cons,
              List.length_nil, SectorHeaderV1.pack3]
            omega
        · rcases ha with h | h
          · exact Or.inl (by omega)
          · exact Or.inr (by omega)
    | crc16mode =>
        simp only [sectorCalcCrc, hcrc, bind, Except.bind] at hok
        exact (Except.noConfusion hok)

theorem mtdSetBytesLog_img_frame (st : MTD) (l pfrom : Nat) (v : List Nat)
    (st' : MTD) (h : mtdSetBytesLog st l pfrom v = .ok st') (a : Nat)
    (ha : a < st.smap l * st.sectorSizeByte ∨
          st.smap l * st.sectorSizeByte + st.sectorSizeByte ≤ a) :
    st'.img a = st.img a := by
  unfold mtdSetBytesLog at h
  rw [except_bind_eq_ok] at h
  obtain ⟨bh, hbh, h⟩ := h
  rw [except_bind_eq_ok] at h
  obtain ⟨r, hr, h⟩ := h
  rw [except_pure_eq] at h
  injection h with h
  have hb := logSectorGet_ok_base st l bh hbh
  have himg : st'.img = r.1 := by rw [← h]
  rw [himg]
  exact sectorSetBytes_img_frame st.img bh.1 st.sectorSizeByte bh.2 pfrom v
    r.1 r.2 (hr.trans rfl) a (by rw [hb]; exact ha)

theorem llformat_img_frame (st st' : MTD) (hinv : CoreInv st)
    (h : llformat st = .ok st') (a : Nat)
    (ha : st.sectorSizeByte ≤ a) : st'.img a = st.img a := by
  unfold llformat at h
  rw [except_bind_eq_ok] at h
  obtain ⟨ra, hra, h⟩ := h
  rw [except_bind_eq_ok] at h
  obtain ⟨bh, hbh, h⟩ := h
  rw [except_bind_eq_ok] at h
  obtain ⟨r1, hr1, h⟩ := h
  rw [except_bind_eq_ok] at h
  obtain ⟨r2, hr2, h⟩ := h
  rw [except_bind_eq_ok] at h
  obtain ⟨r3, hr3, h⟩ := h
  rw [except_bind_eq_ok] at h
  obtain ⟨r4, hr4, h⟩ := h
  rw [except_pure_eq] at h
  injection h with h
  have hrows : st.fsmRows.length ≤ st.neraseblocks := by
    rw [hinv.1.1]
    simp
  have hpost := allocSector_ok_spec st 0 (some 0) ra.1 ra.2 (le_trans (by norm_num) hinv.2.1) hrows
    (hra.trans rfl)
  have hssb1 : ra.1.sectorSizeByte = st.sectorSizeByte := hpost.cfg.ssb_eq
  have hb0 : bh.1 = 0 := by
    rw [phySectorGet_ok_base ra.1 0 bh hbh]
    omega
  have hreg : ∀ sl : Nat, sl = ra.1.sectorSizeByte →
      a < bh.1 ∨ bh.1 + sl ≤ a := by
    intro sl hsl
    rw [hb0, hsl, hssb1]
    omega
  have e4 : r4.1 a = r3.1 a :=
    sectorSetBytes_img_frame r3.1 bh.1 ra.1.sectorSizeByte r3.2 6
      [ra.1.numberRootDir % 256] r4.1 r4.2 (hr4.trans rfl) a (hreg _ rfl)
  have e3 : r3.1 a = r2.1 a :=
    sectorSetBytes_img_frame r2.1 bh.1 ra.1.sectorSizeByte r2.2 5
      [ra.1.maxLenFilename % 256] r3.1 r3.2 (hr3.trans rfl) a (hreg _ rfl)
  have e2 : r2.1 a = r1.1 a :=
    sectorSetBytes_img_frame r1.1 bh.1 ra.1.sectorSizeByte r1.2 4 [1]
      r2.1 r2.2 (hr2.trans rfl) a (hreg _ rfl)
  have e1 : r1.1 a = ra.1.img a :=
    sectorSetBytes_img_frame ra.1.img bh.1 ra.1.sectorSizeByte bh.2 0
      Signature r1.1 r1.2 (hr1.trans rfl) a (hreg _ rfl)
  have e0 : ra.1.img a = st.img a := by
    apply hpost.imgFrame a
    rw [(hpost.fsmSome 0 rfl).1]
    omega
  have himg : st'.img = r4.1 := by rw [← h]
  rw [himg, e4, e3, e2, e1, e0]

theorem fsMediaWriteLoop_img_frame (n : Nat) :
    ∀ (st : MTD) (s : Nat) (st' : MTD), CoreInv st →
    s + n ≤ 65535 →
    fsMediaWriteLoop st s n = .ok st' →
    ∀ a, (∀ j, j < n → a < st'.smap (s + j) * st.sectorSizeByte ∨
           st'.smap (s + j) * st.sectorSizeByte + st.sectorSizeByte ≤ a) →
    st'.img a = st.img a := by
  induction n with
  | zero =>
      intro st s st' hinv hle h a ha
      rw [show fsMediaWriteLoop st s 0 = pure st from rfl,
        except_pure_eq] at h
      injection h with h
      subst h
      rfl
  | succ m ih =>
      intro st s st' hinv hle h a ha
      rw [show fsMediaWriteLoop st s (m + 1) = (do
        let ra ← allocSector st s none
        let st2 ← mtdSetBytesLog ra.1 s 0
          (ChainHeader.getPack ⟨1, 0xffff, 0xffff⟩)
        fsMediaWriteLoop st2 (s + 1) m) from rfl] at h
      rw [except_bind_eq_ok] at h
      obtain ⟨ra, hra, h⟩ := h
      rw [except_bind_eq_ok] at h
      obtain ⟨st2, hw, h⟩ := h
      have hrows : st.fsmRows.length ≤ st.neraseblocks := by
        rw [hinv.1.1]
        simp
      have hpost := allocSector_ok_spec st s none ra.1 ra.2 (le_trans (by norm_num) hinv.2.1) hrows
        (hra.trans rfl)
      have hls : ra.2 = s :=
        allocSector_requested st s none ra.1 ra.2
          (show s ≠ 65535 by omega) (hra.trans rfl)
      have hinv1 : CoreInv ra.1 := coreInv_alloc st ra.1 none ra.2 hinv hpost
      have hframe := mtdSetBytesLog_frame ra.1 s 0 _ st2 hw
      have hinv2 : CoreInv st2 := by
        rw [hframe]
        exact coreInv_img ra.1 st2.img hinv1
      have hsm2 : st2.smap = ra.1.smap := by rw [hframe]
      have hssb1 : ra.1.sectorSizeByte = st.sectorSizeByte :=
        hpost.cfg.ssb_eq
      have hssb2 : st2.sectorSizeByte = ra.1.sectorSizeByte := by
        rw [hframe]
      obtain ⟨_, _, hpres', _⟩ :=
        fsMediaWriteLoop_spec m st2 (s + 1) st' hinv2 h
      have hm1 : ra.1.smap s ≠ PS_NOT_ALLOCATED := by
        rw [← hls]
        exact hpost.physNe
      have hm2 : st2.smap s ≠ PS_NOT_ALLOCATED := by
        rw [hsm2]
        exact hm1
      have hsmEq : st'.smap s = ra.1.smap s := by
        rw [hpres' s hm2, hsm2]
      have hreg : a < ra.1.smap s * st.sectorSizeByte ∨
          ra.1.smap s * st.sectorSizeByte + st.sectorSizeByte ≤ a := by
        have hz := ha 0 (by omega)
        rw [show s + 0 = s from rfl, hsmEq] at hz
        exact hz
      have e3 : st'.img a = st2.img a := by
        apply ih st2 (s + 1) st' hinv2 (by omega) h a
        intro j hj
        have hz := ha (j + 1) (by omega)
        rw [show s + (j + 1) = (s + 1) + j by omega] at hz
        rw [hssb2, hssb1]
        exact hz
      have e2 : st2.img a = ra.1.img a := by
        apply mtdSetBytesLog_img_frame ra.1 s 0 _ st2 hw a
        rw [hssb1]
        exact hreg
      have e1 : ra.1.img a = st.img a := by
        apply hpost.imgFrame a
        rw [hls]
        exact hreg
      rw [e3, e2, e1]

theorem mtdConstruct_img_frame (ss ebs ssc : Nat) (crc : CRCValue)
    (mlf nrd clock : Nat) (st : MTD)
    (h : mtdConstruct ss ebs ssc crc mlf nrd clock true = .ok st)
    (hnrd : 3 + (nrd + 1) ≤ 65535) (a : Nat)
    (h0 : st.sectorSizeByte ≤ a)
    (hroots : ∀ i, i ≤ nrd → a < st.smap (3 + i) * st.sectorSizeByte ∨
        st.smap (3 + i) * st.sectorSizeByte + st.sectorSizeByte ≤ a) :
    st.img a = 0xFF := by
  unfold mtdConstruct at h
  rw [except_bind_eq_ok] at h
  obtain ⟨st0, hi0, h⟩ := h
  rw [if_pos rfl] at h
  rw [except_bind_eq_ok] at h
  obtain ⟨st2, h2, h⟩ := h
  rw [except_bind_eq_ok] at h
  obtain ⟨st3, h3, h⟩ := h
  rw [except_pure_eq] at h
  injection h with h
  obtain ⟨hinv0, hsm0, hnrd0, hraw0, hfv0, hrl0⟩ :=
    smartInitStruct_ok_spec ss ebs 0xFF ssc crc mlf nrd clock st0 hi0
  have hinv1 : CoreInv { st0 with img := (fun _ => st0.fillValue) } :=
    coreInv_img st0 _ hinv0
  have hrl1 : RowLen { st0 with img := (fun _ => st0.fillValue) } :=
    rowLen_img st0 _ hrl0
  obtain ⟨hinv2, hcfg2, h20, h2p, hrl2, hok2⟩ :=
    llformat_spec _ st2 hinv1 hrl1 hsm0 h2
  obtain ⟨hinv3, hcfg3, hpres3, hest3⟩ :=
    fsMediaWriteLoop_spec (st2.numberRootDir + 1) st2 SCTN_ROOT_DIR_SECTOR
      st3 hinv2 h3
  have hnrd2 : st2.numberRootDir = nrd := by
    have := hcfg2.nroot_eq
    rw [this]
    exact hnrd0
  have himg : st.img = st3.img := by rw [← h]; rfl
  have hsmap : st.smap = st3.smap := by rw [← h]; rfl
  have hssb : st.sectorSizeByte = st3.sectorSizeByte := by rw [← h]; rfl
  have hssb3 : st3.sectorSizeByte = st2.sectorSizeByte := hcfg3.ssb_eq
  have hssb2 : st2.sectorSizeByte = st0.sectorSizeByte := hcfg2.ssb_eq
  have e3 : st3.img a = st2.img a := by
    apply fsMediaWriteLoop_img_frame (st2.numberRootDir + 1) st2
      SCTN_ROOT_DIR_SECTOR st3 hinv2 (by rw [hnrd2]; exact hnrd) h3 a
    intro j hj
    rw [hnrd2] at hj
    have hz := hroots j (by omega)
    rw [hsmap, hssb, hssb3] at hz
    exact hz
  have e2 : st2.img a = 0xFF := by
    have hfr := llformat_img_frame _ st2 hinv1 h2 a (by
      show st0.sectorSizeByte ≤ a
      rw [← hssb2, ← hssb3, ← hssb]
      exact h0)
    rw [hfr, hfv0]
  rw [himg, e3, e2]

/-! ## Claim C10: the empty 1 MiB build -/

set_option maxRecDepth 20000 in
/-- C10 (corrected): for the empty build at `storage_size = 1_048_576`,
`erase_block_size = 4096`, `sector_size = 1024`, CRC off, no extra root
directories: the output exists with length 1_048_576 and the ASCII
signature "SMRT" sits at offset 5; but byte 0 of sector 0 holds the low
byte of the logical sector number (0), not the SH status byte — the
status byte sits at SH offset 4 and packs to 0x49 (committed 0, released
1, CRC off, size code 0b010, version 1), not 0x45; every byte outside
the two formatted sector views ([0, 1024) for the format header at
physical 0 and [4096, 5120) for the root directory at physical 4) still
holds the 0xFF fill, which covers all data regions beyond the formatted
sectors. -/
theorem c10_empty_build_layout :
    mtd1M = .ok st1M ∧
    st1M.imgLen = 1048576 ∧
    st1M.img 0 = 0 ∧
    st1M.img 4 = 0x49 ∧
    regionList st1M.img 5 4 = Signature ∧
    (∀ a, 1024 ≤ a → a < 4096 ∨ 5120 ≤ a → st1M.img a = 0xFF) := by
  have hkey : st1M.sectorSizeByte = 1024 ∧ st1M.smap 3 = 4 ∧
      st1M.imgLen = 1048576 ∧ st1M.img 0 = 0 ∧ st1M.img 4 = 0x49 ∧
      regionList st1M.img 5 4 = Signature := by decide
  refine ⟨rfl, hkey.2.2.1, hkey.2.2.2.1, hkey.2.2.2.2.1,
    hkey.2.2.2.2.2, ?_⟩
  intro a ha1 ha2
  apply mtdConstruct_img_frame 1048576 4096 2 .disable 16 0 0 st1M rfl
    (by omega) a (by rw [hkey.1]; exact ha1)
  intro i hi
  have hi0 : i = 0 := Nat.le_zero.mp hi
  subst hi0
  rw [show 3 + 0 = 3 from rfl, hkey.2.1, hkey.1]
  omega

set_option maxRecDepth 20000 in
/-- Counterexample for C10's status-byte clause: byte 0 of sector 0 is
0, not 0x45, and the actual status byte (SH offset 4) is 0x49. -/
theorem c10_counterexample :
    st1M.img 0 = 0 ∧ st1M.img 0 ≠ 0x45 ∧ st1M.img 4 = 0x49 ∧
    st1M.img 4 ≠ 0x45 := by
  refine ⟨?_, ?_, ?_, ?_⟩ <;> decide

/-! ## Write-content lemmas for the file streaming loop -/

theorem sectorSetBytes_img_shape (img : Nat → Nat) (base secLen : Nat)
    (hd : SectorHeaderV1) (pfrom : Nat) (v : List Nat) (img2 : Nat → Nat)
    (h2 : SectorHeaderV1)
    (hok : sectorSetBytes img base secLen hd pfrom v = .ok (img2, h2)) :
    5 + pfrom + v.length ≤ secLen ∧
    ∃ packed : List Nat, packed.length = 5 ∧
      img2 = writeRange (writeRange img (base + 5 + pfrom) v) base packed := by
  unfold sectorSetBytes at hok
  by_cases hb : secLen < 5 + pfrom + v.length
  · rw [if_pos hb] at hok
    exact (Except.noConfusion hok)
  · rw [if_neg hb] at hok
    refine ⟨by omega, ?_⟩
    cases hcrc : hd.crc with
    | disable =>
        simp only [sectorCalcCrc, hcrc, sectorStoreCrc, sectorSaveHeader,
          SectorHeaderV1.getPack, bind, Except.bind, pure] at hok
        cases hok
        refine ⟨_, ?_, rfl⟩
        rfl
    | crc8mode =>
        simp only [sectorCalcCrc, hcrc, sectorStoreCrc, sectorSaveHeader,
          SectorHeaderV1.getPack, bind, Except.bind, pure] at hok
        cases hok
        refine ⟨_, ?_, rfl⟩
        rfl
    | crc16mode =>
        simp only [sectorCalcCrc, hcrc, bind, Except.bind] at hok
        exact (Except.noConfusion hok)

theorem mtdSetBytesLog_shape (st : MTD) (l pfrom : Nat) (v : List Nat)
    (st' : MTD) (h : mtdSetBytesLog st l pfrom v = .ok st') :
    st' = { st with img := st'.img } ∧
    5 + pfrom + v.length ≤ st.sectorSizeByte ∧
    ∃ packed : List Nat, packed.length = 5 ∧
      st'.img = writeRange (writeRange st.img
        (st.smap l * st.sectorSizeByte + 5 + pfrom) v)
        (st.smap l * st.sectorSizeByte) packed := by
  have hfr := mtdSetBytesLog_frame st l pfrom v st' h
  unfold mtdSetBytesLog at h
  rw [except_bind_eq_ok] at h
  obtain ⟨bh, hbh, h⟩ := h
  rw [except_bind_eq_ok] at h
  obtain ⟨r, hr, h⟩ := h
  rw [except_pure_eq] at h
  injection h with h
  have hb := logSectorGet_ok_base st l bh hbh
  have himg : st'.img = r.1 := by rw [← h]
  obtain ⟨hbound, packed, hpl, hsh⟩ := sectorSetBytes_img_shape st.img bh.1
    st.sectorSizeByte bh.2 pfrom v r.1 r.2 (hr.trans rfl)
  rw [hb] at hsh
  exact ⟨hfr, hbound, packed, hpl, by rw [himg, hsh]⟩

theorem regionList_five (f : Nat → Nat) (a : Nat) :
    regionList f a 5 =
      [f (a + 0), f (a + 1), f (a + 2), f (a + 3), f (a + 4)] := rfl

theorem regionList_eq_of_getD (f : Nat → Nat) (a : Nat) (v : List Nat)
    (h : ∀ i, i < v.length → f (a + i) = v.getD i 0) :
    regionList f a v.length = v := by
  unfold regionList
  rw [show (List.range v.length).map (fun i => f (a + i)) =
      (List.range v.length).map (fun i => v.getD i 0) from
    List.map_congr_left (fun i hi => h i (List.mem_range.mp hi))]
  exact getD_range_map v

theorem chainHeader_roundtrip (t n u : Nat) (ht : t = 1 ∨ t = 2) :
    ChainHeader.createFromRaw (ChainHeader.getPack ⟨t, n, u⟩) =
      .ok ⟨t, n % 65536, u % 65536⟩ := by
  have ht256 : t % 256 = t := by rcases ht with rfl | rfl <;> rfl
  show ChainHeader.createFromRaw
      [t % 256, n % 256, n / 256 % 256, u % 256, u / 256 % 256] =
    .ok ⟨t, n % 65536, u % 65536⟩
  unfold ChainHeader.createFromRaw
  rw [if_neg (show ¬(([t % 256, n % 256, n / 256 % 256, u % 256,
      u / 256 % 256] : List Nat).length ≠ chainHeaderSize) from
    fun hc => hc rfl)]
  rw [if_neg (show ¬(([t % 256, n % 256, n / 256 % 256, u % 256,
      u / 256 % 256] : List Nat).getD 0 0 ≠ 1 ∧ ([t % 256, n % 256,
      n / 256 % 256, u % 256, u / 256 % 256] : List Nat).getD 0 0 ≠ 2)
    from by
      rw [show ([t % 256, n % 256, n / 256 % 256, u % 256,
        u / 256 % 256] : List Nat).getD 0 0 = t % 256 from rfl, ht256]
      rcases ht with rfl | rfl
      · exact fun hc => hc.1 rfl
      · exact fun hc => hc.2 rfl)]
  show Except.ok (⟨t % 256, n % 256 + 256 * (n / 256 % 256),
      u % 256 + 256 * (u / 256 % 256)⟩ : ChainHeader) =
    .ok ⟨t, n % 65536, u % 65536⟩
  have e1 : n % 256 + 256 * (n / 256 % 256) = n % 65536 := by omega
  have e2 : u % 256 + 256 * (u / 256 % 256) = u % 65536 := by omega
  rw [ht256, e1, e2]

theorem view_disjoint (p q ssb a : Nat) (hne : p ≠ q)
    (h1 : q * ssb ≤ a) (h2 : a < q * ssb + ssb) :
    a < p * ssb ∨ p * ssb + ssb ≤ a := by
  rcases Nat.lt_or_ge p q with h | h
  · right
    have hm : (p + 1) * ssb ≤ q * ssb := Nat.mul_le_mul_right ssb h
    calc p * ssb + ssb = (p + 1) * ssb := by ring
    _ ≤ q * ssb := hm
    _ ≤ a := h1
  · left
    have h' : q < p := lt_of_le_of_ne h (Ne.symm hne)
    have hm : (q + 1) * ssb ≤ p * ssb := Nat.mul_le_mul_right ssb h'
    calc a < q * ssb + ssb := h2
    _ = (q + 1) * ssb := by ring
    _ ≤ p * ssb := hm

theorem sectorGetNextNumber_ne_none (img : Nat → Nat) (base : Nat)
    (r : Option Nat) (hok : sectorGetNextNumber img base = .ok r) :
    r ≠ none := by
  unfold sectorGetNextNumber at hok
  cases hparse : ChainHeader.createFromRaw
      (regionList img (base + 5) chainHeaderSize) with
  | error e =>
      rw [hparse] at hok
      exact (Except.noConfusion hok)
  | ok ch =>
      rw [hparse] at hok
      simp only [bind, Except.bind, pure] at hok
      rw [if_neg (by omega)] at hok
      cases hok
      simp

theorem writeSectorData_spec (st : MTD) (cur : Nat) (d : List Nat)
    (st1 : MTD) (h : writeSectorData st cur d = .ok st1) :
    st1 = { st with img := st1.img } ∧
    10 + d.length ≤ st.sectorSizeByte ∧
    (∀ i, i < 5 → st1.img (st.smap cur * st.sectorSizeByte + 5 + i) =
      (ChainHeader.getPack ⟨2, 0xffff, d.length⟩).getD i 0) ∧
    (∀ i, i < d.length →
      st1.img (st.smap cur * st.sectorSizeByte + 10 + i) = d.getD i 0) ∧
    (∀ a, a < st.smap cur * st.sectorSizeByte ∨
        st.smap cur * st.sectorSizeByte + st.sectorSizeByte ≤ a →
      st1.img a = st.img a) := by
  unfold writeSectorData at h
  rw [except_bind_eq_ok] at h
  obtain ⟨stA, hA, hB⟩ := h
  obtain ⟨heqA, hbA, packedA, hplA, himgA⟩ :=
    mtdSetBytesLog_shape st cur chainHeaderSize d stA hA
  obtain ⟨heqB, hbB, packedB, hplB, himgB⟩ :=
    mtdSetBytesLog_shape stA cur 0 _ st1 hB
  have hsmA : stA.smap = st.smap := by rw [heqA]
  have hssbA : stA.sectorSizeByte = st.sectorSizeByte := by rw [heqA]
  rw [hsmA] at himgB
  rw [hssbA] at himgB hbB
  have hch : chainHeaderSize = 5 := rfl
  have hpack : (ChainHeader.getPack ⟨2, 0xffff, d.length⟩).length = 5 := rfl
  refine ⟨?_, by omega, ?_, ?_, ?_⟩
  · calc st1 = { stA with img := st1.img } := heqB
    _ = { st with img := st1.img } := by rw [heqA]
  · intro i hi
    rw [himgB]
    rw [writeRange_apply_out _ _ _ _ (Or.inr (by rw [hplB]; omega))]
    rw [show st.smap cur * st.sectorSizeByte + 5 + i =
      (st.smap cur * st.sectorSizeByte + 5 + 0) + i from by omega]
    exact writeRange_apply_add _ _ _ i (by rw [hpack]; omega)
  · intro i hi
    rw [himgB]
    rw [writeRange_apply_out _ _ _ _ (Or.inr (by rw [hplB]; omega))]
    rw [writeRange_apply_out _ _ _ _ (Or.inr (by rw [hpack]; omega))]
    rw [himgA]
    rw [writeRange_apply_out _ _ _ _ (Or.inr (by rw [hplA]; omega))]
    rw [show st.smap cur * st.sectorSizeByte + 10 + i =
      (st.smap cur * st.sectorSizeByte + 5 + chainHeaderSize) + i from by
        rw [hch]]
    exact writeRange_apply_add _ _ _ i hi
  · intro a ha
    rw [himgB]
    rw [writeRange_apply_out _ _ _ a (by
      rcases ha with h | h
      · exact Or.inl h
      · exact Or.inr (by rw [hplB]; omega))]
    rw [writeRange_apply_out _ _ _ a (by
      rcases ha with h | h
      · exact Or.inl (by omega)
      · exact Or.inr (by rw [hpack]; omega))]
    rw [himgA]
    rw [writeRange_apply_out _ _ _ a (by
      rcases ha with h | h
      · exact Or.inl h
      · exact Or.inr (by rw [hplA]; omega))]
    exact writeRange_apply_out _ _ _ a (by
      rcases ha with h | h
      · exact Or.inl (by omega)
      · exact Or.inr (by rw [hch] at hbA ⊢; omega))

/-! ## `_createentry` inversion -/

theorem createEntryFindSlot_state (fuel : Nat) :
    ∀ (st : MTD) (cur offset : Nat) (r : MTD × Nat × Nat × EntryHeader),
    createEntryFindSlot st fuel cur offset = .ok r → r.1 = st := by
  induction fuel with
  | zero =>
      intro st cur offset r h
      exact (Except.noConfusion h)
  | succ m ih =>
      intro st cur offset r h
      unfold createEntryFindSlot at h
      rw [except_bind_eq_ok] at h
      obtain ⟨sco, hsco, h⟩ := h
      have hsco1 : sco.1 = st := by
        unfold createEntryFindSlotStep at hsco
        by_cases hbig : sectorBordersIsBig st.sectorSizeByte offset
            (sizeEntryHeader st.maxLenFilename) = true
        · rw [if_pos hbig] at hsco
          rw [except_bind_eq_ok] at hsco
          obtain ⟨bh, hbh, hsco⟩ := hsco
          rw [except_bind_eq_ok] at hsco
          obtain ⟨nextOpt, hnx, hsco⟩ := hsco
          cases nextOpt with
          | none =>
              exact absurd rfl
                (sectorGetNextNumber_ne_none st.img bh.1 none hnx)
          | some n =>
              injection hsco with hsco
              rw [← hsco]
        · rw [if_neg hbig] at hsco
          rw [except_pure_eq] at hsco
          injection hsco with hsco
          rw [← hsco]
      rw [except_bind_eq_ok] at h
      obtain ⟨bh1, hbh1, h⟩ := h
      rw [except_bind_eq_ok] at h
      obtain ⟨bytes, hbytes, h⟩ := h
      by_cases hempty : (EntryHeader.createFromRaw bytes).firstSector = -1
      · rw [if_pos hempty, except_pure_eq] at h
        injection h with h
        rw [← h]
        exact hsco1
      · rw [if_neg hempty] at h
        exact (ih sco.1 sco.2.1 _ r h).trans hsco1

theorem createEntry_ok_spec (st : MTD) (entryParent : SmartEntry)
    (name : String) (etype : Nat) (mode : ModeBits) (fuel : Nat)
    (st4 : MTD) (eh : EntryHeader)
    (hc : CoreInv st) (hrl : RowLen st) (hso : SmapOk st)
    (hok : createEntry st entryParent name etype mode fuel = .ok (st4, eh)) :
    CoreInv st4 ∧ RowLen st4 ∧ SmapOk st4 ∧ MtdConfigEq st st4 ∧
    (∀ x, st.smap x ≠ PS_NOT_ALLOCATED → st4.smap x = st.smap x) ∧
    eh.firstSector.toNat < st.totalsectors ∧
    st4.smap eh.firstSector.toNat ≠ PS_NOT_ALLOCATED ∧
    st.smap eh.firstSector.toNat = PS_NOT_ALLOCATED := by
  unfold createEntry at hok
  by_cases hlen : name.length > st.maxLenFilename
  · rw [if_pos hlen] at hok
    exact (Except.noConfusion hok)
  · rw [if_neg hlen] at hok
    by_cases hneg : entryParent.firstSector < 0
    · rw [if_pos hneg] at hok
      exact (Except.noConfusion hok)
    · rw [if_neg hneg] at hok
      rw [except_bind_eq_ok] at hok
      obtain ⟨bh0, hbh0, hok⟩ := hok
      rw [except_bind_eq_ok] at hok
      obtain ⟨slot, hslot, hok⟩ := hok
      rw [except_bind_eq_ok] at hok
      obtain ⟨ra, hra, hok⟩ := hok
      rw [except_bind_eq_ok] at hok
      obtain ⟨st3, h3, hok⟩ := hok
      rw [except_bind_eq_ok] at hok
      obtain ⟨packed, hpk, hok⟩ := hok
      rw [except_bind_eq_ok] at hok
      obtain ⟨st4', h4, hok⟩ := hok
      rw [except_pure_eq] at hok
      injection hok with hok
      have hst4 : st4 = st4' := (congrArg Prod.fst hok).symm
      have heh : eh = { slot.2.2.2 with
          name := name
          firstSector := Int.ofNat ra.2
          utc := st.clock
          flags := { slot.2.2.2.flags with
                       empty := 0
                       typeBit := etype
                       mode := mode.getInt } } :=
        (congrArg Prod.snd hok).symm
      have hfsn : eh.firstSector.toNat = ra.2 := by
        rw [heh]
        rfl
      have hslot1 : slot.1 = st :=
        createEntryFindSlot_state fuel st entryParent.firstSector.toNat
          chainHeaderSize slot hslot
      rw [hslot1] at hra
      have hrows : st.fsmRows.length ≤ st.neraseblocks := by
        rw [hc.1.1]
        simp
      have hpost := allocSector_ok_spec st LS_HIGHT_NUMBER none ra.1 ra.2
        (le_trans (by norm_num) hc.2.1) hrows (hra.trans rfl)
      have hc1 : CoreInv ra.1 := coreInv_alloc st ra.1 none ra.2 hc hpost
      have hrl1 : RowLen ra.1 := rowLen_alloc st ra.1 none ra.2 hc.1 hrl
        hpost
      have hso1 : SmapOk ra.1 := smapOk_alloc st ra.1 ra.2 hc.1 hrl hso
        hpost
      have hfr3 := mtdSetBytesLog_frame ra.1 ra.2 0 _ st3 h3
      have hfr4 := mtdSetBytesLog_frame st3 slot.2.1 slot.2.2.1 packed
        st4' h4
      have hc3 : CoreInv st3 := by
        rw [hfr3]
        exact coreInv_img ra.1 st3.img hc1
      have hrl3 : RowLen st3 := by
        rw [hfr3]
        exact rowLen_img ra.1 st3.img hrl1
      have hso3 : SmapOk st3 := by
        rw [hfr3]
        exact smapOk_img ra.1 st3.img hso1
      have hsm3 : st3.smap = ra.1.smap := by rw [hfr3]
      have hsm4 : st4'.smap = st3.smap := by rw [hfr4]
      have hcfg3 : MtdConfigEq ra.1 st3 := by
        rw [hfr3]
        exact mtdConfigEq_img ra.1 ra.1 st3.img (mtdConfigEq_refl ra.1)
      have hcfg4 : MtdConfigEq st3 st4' := by
        rw [hfr4]
        exact mtdConfigEq_img st3 st3 st4'.img (mtdConfigEq_refl st3)
      have hpres : ∀ x, st.smap x ≠ PS_NOT_ALLOCATED →
          st4'.smap x = st.smap x := by
        intro x hx
        have hxl : x ≠ ra.2 := fun hcc => by
          subst hcc
          exact hx hpost.smapOld
        rw [hsm4, hsm3, hpost.smapNew]
        exact updFn_other _ _ _ _ hxl
      subst hst4
      refine ⟨?_, ?_, ?_, ?_, hpres, ?_, ?_, ?_⟩
      · rw [hfr4]
        exact coreInv_img st3 st4.img hc3
      · rw [hfr4]
        exact rowLen_img st3 st4.img hrl3
      · rw [hfr4]
        exact smapOk_img st3 st4.img hso3
      · exact mtdConfigEq_trans (mtdConfigEq_trans hpost.cfg hcfg3) hcfg4
      · rw [hfsn]
        exact hpost.lLt
      · rw [hfsn, hsm4, hsm3]
        exact hpost.physNe
      · rw [hfsn]
        exact hpost.smapOld

/-! ## The content-streaming loop of `cmd_file_create_write` -/

theorem alloc_phys_fresh (st st' : MTD) (l : Nat)
    (hshape : FsmShape st) (hrl : RowLen st)
    (hpost : AllocPost st none st' l) (x : Nat)
    (hux : UsedCls st (st.smap x)) : st'.smap l ≠ st.smap x := by
  obtain ⟨block, i, _, hlt, hone, hphys, hstore⟩ := hpost.fsmNone rfl
  intro hcontra
  unfold UsedCls at hux
  rw [hphys] at hcontra
  have hilen : i < (st.fsmRow 0).length := by
    rw [fsmRow_of_shape st hshape 0]
    rw [fsmRow_of_shape st hshape block] at hlt
    exact hlt
  have hispb : i < st.sectorsperblk := by
    unfold RowLen at hrl
    rw [fsmRow_of_shape st hshape 0] at hilen
    omega
  have hmod : (block * st.sectorsperblk + i) % st.sectorsperblk = i := by
    rw [show block * st.sectorsperblk + i = i + block * st.sectorsperblk
          from by omega,
      Nat.add_mul_mod_self_right]
    exact Nat.mod_eq_of_lt hispb
  rw [← hcontra, hmod] at hux
  rw [fsmRow_of_shape st hshape _] at hux
  rw [fsmRow_of_shape st hshape block] at hone
  omega

/-- `streamSlices` on no slices returns the state unchanged. -/
theorem streamSlices_post_nil (st : MTD) (cur : Nat) (st' : MTD)
    (hc : CoreInv st) (hrl : RowLen st) (hso : SmapOk st)
    (h : streamSlices st cur [] = .ok st') :
    StreamPost st cur [] st' := by
  unfold StreamPost
  rw [show streamSlices st cur [] = pure st from rfl,
    except_pure_eq] at h
  injection h with h
  subst h
  refine ⟨hc, hrl, hso, mtdConfigEq_refl st, fun x _ => rfl,
    [], ?_, ?_, ?_, ?_, ?_, ?_⟩
  · exact ⟨rfl, fun k hk => absurd hk (by simp),
      fun k hk => absurd hk (by simp),
      fun k hk => absurd hk (by simp),
      fun hne => absurd rfl hne, fun hne => absurd rfl hne⟩
  · exact fun hne => absurd rfl hne
  · exact fun k hk => absurd hk (by simp)
  · exact fun k hk => absurd hk (by simp)
  · exact fun x _ k hk _ => absurd hk (by simp)
  · exact fun a _ => rfl

/-- A single final slice: one `writeSectorData` with the terminal
chain header. -/
theorem streamSlices_post_one (d : List Nat) (st : MTD) (cur : Nat)
    (st' : MTD) (hc : CoreInv st) (hrl : RowLen st) (hso : SmapOk st)
    (hcur : st.smap cur ≠ PS_NOT_ALLOCATED) (hlt : cur < st.totalsectors)
    (hlen65 : d.length < 65536)
    (h : writeSectorData st cur d = .ok st') :
    StreamPost st cur [d] st' := by
  unfold StreamPost
  obtain ⟨heq1, hb1, hch1, hpay1, hfr1⟩ :=
    writeSectorData_spec st cur d st' h
  have hsm1 : st'.smap = st.smap := by rw [heq1]
  have hssb1 : st'.sectorSizeByte = st.sectorSizeByte := by rw [heq1]
  have hc1 : CoreInv st' := by
    rw [heq1]
    exact coreInv_img st st'.img hc
  have hrl1 : RowLen st' := by
    rw [heq1]
    exact rowLen_img st st'.img hrl
  have hso1 : SmapOk st' := by
    rw [heq1]
    exact smapOk_img st st'.img hso
  have hcfg1 : MtdConfigEq st st' := by
    rw [heq1]
    exact mtdConfigEq_img st st st'.img (mtdConfigEq_refl st)
  have hbase : sectorBase st' cur =
      st.smap cur * st.sectorSizeByte := by
    unfold sectorBase
    rw [hsm1, hssb1]
  have hg0 : (ChainHeader.getPack ⟨2, 0xffff, d.length⟩).getD 0 0 =
      2 := rfl
  have hL : (ChainHeader.getPack ⟨2, 0xffff, d.length⟩ : List Nat) =
      2 % 256 :: 65535 % 256 :: 65535 / 256 % 256 :: d.length % 256 ::
      [d.length / 256 % 256] := rfl
  have hg1 : (ChainHeader.getPack ⟨2, 0xffff, d.length⟩).getD 1 0 =
      255 := by rw [hL]; exact rfl
  have hg2 : (ChainHeader.getPack ⟨2, 0xffff, d.length⟩).getD 2 0 =
      255 := by rw [hL]; exact rfl
  have hg3 : (ChainHeader.getPack ⟨2, 0xffff, d.length⟩).getD 3 0 =
      d.length % 256 := rfl
  have hg4 : (ChainHeader.getPack ⟨2, 0xffff, d.length⟩).getD 4 0 =
      d.length / 256 % 256 := rfl
  have htype : chTypeOf st' cur = 2 := by
    unfold chTypeOf
    rw [hbase, show st.smap cur * st.sectorSizeByte + 5 =
      st.smap cur * st.sectorSizeByte + 5 + 0 from rfl,
      hch1 0 (by omega), hg0]
  have hused : chUsedOf st' cur = d.length := by
    unfold chUsedOf
    rw [hbase, show st.smap cur * st.sectorSizeByte + 8 =
      st.smap cur * st.sectorSizeByte + 5 + 3 from rfl,
      show st.smap cur * st.sectorSizeByte + 9 =
      st.smap cur * st.sectorSizeByte + 5 + 4 from rfl,
      hch1 3 (by omega), hch1 4 (by omega), hg3, hg4]
    omega
  have hnextv : chNextOf st' cur = 0xffff := by
    unfold chNextOf
    rw [hbase, show st.smap cur * st.sectorSizeByte + 6 =
      st.smap cur * st.sectorSizeByte + 5 + 1 from rfl,
      show st.smap cur * st.sectorSizeByte + 7 =
      st.smap cur * st.sectorSizeByte + 5 + 2 from rfl,
      hch1 1 (by omega), hch1 2 (by omega), hg1, hg2]
  have hpayok : payloadOf st' cur d.length = d := by
    unfold payloadOf
    rw [hbase]
    have := regionList_eq_of_getD st'.img
      (st.smap cur * st.sectorSizeByte + 10) d (fun i hi => by
        rw [show st.smap cur * st.sectorSizeByte + 10 + i =
          st.smap cur * st.sectorSizeByte + 10 + i from rfl]
        exact hpay1 i hi)
    exact this
  refine ⟨hc1, hrl1, hso1, hcfg1,
    fun x _ => by rw [hsm1], [cur], ?_, ?_, ?_, ?_, ?_, ?_⟩
  · refine ⟨rfl, ?_, ?_, ?_, ?_, ?_⟩
    · intro k hk
      have hk0 : k = 0 := by
        simp only [List.length_cons, List.length_nil] at hk
        omega
      subst hk0
      show st'.smap cur ≠ PS_NOT_ALLOCATED
      rw [hsm1]
      exact hcur
    · intro k hk
      have hk0 : k = 0 := by
        simp only [List.length_cons, List.length_nil] at hk
        omega
      subst hk0
      exact ⟨htype, hused, hpayok⟩
    · intro k hk
      simp only [List.length_cons, List.length_nil] at hk
      omega
    · intro _
      exact hnextv
    · intro _
      show chainFollow st' cur 1 = [cur]
      rw [show chainFollow st' cur 1 = cur ::
        (if chNextOf st' cur = 0xffff then []
         else chainFollow st' (chNextOf st' cur) 0) from rfl,
        if_pos hnextv]
  · exact fun _ => rfl
  · intro k hk
    have hk0 : k = 0 := by
      simp only [List.length_cons, List.length_nil] at hk
      omega
    subst hk0
    exact hlt
  · intro k hk
    have hk0 : k = 0 := by
      simp only [List.length_cons, List.length_nil] at hk
      omega
    subst hk0
    exact Or.inl rfl
  · intro x hx k hk hfr
    have hk0 : k = 0 := by
      simp only [List.length_cons, List.length_nil] at hk
      omega
    subst hk0
    exact absurd hfr hcur
  · intro a hreg
    have := hreg 0 (by simp)
    rw [show (([cur] : List Nat).getD 0 0) = cur from rfl,
      hsm1] at this
    exact hfr1 a this

set_option maxHeartbeats 1000000 in
/-- The inductive step of the streaming loop: write the current slice,
allocate the next chain sector, restamp the chain header with its
number, and continue. -/
theorem streamSlices_post_step (d d2 : List Nat) (rest2 : List (List Nat))
    (st : MTD) (cur : Nat) (st' : MTD)
    (hstep : ∀ (s : MTD) (c : Nat) (t : MTD), CoreInv s → RowLen s →
      SmapOk s → s.smap c ≠ PS_NOT_ALLOCATED → c < s.totalsectors →
      (∀ e, e ∈ d2 :: rest2 → e.length < 65536) →
      streamSlices s c (d2 :: rest2) = .ok t →
      StreamPost s c (d2 :: rest2) t)
    (hc : CoreInv st) (hrl : RowLen st) (hso : SmapOk st)
    (hcur : st.smap cur ≠ PS_NOT_ALLOCATED) (hlt : cur < st.totalsectors)
    (hdl : ∀ e, e ∈ d :: d2 :: rest2 → e.length < 65536)
    (h : streamSlices st cur (d :: d2 :: rest2) = .ok st') :
    StreamPost st cur (d :: d2 :: rest2) st' := by
  unfold StreamPost
  have hlen65 : d.length < 65536 := hdl d (by simp)
  rw [show streamSlices st cur (d :: d2 :: rest2) = (do
      let st1 ← writeSectorData st cur d
      let ra ← allocSector st1 LS_HIGHT_NUMBER none
      let bh ← logSectorGet ra.1 cur
      let chBytes ← sectorReadBytes ra.1.img bh.1 ra.1.sectorSizeByte 0
        chainHeaderSize
      let ch ← ChainHeader.createFromRaw chBytes
      let st3 ← mtdSetBytesLog ra.1 cur 0
        (ChainHeader.getPack { ch with nextSector := ra.2 })
      streamSlices st3 ra.2 (d2 :: rest2)) from rfl] at h
  rw [except_bind_eq_ok] at h
  obtain ⟨st1, hw, h⟩ := h
  rw [except_bind_eq_ok] at h
  obtain ⟨ra, hra, h⟩ := h
  rw [except_bind_eq_ok] at h
  obtain ⟨bh, hbh, h⟩ := h
  rw [except_bind_eq_ok] at h
  obtain ⟨chBytes, hcb, h⟩ := h
  rw [except_bind_eq_ok] at h
  obtain ⟨ch, hchp, h⟩ := h
  rw [except_bind_eq_ok] at h
  obtain ⟨st3, h3, h⟩ := h
  obtain ⟨heq1, hb1, hch1, hpay1, hfr1⟩ :=
    writeSectorData_spec st cur d st1 hw
  have hsm1 : st1.smap = st.smap := by rw [heq1]
  have hssb1 : st1.sectorSizeByte = st.sectorSizeByte := by rw [heq1]
  have htot1 : st1.totalsectors = st.totalsectors := by rw [heq1]
  have hc1 : CoreInv st1 := by
    rw [heq1]
    exact coreInv_img st st1.img hc
  have hrl1 : RowLen st1 := by
    rw [heq1]
    exact rowLen_img st st1.img hrl
  have hso1 : SmapOk st1 := by
    rw [heq1]
    exact smapOk_img st st1.img hso
  have hcfg1 : MtdConfigEq st st1 := by
    rw [heq1]
    exact mtdConfigEq_img st st st1.img (mtdConfigEq_refl st)
  have hssb10 : 10 ≤ st.sectorSizeByte := by omega
  have hrows1 : st1.fsmRows.length ≤ st1.neraseblocks := by
    rw [hc1.1.1]
    simp
  have hpost := allocSector_ok_spec st1 LS_HIGHT_NUMBER none ra.1
    ra.2 (le_trans (by norm_num) hc1.2.1) hrows1 (hra.trans rfl)
  have hc2 : CoreInv ra.1 :=
    coreInv_alloc st1 ra.1 none ra.2 hc1 hpost
  have hrl2 : RowLen ra.1 :=
    rowLen_alloc st1 ra.1 none ra.2 hc1.1 hrl1 hpost
  have hso2 : SmapOk ra.1 :=
    smapOk_alloc st1 ra.1 ra.2 hc1.1 hrl1 hso1 hpost
  have hfreshPhys : ∀ x, st1.smap x ≠ PS_NOT_ALLOCATED →
      ra.1.smap ra.2 ≠ st1.smap x := fun x hx =>
    alloc_phys_fresh st1 ra.1 ra.2 hc1.1 hrl1 hpost x (hso1 x hx)
  have hcurne : cur ≠ ra.2 := by
    intro hcc
    have hm1 : st1.smap cur ≠ PS_NOT_ALLOCATED := by
      rw [hsm1]
      exact hcur
    rw [hcc] at hm1
    exact hm1 hpost.smapOld
  have hsmra_cur : ra.1.smap cur = st.smap cur := by
    rw [hpost.smapNew, updFn_other _ _ _ _ hcurne, hsm1]
  have hssbra : ra.1.sectorSizeByte = st.sectorSizeByte := by
    rw [hpost.cfg.ssb_eq, hssb1]
  have hbase : bh.1 = st.smap cur * st.sectorSizeByte := by
    rw [logSectorGet_ok_base ra.1 cur bh hbh, hsmra_cur, hssbra]
  have hraView : ∀ a, st.smap cur * st.sectorSizeByte ≤ a →
      a < st.smap cur * st.sectorSizeByte + st.sectorSizeByte →
      ra.1.img a = st1.img a := by
    intro a h1 h2
    apply hpost.imgFrame
    rw [hssb1]
    have hne := hfreshPhys cur (by rw [hsm1]; exact hcur)
    rw [hsm1] at hne
    exact view_disjoint (ra.1.smap ra.2) (st.smap cur)
      st.sectorSizeByte a hne h1 h2
  have hcbv : chBytes = regionList ra.1.img (bh.1 + 5 + 0)
      chainHeaderSize := by
    unfold sectorReadBytes at hcb
    by_cases hbd : ra.1.sectorSizeByte < 5 + 0 + chainHeaderSize
    · rw [if_pos hbd] at hcb
      exact (Except.noConfusion hcb)
    · rw [if_neg hbd] at hcb
      injection hcb with hcb
      exact hcb.symm
  have hpl0 : (ChainHeader.getPack ⟨2, 0xffff, d.length⟩).length =
      5 := rfl
  have hcbv2 : chBytes = ChainHeader.getPack ⟨2, 0xffff, d.length⟩ := by
    rw [hcbv, hbase]
    show regionList ra.1.img
        (st.smap cur * st.sectorSizeByte + 5 + 0)
        (ChainHeader.getPack ⟨2, 0xffff, d.length⟩).length =
      ChainHeader.getPack ⟨2, 0xffff, d.length⟩
    apply regionList_eq_of_getD
    intro i hi
    have hi5 : i < 5 := by
      rw [hpl0] at hi
      exact hi
    rw [show st.smap cur * st.sectorSizeByte + 5 + 0 + i =
      st.smap cur * st.sectorSizeByte + 5 + i from by omega]
    rw [hraView _ (by omega) (by omega)]
    exact hch1 i hi5
  have hchv : ch = ⟨2, 0xffff, d.length⟩ := by
    rw [hcbv2, chainHeader_roundtrip 2 0xffff d.length
      (Or.inr rfl)] at hchp
    injection hchp with hchp
    rw [← hchp]
    have hx1 : (0xffff : Nat) % 65536 = 0xffff := by norm_num
    have hx2 : d.length % 65536 = d.length :=
      Nat.mod_eq_of_lt hlen65
    rw [hx1, hx2]
  have hval : ChainHeader.getPack { ch with nextSector := ra.2 } =
      ChainHeader.getPack ⟨2, ra.2, d.length⟩ := by
    rw [hchv]
  obtain ⟨heq3, hb3, packed3, hpl3, himg3⟩ :=
    mtdSetBytesLog_shape ra.1 cur 0 _ st3 h3
  rw [hsmra_cur, hssbra, hval] at himg3
  have hplV : (ChainHeader.getPack ⟨2, ra.2, d.length⟩).length =
      5 := rfl
  have hsm3 : st3.smap = ra.1.smap := by rw [heq3]
  have hssb3 : st3.sectorSizeByte = ra.1.sectorSizeByte := by
    rw [heq3]
  have hc3 : CoreInv st3 := by
    rw [heq3]
    exact coreInv_img ra.1 st3.img hc2
  have hrl3 : RowLen st3 := by
    rw [heq3]
    exact rowLen_img ra.1 st3.img hrl2
  have hso3 : SmapOk st3 := by
    rw [heq3]
    exact smapOk_img ra.1 st3.img hso2
  have hcfg3 : MtdConfigEq ra.1 st3 := by
    rw [heq3]
    exact mtdConfigEq_img ra.1 ra.1 st3.img (mtdConfigEq_refl ra.1)
  have hssbF : st.sectorSizeByte = st3.sectorSizeByte := by
    rw [hssb3, hssbra]
  have htot3 : st3.totalsectors = st.totalsectors := by
    rw [hcfg3.total_eq, hpost.cfg.total_eq, htot1]
  have hch3 : ∀ i, i < 5 →
      st3.img (st.smap cur * st.sectorSizeByte + 5 + i) =
      (ChainHeader.getPack ⟨2, ra.2, d.length⟩).getD i 0 := by
    intro i hi
    rw [himg3]
    rw [writeRange_apply_out _ _ _ _ (Or.inr (by rw [hpl3]; omega))]
    rw [show st.smap cur * st.sectorSizeByte + 5 + i =
      (st.smap cur * st.sectorSizeByte + 5 + 0) + i from by omega]
    exact writeRange_apply_add _ _ _ i (by rw [hplV]; omega)
  have hpay3 : ∀ i, i < d.length →
      st3.img (st.smap cur * st.sectorSizeByte + 10 + i) =
      d.getD i 0 := by
    intro i hi
    rw [himg3]
    rw [writeRange_apply_out _ _ _ _ (Or.inr (by rw [hpl3]; omega))]
    rw [writeRange_apply_out _ _ _ _ (Or.inr (by rw [hplV]; omega))]
    rw [hraView _ (by omega) (by omega)]
    exact hpay1 i hi
  have hm3ra : st3.smap ra.2 ≠ PS_NOT_ALLOCATED := by
    rw [hsm3]
    exact hpost.physNe
  have hra2lt : ra.2 < st.totalsectors := by
    have hv := hpost.lLt
    rw [htot1] at hv
    exact hv
  have htotle : st.totalsectors ≤ 65535 := by
    obtain ⟨-, -, htotf, hrawle, -⟩ := hc
    by_cases h6 : st.rawTotal = 65536
    · rw [htotf, if_pos h6]
      omega
    · rw [htotf, if_neg h6]
      omega
  have hIH := hstep st3 ra.2 st' hc3 hrl3 hso3 hm3ra
    (by rw [htot3]; exact hra2lt)
    (fun d' hd' => hdl d' (List.mem_cons_of_mem d hd')) h
  unfold StreamPost at hIH
  obtain ⟨hc', hrl', hso', hcfg', hpres', secs', hFCO', hhead',
    hlt', hfresh', hF2', hframe'⟩ := hIH
  obtain ⟨hlen', hmap', hcont', hnext', hlast', hfollow'⟩ := hFCO'
  have hrestne : (d2 :: rest2 : List (List Nat)) ≠ [] := by simp
  have hsecs'ne : secs' ≠ [] := by
    intro hcc
    rw [hcc] at hlen'
    simp at hlen'
  have hsecs'pos : 0 < secs'.length := List.length_pos.mpr hsecs'ne
  have hhd : secs'.getD 0 0 = ra.2 := hhead' hrestne
  have hm3cur : st3.smap cur ≠ PS_NOT_ALLOCATED := by
    rw [hsm3, hsmra_cur]
    exact hcur
  have hsmF_cur : st'.smap cur = st.smap cur := by
    rw [hpres' cur hm3cur, hsm3, hsmra_cur]
  have hsra2 : st'.smap ra.2 = ra.1.smap ra.2 := by
    rw [hpres' ra.2 hm3ra, hsm3]
  have hcurPersist : ∀ a, st.smap cur * st.sectorSizeByte ≤ a →
      a < st.smap cur * st.sectorSizeByte + st.sectorSizeByte →
      st'.img a = st3.img a := by
    intro a h1 h2
    apply hframe' a
    intro k hk
    have hd2 : st'.smap (secs'.getD k 0) ≠ st.smap cur := by
      rcases hfresh' k hk with hcc | hfr2
      · rw [hcc, hsra2]
        have hne := hfreshPhys cur (by rw [hsm1]; exact hcur)
        rw [hsm1] at hne
        exact hne
      · have hz := hF2' cur hm3cur k hk hfr2
        rw [hsm3, hsmra_cur] at hz
        exact hz
    rw [← hssbF]
    exact view_disjoint _ (st.smap cur) st.sectorSizeByte a hd2 h1 h2
  have hchF : ∀ i, i < 5 →
      st'.img (st.smap cur * st.sectorSizeByte + 5 + i) =
      (ChainHeader.getPack ⟨2, ra.2, d.length⟩).getD i 0 := by
    intro i hi
    rw [hcurPersist _ (by omega) (by omega)]
    exact hch3 i hi
  have hpayF : ∀ i, i < d.length →
      st'.img (st.smap cur * st.sectorSizeByte + 10 + i) =
      d.getD i 0 := by
    intro i hi
    rw [hcurPersist _ (by omega) (by omega)]
    exact hpay3 i hi
  have hbaseF : sectorBase st' cur =
      st.smap cur * st.sectorSizeByte := by
    unfold sectorBase
    rw [hsmF_cur, hcfg'.ssb_eq, ← hssbF]
  have hg0 : (ChainHeader.getPack ⟨2, ra.2, d.length⟩).getD 0 0 =
      2 := rfl
  have hg1 : (ChainHeader.getPack ⟨2, ra.2, d.length⟩).getD 1 0 =
      ra.2 % 256 := rfl
  have hg2 : (ChainHeader.getPack ⟨2, ra.2, d.length⟩).getD 2 0 =
      ra.2 / 256 % 256 := rfl
  have hg3 : (ChainHeader.getPack ⟨2, ra.2, d.length⟩).getD 3 0 =
      d.length % 256 := rfl
  have hg4 : (ChainHeader.getPack ⟨2, ra.2, d.length⟩).getD 4 0 =
      d.length / 256 % 256 := rfl
  have htype : chTypeOf st' cur = 2 := by
    unfold chTypeOf
    rw [hbaseF, show st.smap cur * st.sectorSizeByte + 5 =
      st.smap cur * st.sectorSizeByte + 5 + 0 from rfl,
      hchF 0 (by omega), hg0]
  have hused : chUsedOf st' cur = d.length := by
    unfold chUsedOf
    rw [hbaseF, show st.smap cur * st.sectorSizeByte + 8 =
      st.smap cur * st.sectorSizeByte + 5 + 3 from rfl,
      show st.smap cur * st.sectorSizeByte + 9 =
      st.smap cur * st.sectorSizeByte + 5 + 4 from rfl,
      hchF 3 (by omega), hchF 4 (by omega), hg3, hg4]
    omega
  have hnextv : chNextOf st' cur = ra.2 := by
    unfold chNextOf
    rw [hbaseF, show st.smap cur * st.sectorSizeByte + 6 =
      st.smap cur * st.sectorSizeByte + 5 + 1 from rfl,
      show st.smap cur * st.sectorSizeByte + 7 =
      st.smap cur * st.sectorSizeByte + 5 + 2 from rfl,
      hchF 1 (by omega), hchF 2 (by omega), hg1, hg2]
    omega
  have hpayok : payloadOf st' cur d.length = d := by
    unfold payloadOf
    rw [hbaseF]
    exact regionList_eq_of_getD st'.img
      (st.smap cur * st.sectorSizeByte + 10) d
      (fun i hi => hpayF i hi)
  have hra2ne : ra.2 ≠ 0xffff := by omega
  have hpresF : ∀ x, st.smap x ≠ PS_NOT_ALLOCATED →
      st'.smap x = st.smap x := by
    intro x hx
    have hx1 : st1.smap x ≠ PS_NOT_ALLOCATED := by
      rw [hsm1]
      exact hx
    have hxra : x ≠ ra.2 := by
      intro hcc
      rw [hcc] at hx1
      exact hx1 hpost.smapOld
    have hx3v : st3.smap x = st.smap x := by
      rw [hsm3, hpost.smapNew, updFn_other _ _ _ _ hxra, hsm1]
    have hx3 : st3.smap x ≠ PS_NOT_ALLOCATED := by
      rw [hx3v]
      exact hx
    rw [hpres' x hx3, hx3v]
  refine ⟨hc', hrl', hso',
    mtdConfigEq_trans (mtdConfigEq_trans
      (mtdConfigEq_trans hcfg1 hpost.cfg) hcfg3) hcfg',
    hpresF, cur :: secs', ?_, fun _ => rfl, ?_, ?_, ?_, ?_⟩
  · refine ⟨?_, ?_, ?_, ?_, ?_, ?_⟩
    · simp only [List.length_cons, hlen']
    · intro k hk
      cases k with
      | zero =>
          show st'.smap cur ≠ PS_NOT_ALLOCATED
          rw [hsmF_cur]
          exact hcur
      | succ j =>
          exact hmap' j (by
            simp only [List.length_cons] at hk
            omega)
    · intro k hk
      cases k with
      | zero => exact ⟨htype, hused, hpayok⟩
      | succ j =>
          exact hcont' j (by
            simp only [List.length_cons] at hk ⊢
            omega)
    · intro k hk
      cases k with
      | zero =>
          show chNextOf st' cur = (cur :: secs').getD 1 0
          rw [show ((cur :: secs').getD 1 0) = secs'.getD 0 0
            from rfl, hhd]
          exact hnextv
      | succ j =>
          exact hnext' j (by
            simp only [List.length_cons] at hk
            omega)
    · intro _
      show chNextOf st'
          ((cur :: secs').getD ((cur :: secs').length - 1) 0) =
        0xffff
      rw [show (cur :: secs').length - 1 =
        (secs'.length - 1) + 1 from by
          simp only [List.length_cons]
          omega]
      show chNextOf st' (secs'.getD (secs'.length - 1) 0) = 0xffff
      exact hlast' hsecs'ne
    · intro _
      show chainFollow st' cur (cur :: secs').length = cur :: secs'
      rw [show (cur :: secs').length = secs'.length + 1 from by
        simp]
      rw [show chainFollow st' cur (secs'.length + 1) = cur ::
        (if chNextOf st' cur = 0xffff then []
         else chainFollow st' (chNextOf st' cur) secs'.length)
        from rfl]
      rw [hnextv, if_neg hra2ne]
      have hfol := hfollow' hsecs'ne
      rw [hhd] at hfol
      rw [hfol]
  · intro k hk
    cases k with
    | zero => exact hlt
    | succ j =>
        have hv := hlt' j (by
          simp only [List.length_cons] at hk
          omega)
        rw [htot3] at hv
        exact hv
  · intro k hk
    cases k with
    | zero => exact Or.inl rfl
    | succ j =>
        have hj : j < secs'.length := by
          simp only [List.length_cons] at hk
          omega
        rcases hfresh' j hj with hcc | hfr2
        · refine Or.inr ?_
          show st.smap (secs'.getD j 0) = PS_NOT_ALLOCATED
          rw [hcc, ← hsm1]
          exact hpost.smapOld
        · by_cases hsr : secs'.getD j 0 = ra.2
          · rw [hsr] at hfr2
            exact absurd hfr2 hm3ra
          · refine Or.inr ?_
            show st.smap (secs'.getD j 0) = PS_NOT_ALLOCATED
            rw [hsm3, hpost.smapNew,
              updFn_other _ _ _ _ hsr, hsm1] at hfr2
            exact hfr2
  · intro x hx k hk hfr2
    have hx1 : st1.smap x ≠ PS_NOT_ALLOCATED := by
      rw [hsm1]
      exact hx
    have hxra : x ≠ ra.2 := by
      intro hcc
      rw [hcc] at hx1
      exact hx1 hpost.smapOld
    have hx3v : st3.smap x = st.smap x := by
      rw [hsm3, hpost.smapNew, updFn_other _ _ _ _ hxra, hsm1]
    have hx3 : st3.smap x ≠ PS_NOT_ALLOCATED := by
      rw [hx3v]
      exact hx
    cases k with
    | zero => exact absurd hfr2 hcur
    | succ j =>
        have hj : j < secs'.length := by
          simp only [List.length_cons] at hk
          omega
        show st'.smap (secs'.getD j 0) ≠ st.smap x
        rcases hfresh' j hj with hcc | hfr3
        · rw [hcc, hsra2, ← hsm1]
          exact hfreshPhys x hx1
        · have hz := hF2' x hx3 j hj hfr3
          rw [hx3v] at hz
          exact hz
  · intro a hreg
    have hregCur := hreg 0 (by simp)
    rw [show ((cur :: secs').getD 0 0) = cur from rfl,
      hsmF_cur] at hregCur
    have hreg1 := hreg 1 (by
      simp only [List.length_cons]
      omega)
    rw [show ((cur :: secs').getD 1 0) = secs'.getD 0 0 from rfl,
      hhd, hsra2] at hreg1
    have e4 : st'.img a = st3.img a := by
      apply hframe' a
      intro k hk
      rw [← hssbF]
      exact hreg (k + 1) (by
        simp only [List.length_cons]
        omega)
    have e3 : st3.img a = ra.1.img a := by
      rw [himg3]
      rw [writeRange_apply_out _ _ _ a (by
        rcases hregCur with hh | hh
        · exact Or.inl hh
        · exact Or.inr (by rw [hpl3]; omega))]
      exact writeRange_apply_out _ _ _ a (by
        rcases hregCur with hh | hh
        · exact Or.inl (by omega)
        · exact Or.inr (by rw [hplV]; omega))
    have e2 : ra.1.img a = st1.img a := by
      apply hpost.imgFrame a
      rw [hssb1]
      exact hreg1
    have e1 : st1.img a = st.img a := hfr1 a hregCur
    rw [e4, e3, e2, e1]

/-- Full correctness of the streaming loop of
`cmd_file_create_write`. -/
theorem streamSlices_ok_spec (slices : List (List Nat)) :
    ∀ (st : MTD) (cur : Nat) (st' : MTD),
    CoreInv st → RowLen st → SmapOk st →
    st.smap cur ≠ PS_NOT_ALLOCATED → cur < st.totalsectors →
    (∀ d, d ∈ slices → d.length < 65536) →
    streamSlices st cur slices = .ok st' →
    StreamPost st cur slices st' := by
  induction slices with
  | nil =>
      intro st cur st' hc hrl hso hcur hlt hdl h
      exact streamSlices_post_nil st cur st' hc hrl hso h
  | cons d rest ih =>
      intro st cur st' hc hrl hso hcur hlt hdl h
      cases rest with
      | nil =>
          rw [show streamSlices st cur [d] = writeSectorData st cur d
            from rfl] at h
          exact streamSlices_post_one d st cur st' hc hrl hso hcur hlt
            (hdl d (by simp)) h
      | cons d2 rest2 =>
          exact streamSlices_post_step d d2 rest2 st cur st' ih hc hrl hso
            hcur hlt hdl h

/-! ## Claim C5: file bodies are sliced and chained -/

theorem bodySlices_length (chunk : Nat) (body : List Nat) :
    (bodySlices chunk body).length = (body.length + chunk - 1) / chunk := by
  simp [bodySlices]

theorem bodySlices_getD (chunk : Nat) (body : List Nat) (k : Nat)
    (hk : k < (bodySlices chunk body).length) :
    (bodySlices chunk body).getD k [] =
      (body.drop (k * chunk)).take chunk := by
  rw [List.getD_eq_getElem _ _ hk]
  unfold bodySlices
  simp

theorem bodySlices_getD_length (chunk : Nat) (body : List Nat) (k : Nat)
    (hk : k < (bodySlices chunk body).length) :
    ((bodySlices chunk body).getD k []).length =
      min chunk (body.length - k * chunk) := by
  rw [bodySlices_getD chunk body k hk, List.length_take, List.length_drop]

theorem bodySlices_mem_le (chunk : Nat) (body : List Nat) (d : List Nat)
    (hd : d ∈ bodySlices chunk body) : d.length ≤ chunk := by
  unfold bodySlices at hd
  obtain ⟨k, _, hdk⟩ := List.mem_map.mp hd
  rw [← hdk, List.length_take]
  exact Nat.min_le_left _ _

theorem bodySlices_ne_nil (chunk : Nat) (body : List Nat)
    (hch : 0 < chunk) (hb : body ≠ []) : bodySlices chunk body ≠ [] := by
  intro hcc
  have hlp : 0 < body.length := List.length_pos.mpr hb
  have hlen := congrArg List.length hcc
  rw [bodySlices_length] at hlen
  simp only [List.length_nil] at hlen
  have hdivpos : 0 < (body.length + chunk - 1) / chunk :=
    Nat.div_pos (by omega) hch
  omega

set_option maxHeartbeats 1000000 in
/-- **C5 (corrected).**  `cmd_file_create_write` splits the body into
slices of `sector_size - 5 - 5` bytes; on success the run decomposes
into `_finddirentry`, `_createentry` and the content loop, and the
content loop builds a chain of sectors carrying exactly the slices:
each sector's CH `used` equals the number of payload bytes stored
there, the chain links through `next_sector` and ends at `0xffff`, and
for a NON-EMPTY body following the chain from the entry's
`first_sector` enumerates exactly the file's sectors.  For a 2000-byte
body at sector size 256 the last slice carries `2000 % 246` bytes.  The
spec's per-sector `used` promise fails only for an empty body, where no
slice is ever written and `used` stays `0xFFFF` (see the
counterexample). -/
theorem c5_file_write_chain (ss ebs ssc : Nat) (crc : CRCValue)
    (mlf nrd clk : Nat) (st : MTD)
    (hre : Reach ss ebs ssc crc mlf nrd clk st)
    (path : String) (body : List Nat) (mode : ModeBits) (fuel : Nat)
    (st' : MTD) (hssb : st.sectorSizeByte ≤ 65536)
    (hok : cmdFileCreateWrite st path body mode fuel = .ok st') :
    (∀ k, k < (bodySlices (st.sectorSizeByte - 5 - chainHeaderSize)
        body).length →
      ((bodySlices (st.sectorSizeByte - 5 - chainHeaderSize)
          body).getD k []).length =
        min (st.sectorSizeByte - 5 - chainHeaderSize)
          (body.length - k * (st.sectorSizeByte - 5 - chainHeaderSize))) ∧
    (body.length = 2000 → st.sectorSizeByte = 256 →
      ((bodySlices 246 body).getD ((bodySlices 246 body).length - 1)
        []).length = 2000 % 246) ∧
    ∃ de se,
      findDirEntry st (splitOsPath path).1 fuel = .ok de ∧
      createEntry st de (splitOsPath path).2 0 mode fuel = .ok se ∧
      streamSlices se.1 se.2.firstSector.toNat
        (bodySlices (st.sectorSizeByte - 5 - chainHeaderSize) body) =
        .ok st' ∧
      ∃ secs : List Nat,
        FileChainOk st' secs
          (bodySlices (st.sectorSizeByte - 5 - chainHeaderSize) body) ∧
        (body ≠ [] → secs ≠ [] ∧
          secs.getD 0 0 = se.2.firstSector.toNat ∧
          chainFollow st' se.2.firstSector.toNat secs.length = secs) := by
  obtain ⟨hc, -, hrl, hso⟩ :=
    reach_buildInv ss ebs ssc crc mlf nrd clk st hre
  have h5 : chainHeaderSize = 5 := rfl
  have hssb256 : 256 ≤ st.sectorSizeByte := hc.2.1
  have hch : 0 < st.sectorSizeByte - 5 - chainHeaderSize := by omega
  refine ⟨fun k hk => bodySlices_getD_length _ body k hk, ?_, ?_⟩
  · intro h2000 h256
    have hlen : (bodySlices 246 body).length = 9 := by
      rw [bodySlices_length, h2000]
    rw [hlen]
    have h8 : (8 : Nat) < (bodySlices 246 body).length := by
      rw [hlen]
      omega
    rw [show (9 : Nat) - 1 = 8 from rfl,
      bodySlices_getD_length 246 body 8 h8, h2000]
    decide
  · unfold cmdFileCreateWrite at hok
    by_cases habs : ¬ startsWithSlash path
    · rw [if_pos habs] at hok
      exact (Except.noConfusion hok)
    · rw [if_neg habs] at hok
      rw [except_bind_eq_ok] at hok
      obtain ⟨de, hde, hok⟩ := hok
      rw [except_bind_eq_ok] at hok
      obtain ⟨se, hse, hok⟩ := hok
      obtain ⟨hc4, hrl4, hso4, hcfg4, -, hfs_lt, hfs_mapped, -⟩ :=
        createEntry_ok_spec st de (splitOsPath path).2 0 mode fuel
          se.1 se.2 hc hrl hso (hse.trans rfl)
      have hpost := streamSlices_ok_spec
        (bodySlices (st.sectorSizeByte - 5 - chainHeaderSize) body)
        se.1 se.2.firstSector.toNat st' hc4 hrl4 hso4 hfs_mapped
        (by rw [hcfg4.total_eq]; exact hfs_lt)
        (fun dd hdd => lt_of_le_of_lt
          (bodySlices_mem_le _ body dd hdd) (by omega)) hok
      unfold StreamPost at hpost
      obtain ⟨-, -, -, -, -, secs, hFCO, hhead, -, -, -, -⟩ := hpost
      refine ⟨de, se, hde, hse, hok, secs, hFCO, ?_⟩
      intro hbne
      have hslne : bodySlices (st.sectorSizeByte - 5 - chainHeaderSize)
          body ≠ [] := bodySlices_ne_nil _ body hch hbne
      have hsecsne : secs ≠ [] := by
        intro hcc
        have hl0 := hFCO.1
        rw [hcc] at hl0
        simp only [List.length_nil] at hl0
        exact hslne (List.length_eq_zero.mp hl0.symm)
      have hh := hhead hslne
      have hfol := hFCO.2.2.2.2.2 hsecsne
      rw [hh] at hfol
      exact ⟨hsecsne, hh, hfol⟩

set_option maxRecDepth 20000 in
/-- Witness for C5: the 250-byte body at the small geometry (sector
size 256) is split into two slices of 246 and 4 bytes, and the run
produces a two-sector chain carrying them. -/
theorem c5_witness :
    (∀ k, k < (bodySlices (stSmall.sectorSizeByte - 5 - chainHeaderSize)
        bodyW).length →
      ((bodySlices (stSmall.sectorSizeByte - 5 - chainHeaderSize)
          bodyW).getD k []).length =
        min (stSmall.sectorSizeByte - 5 - chainHeaderSize)
          (bodyW.length -
            k * (stSmall.sectorSizeByte - 5 - chainHeaderSize))) ∧
    (bodyW.length = 2000 → stSmall.sectorSizeByte = 256 →
      ((bodySlices 246 bodyW).getD ((bodySlices 246 bodyW).length - 1)
        []).length = 2000 % 246) ∧
    ∃ de se,
      findDirEntry stSmall (splitOsPath "/w").1 300 = .ok de ∧
      createEntry stSmall de (splitOsPath "/w").2 0 modeRW 300 = .ok se ∧
      streamSlices se.1 se.2.firstSector.toNat
        (bodySlices (stSmall.sectorSizeByte - 5 - chainHeaderSize)
          bodyW) = .ok (okState c5runW) ∧
      ∃ secs : List Nat,
        FileChainOk (okState c5runW) secs
          (bodySlices (stSmall.sectorSizeByte - 5 - chainHeaderSize)
            bodyW) ∧
        (bodyW ≠ [] → secs ≠ [] ∧
          secs.getD 0 0 = se.2.firstSector.toNat ∧
          chainFollow (okState c5runW) se.2.firstSector.toNat
            secs.length = secs) :=
  c5_file_write_chain 10240 1024 0 .disable 16 0 0 stSmall
    (Reach.base stSmall rfl) "/w" bodyW modeRW 300 (okState c5runW)
    (by decide) rfl

set_option maxRecDepth 20000 in
/-- Counterexample for C5's literal reading: writing an EMPTY file body
succeeds, produces no slices, and leaves the file's single chain sector
(logical 12 at the small geometry) with `used = 0xFFFF` — the sentinel
stamped by `_createentry` — not the 0 bytes actually stored there. -/
theorem c5_counterexample :
    cmdFileCreateWrite stSmall "/e" [] modeRW 300 =
      .ok (okState c5runEmpty) ∧
    createEntry stSmall rootEntrySmall "e" 0 modeRW 300 =
      .ok (okStateEntry c5ceE) ∧
    (okStateEntry c5ceE).2.firstSector.toNat = 12 ∧
    bodySlices (stSmall.sectorSizeByte - 5 - chainHeaderSize)
      ([] : List Nat) = [] ∧
    chUsedOf (okState c5runEmpty) 12 = 0xffff ∧ (0xffff : Nat) ≠ 0 :=
  ⟨rfl, rfl, by decide, rfl, by decide, by decide⟩

end SmartFS
